import Mathlib

/-!
Rubik's cube engine (`RubiksControl.h`) and polygon renderer (`OpenGLPolygon_2_0.cpp`).

A shallow embedding of `Rubiks::CCube` and of `OpenGL::Polygon::CPolygonOpenGL_2_00`,
followed by the theorems about them.

Conventions of the embedding.

* `std::array<T, n>` is a function `Fin n → T`; `a[i]` with an `int` index is `arr_get` and
  `a[i] = v` is `arr_set`.
* `std::deque` and `std::vector` are lists; the head of the list is `front()`, the last
  element is `back()`.
* The `glm` matrices of the cube (`_data`, `_trans_scale`, `_current_pos`, `_animation`) are
  floating-point values that none of the integer state reads; they are not part of the state.
* A clock reading is an integer tick count; the `double` comparison against
  `_animation_time_s` is carried by the value `TSeconds`.
* A `float` or `double` is its bit pattern; the renderer stores and copies such values and
  computes nothing with them.
* `size_t` counts are natural numbers: a vector of floats and an array passed by pointer
  hold fewer than `2 ^ 62` elements, so the sums of two counts formed by the renderer do
  not wrap. Allocation failure in `resize` is not modelled.
* `ASSERT` and `assert` are inert, as in a production build.
* A function of the program that can run into undefined behaviour returns `Except TFault`.
-/

/-- How a run of the model ends when it does not return: on a read or write that C++ leaves
undefined, on a division by zero, or when the supplied random numbers are used up. -/
inductive TFault where
  | undefined_access
  | division_by_zero
  | draws_exhausted
deriving DecidableEq, Repr

namespace Rubiks

/-! ## Arrays -/

/-- Read `a[i]` of a `std::array` with `n` entries. An index outside the array has no defined
value in C++; the model reads `d` there. -/
def arr_get {α : Type} {n : Nat} (a : Fin n → α) (i : Nat) (d : α) : α :=
  if h : i < n then a ⟨i, h⟩ else d

/-- Assignment `a[i] = v` of a `std::array` with `n` entries: the array that holds `v` at
index `i` and the old entries elsewhere. -/
def arr_set {α : Type} {n : Nat} (a : Fin n → α) (i : Nat) (v : α) : Fin n → α :=
  fun p => if p.val = i then v else a p

/-! ## Data model -/

/-- Number of sub cubes, `c_no_of_cubes`. -/
def c_no_of_cubes : Nat := 27

/-- The type `TMapCubes = std::array<int, c_no_of_cubes>`: position index to sub cube. -/
abbrev TMapCubes := Fin 27 → Int

/-- The enumeration `enum class TAxis { x, y, z }`. -/
inductive TAxis where
  | x
  | y
  | z
deriving DecidableEq, Repr

/-- The enumeration `enum class TRow { low, mid, high }`. -/
inductive TRow where
  | low
  | mid
  | high
deriving DecidableEq, Repr

/-- The enumeration `enum class TDirection { left, right }`. -/
inductive TDirection where
  | left
  | right
deriving DecidableEq, Repr

/-- The record `struct TChangeOperation`. -/
structure TChangeOperation where
  _axis : TAxis
  _row : TRow
  _direction : TDirection
deriving DecidableEq, Repr

/-- The type `TChangeQueue = std::deque<TChangeOperation>`; the head is the front. -/
abbrev TChangeQueue := List TChangeOperation

/-- The type `CCube::TTime`, a reading of `std::chrono::high_resolution_clock`, as its count
of clock ticks. -/
abbrev TTime := Int

/-- A `double` number of seconds, the type of `_animation_time_s`. The program uses such a
value in one place, the test `DeltaTime_s(start, end) < _animation_time_s` of `Update`.
The value is represented by the outcome of that floating-point test for every pair of
clock readings: `d.past_lt start end` is `DeltaTime_s(start, end) < d`. -/
structure TSeconds where
  past_lt : TTime → TTime → Bool

/-- The integer state of `class CCube`. -/
structure CCube where
  _cube_map : TMapCubes
  _animation_time_s : TSeconds
  _pending_queue : TChangeQueue
  _animation_is_active : Bool
  _current_time : TTime
  _animation_start_time : TTime

/-- The function `CCube::AxisIndex`. -/
def AxisIndex : TAxis → Nat
  | TAxis.x => 0
  | TAxis.y => 1
  | TAxis.z => 2

/-- The function `CCube::RowIndex`. -/
def RowIndex : TRow → Nat
  | TRow.low => 0
  | TRow.mid => 1
  | TRow.high => 2

/-- The function `CCube::CubeIndex`. -/
def CubeIndex (c : CCube) (i : Int) : Int :=
  if i < 0 ∨ i ≥ 27 then -1 else arr_get c._cube_map i.toNat (-1)

/-- The function `CCube::AnimationActive`. -/
def AnimationActive (c : CCube) : Bool := c._animation_is_active

/-- The function `CCube::AnimationPending`. -/
def AnimationPending (c : CCube) : Bool :=
  c._animation_is_active || c._pending_queue.isEmpty == false

/-- The function `CCube::AnimationTime`. -/
def AnimationTime (c : CCube) (time_s : TSeconds) : CCube :=
  { c with _animation_time_s := time_s }

/-! ## Initialisation -/

/-- The index part of `CCube::InitGeometry`: the three nested loops assign
`_cube_map[z * 9 + y * 3 + x] = z * 9 + y * 3 + x`. -/
def InitGeometry_map (m : TMapCubes) : TMapCubes :=
  (List.range 3).foldl (fun m z =>
    (List.range 3).foldl (fun m y =>
      (List.range 3).foldl (fun m x =>
        let i := z * 9 + y * 3 + x
        arr_set m i (i : Int)) m) m) m

/-- The function `CCube::InitGeometry`. -/
def InitGeometry (c : CCube) : CCube :=
  { c with _cube_map := InitGeometry_map c._cube_map }

/-- The function `CCube::Init`: `InitGeometry`, then matrix resets that do not touch the
integer state. -/
def Init (c : CCube) : CCube := InitGeometry c

/-- The default `_animation_time_s{ 0 }`: `DeltaTime_s(start, end) < 0` holds when the whole
milliseconds from `start` to `end`, rounded toward zero as `duration_cast` does, are
negative; `ticks_per_ms` is the number of clock ticks in a millisecond. -/
def TSeconds.zero (ticks_per_ms : Int) : TSeconds :=
  ⟨fun time_start time_end => decide (Int.tdiv (time_end - time_start) ticks_per_ms < 0)⟩

/-- The constructor `CCube( float offset, float scale )`: the default member initialisers,
then `Init`. The array `_cube_map` is not initialised before `Init` fills it. -/
def CCube.ctor (ticks_per_ms : Int) : CCube :=
  Init
    { _cube_map := fun _ => 0
      _animation_time_s := TSeconds.zero ticks_per_ms
      _pending_queue := []
      _animation_is_active := false
      _current_time := 0
      _animation_start_time := 0 }

/-! ## Rotation of the index map -/

/-- The table `indices` of `CCube::Rotate`: the ring of a layer in its two in-layer
coordinates. -/
def indices : Fin 8 → (Fin 2 → Nat) :=
  fun i =>
    match i with
    | 0 => ![0, 0]
    | 1 => ![1, 0]
    | 2 => ![2, 0]
    | 3 => ![2, 1]
    | 4 => ![2, 2]
    | 5 => ![1, 2]
    | 6 => ![0, 2]
    | 7 => ![0, 1]

/-- One pass of the loop `for ( int i = 0; i < 8; ++ i )` of `CCube::Rotate`: the new
`_cube_map` after the assignment `_cube_map[in] = current_map[io]`. -/
def Rotate_body (op : TChangeOperation) (axis_i row_i : Nat) (current_map : TMapCubes)
    (cube_map : TMapCubes) (i : Nat) : TMapCubes :=
  let j := (if op._direction = TDirection.left then i + 6 else i + 2) % 8
  let ao : Fin 3 → Nat := fun _ => 0
  let an : Fin 3 → Nat := fun _ => 0
  let ao := arr_set ao axis_i row_i
  let an := arr_set an axis_i row_i
  let ao := arr_set ao ((axis_i + 1) % 3) (arr_get (arr_get indices i ![0, 0]) 0 0)
  let an := arr_set an ((axis_i + 1) % 3) (arr_get (arr_get indices j ![0, 0]) 0 0)
  let ao := arr_set ao ((axis_i + 2) % 3) (arr_get (arr_get indices i ![0, 0]) 1 0)
  let an := arr_set an ((axis_i + 2) % 3) (arr_get (arr_get indices j ![0, 0]) 1 0)
  let io := arr_get ao 0 0 + arr_get ao 1 0 * 3 + arr_get ao 2 0 * 9
  let in_ := arr_get an 0 0 + arr_get an 1 0 * 3 + arr_get an 2 0 * 9
  arr_set cube_map in_ (arr_get current_map io 0)

/-- The index part of `CCube::Rotate`: snapshot `current_map = _cube_map`, then the loop
over the eight ring slots. -/
def Rotate_map (cube_map : TMapCubes) (op : TChangeOperation) : TMapCubes :=
  let axis_i := AxisIndex op._axis
  let row_i := RowIndex op._row
  let current_map := cube_map
  (List.range 8).foldl (Rotate_body op axis_i row_i current_map) cube_map

/-- The function `CCube::Rotate`. -/
def Rotate (c : CCube) (op : TChangeOperation) : CCube :=
  { c with _cube_map := Rotate_map c._cube_map op }

/-- The function `CCube::SubCubeIndices`: the sub cubes at the positions of a layer, in the
order of the three nested loops. -/
def SubCubeIndices (c : CCube) (axis : TAxis) (row : TRow) : List Int :=
  let row_i := RowIndex row
  let r_x : Nat × Nat := if axis = TAxis.x then (row_i, row_i) else (0, 2)
  let r_y : Nat × Nat := if axis = TAxis.y then (row_i, row_i) else (0, 2)
  let r_z : Nat × Nat := if axis = TAxis.z then (row_i, row_i) else (0, 2)
  (List.range' r_z.1 (r_z.2 + 1 - r_z.1)).foldl (fun indices z =>
    (List.range' r_y.1 (r_y.2 + 1 - r_y.1)).foldl (fun indices y =>
      (List.range' r_x.1 (r_x.2 + 1 - r_x.1)).foldl (fun indices x =>
        let i := z * 9 + y * 3 + x
        indices ++ [arr_get c._cube_map i 0]) indices) indices) []

/-! ## The pending queue and the animation -/

/-- The function `CCube::Change`: `_pending_queue.push_front( op )`. -/
def Change (c : CCube) (op : TChangeOperation) : CCube :=
  { c with _pending_queue := op :: c._pending_queue }

/-- The tail of `CCube::Update` after the animation tests:
`_pending_queue.pop_back(); Rotate( op );`. The second component is the operation handed
to `Rotate`. -/
def Update_commit (c : CCube) (op : TChangeOperation) : CCube × Option TChangeOperation :=
  let c := { c with _pending_queue := c._pending_queue.dropLast }
  (Rotate c op, some op)

/-- The function `CCube::Update`. `now` is the reading of the first `TimeNow()` and `now2`
that of the second one (taken when an animation starts). The result is the cube after the
call, paired with the operation that the call popped and passed to `Rotate`, if it did. -/
def Update_step (c : CCube) (now now2 : TTime) : CCube × Option TChangeOperation :=
  let pending_changes := c._pending_queue.isEmpty == false
  let c := { c with _animation_is_active := c._animation_is_active && pending_changes }
  let c := { c with _current_time := now }
  if pending_changes == false then (c, none)
  else
    match c._pending_queue.getLast? with
    | none => (c, none)
    | some op =>
      if c._animation_is_active then
        if c._animation_time_s.past_lt c._animation_start_time c._current_time then
          (c, none)
        else
          Update_commit { c with _animation_is_active := false } op
      else if pending_changes then
        ({ c with _animation_is_active := true, _animation_start_time := now2 }, none)
      else
        Update_commit c op

/-- The cube after `CCube::Update`. -/
def Update (c : CCube) (now now2 : TTime) : CCube := (Update_step c now now2).1

/-! ## Shuffle -/

/-- The table `a_axis` of `CCube::Shuffle`. -/
def a_axis : Fin 3 → TAxis := ![TAxis.x, TAxis.y, TAxis.z]

/-- The table `a_row` of `CCube::Shuffle`. -/
def a_row : Fin 3 → TRow := ![TRow.low, TRow.mid, TRow.high]

/-- The table `a_dir` of `CCube::Shuffle`. -/
def a_dir : Fin 2 → TDirection := ![TDirection.left, TDirection.right]

/-- The `do ... while ( valid == false )` loop of `CCube::Shuffle` for one operation.
`shuffle_ops` is the vector built so far and the last argument the values that the coming
calls of `std::rand()` return. The result is the accepted operation and the random values
left over. `shuffle_ops.back()` and `shuffle_ops.front()` of an empty vector and the
dereference of `shuffle_ops.rbegin()-2` (an element behind `end()`) are undefined
accesses. -/
def Shuffle_draw (c : CCube) (shuffle_ops : List TChangeOperation) :
    List Nat → Except TFault (TChangeOperation × List Nat)
  | r1 :: r2 :: r3 :: rand =>
    let op : TChangeOperation :=
      { _axis := arr_get a_axis (r1 % 3) TAxis.x
        _row := arr_get a_row (r2 % 3) TRow.low
        _direction := arr_get a_dir (r3 % 2) TDirection.left }
    if c._pending_queue.isEmpty then Except.ok (op, rand)
    else
      match shuffle_ops.getLast? with
      | none => Except.error TFault.undefined_access
      | some back =>
        let valid : Bool :=
          back._axis != op._axis || back._row != op._row || back._direction == op._direction
        if valid && decide (shuffle_ops.length > 1) then
          match shuffle_ops.head? with
          | none => Except.error TFault.undefined_access
          | some front =>
            let _valid : Bool :=
              front._axis != op._axis || front._row != op._row ||
                front._direction != op._direction
            Except.error TFault.undefined_access
        else if valid == false then Shuffle_draw c shuffle_ops rand
        else Except.ok (op, rand)
  | _ => Except.error TFault.draws_exhausted

/-- The loop `for ( int i = 0; i < steps; ++ i )` of `CCube::Shuffle` with `n` passes left:
the vector `shuffle_ops` at the end and the random values left over. -/
def Shuffle_ops (c : CCube) :
    Nat → List TChangeOperation → List Nat → Except TFault (List TChangeOperation × List Nat)
  | 0, shuffle_ops, rand => Except.ok (shuffle_ops, rand)
  | n + 1, shuffle_ops, rand =>
    match Shuffle_draw c shuffle_ops rand with
    | Except.error e => Except.error e
    | Except.ok (op, rand) => Shuffle_ops c n (shuffle_ops ++ [op]) rand

/-- The function `CCube::Shuffle`; `rand` lists the values returned by the calls of
`std::rand()`. -/
def Shuffle (c : CCube) (steps : Int) (rand : List Nat) : Except TFault CCube :=
  match Shuffle_ops c steps.toNat [] rand with
  | Except.error e => Except.error e
  | Except.ok (shuffle_ops, _) => Except.ok (shuffle_ops.foldl Change c)

/-! ## Call sequences on a cube -/

/-- A call of `Change` or of `Update` on a cube; an `Update` carries the two clock readings
it takes. -/
inductive TCall where
  | Change (op : TChangeOperation)
  | Update (now now2 : TTime)
deriving DecidableEq, Repr

/-- The effect of one call: the cube afterwards and the operation the call passed to
`Rotate`, if it did. -/
def TCall.apply (c : CCube) : TCall → CCube × Option TChangeOperation
  | TCall.Change op => (Rubiks.Change c op, none)
  | TCall.Update now now2 => Update_step c now now2

/-- The cube after a series of calls and the operations passed to `Rotate` during it,
oldest first. -/
def run (c : CCube) : List TCall → CCube × List TChangeOperation
  | [] => (c, [])
  | call :: calls =>
    let r := call.apply c
    let rest := run r.1 calls
    (rest.1, r.2.toList ++ rest.2)

/-- The operations passed to `Change` in a series of calls, oldest first. -/
def changed : List TCall → List TChangeOperation
  | [] => []
  | TCall.Change op :: calls => op :: changed calls
  | TCall.Update _ _ :: calls => changed calls

/-! ## Notions of the specification -/

/-- The opposite direction. -/
def opposite : TDirection → TDirection
  | TDirection.left => TDirection.right
  | TDirection.right => TDirection.left

/-- The inverse of an operation: same axis and row, opposite direction. -/
def inverse (op : TChangeOperation) : TChangeOperation :=
  { op with _direction := opposite op._direction }

/-- The ring slots `0..7` in the coordinates `(u, v)`:
`(0,0), (1,0), (2,0), (2,1), (2,2), (1,2), (0,2), (0,1)`. -/
def ring_uv : Fin 8 → Nat × Nat
  | 0 => (0, 0)
  | 1 => (1, 0)
  | 2 => (2, 0)
  | 3 => (2, 1)
  | 4 => (2, 2)
  | 5 => (1, 2)
  | 6 => (0, 2)
  | 7 => (0, 1)

/-- The coordinate on axis `k` of the cell that has `r` on axis `a`, `u` on axis
`(a + 1) mod 3` and `v` on axis `(a + 2) mod 3`. -/
def cell_coord (a r u v k : Nat) : Nat :=
  if k = a then r else if k = (a + 1) % 3 then u else v

/-- The position index `x + 3 y + 9 z` of the cell that has `r` on axis `a`, `u` on axis
`(a + 1) mod 3` and `v` on axis `(a + 2) mod 3`. -/
def cell (a r u v : Nat) : Nat :=
  cell_coord a r u v 0 + 3 * cell_coord a r u v 1 + 9 * cell_coord a r u v 2

/-- The position index of ring slot `i` of the layer an operation names. -/
def ring_cell (op : TChangeOperation) (i : Fin 8) : Nat :=
  cell (AxisIndex op._axis) (RowIndex op._row) (ring_uv i).1 (ring_uv i).2

/-- The number of slots a quarter turn moves an identity along the ring: 2 for `right`,
6 for `left`. -/
def ring_shift : TDirection → Fin 8
  | TDirection.right => 2
  | TDirection.left => 6

/-- A mapping is a bijection on `{0..26}`: every identity `0..26` is at exactly one of the
27 positions. -/
def IsPermutation (m : TMapCubes) : Prop :=
  ∀ k : Fin 27, ∃! p : Fin 27, m p = (k.val : Int)

/-- Whether a mapping is a bijection on `{0..26}` can be computed. -/
instance IsPermutation.decidable (m : TMapCubes) : Decidable (IsPermutation m) :=
  decidable_of_iff
    (∀ k : Fin 27, ∃ p : Fin 27, m p = (k.val : Int) ∧ ∀ q : Fin 27, m q = (k.val : Int) → q = p)
    Iff.rfl

/-- No operation of the list is the inverse of the one right before it. -/
def NoImmediateInverse : List TChangeOperation → Bool
  | a :: b :: rest => b != inverse a && NoImmediateInverse (b :: rest)
  | _ => true

/-- No three consecutive operations of the list are identical. -/
def NoTripleRepeat : List TChangeOperation → Bool
  | a :: b :: c :: rest => !(a == b && b == c) && NoTripleRepeat (b :: c :: rest)
  | _ => true

/-- The position that `Rotate` reads for position `p`: the entry of the rotated identity
mapping. -/
def Rotate_src (op : TChangeOperation) (p : Fin 27) : Fin 27 :=
  Fin.ofNat (Rotate_map (fun q => (q.val : Int)) op p).toNat

/-! ## The geometry of a rotation -/

/-- The function `CCube::Axis`: the unit vector of the axis with the given index. -/
def Axis (index : Nat) : Fin 3 → Int :=
  arr_get (![![1, 0, 0], ![0, 1, 0], ![0, 0, 1]] : Fin 3 → Fin 3 → Int) index ![0, 0, 0]

/-- The vector `trans_vec( x-1, y-1, z-1 )` of `CCube::InitGeometry` for the position
`i = z * 9 + y * 3 + x`: the centred coordinates of the position, counted in units of
`_offset`. -/
def trans_vec (i : Nat) : Fin 3 → Int :=
  ![((i % 3 : Nat) : Int) - 1, ((i / 3 % 3 : Nat) : Int) - 1, ((i / 9 : Nat) : Int) - 1]

/-- The rotation part (entry in row `row` and column `col` of the upper left 3 × 3 block) of
the matrix `glm::rotate( glm::mat4(1.0f), angle, axis )` of the library glm for a unit vector
`axis`, in exact arithmetic, from the cosine `c` and the sine `s` of the angle: glm sets
`temp = (1 - c) * axis` and `Rotate[col][row]` as below. -/
def glm_rotate (c s : Int) (axis : Fin 3 → Int) (row col : Fin 3) : Int :=
  let temp : Fin 3 → Int := fun k => (1 - c) * axis k
  match col, row with
  | 0, 0 => c + temp 0 * axis 0
  | 0, 1 => temp 0 * axis 1 + s * axis 2
  | 0, 2 => temp 0 * axis 2 - s * axis 1
  | 1, 0 => temp 1 * axis 0 - s * axis 2
  | 1, 1 => c + temp 1 * axis 1
  | 1, 2 => temp 1 * axis 2 + s * axis 0
  | 2, 0 => temp 2 * axis 0 + s * axis 1
  | 2, 1 => temp 2 * axis 1 - s * axis 0
  | 2, 2 => c + temp 2 * axis 2

/-- The matrix `rot_mat` of `CCube::Rotate`, `glm::rotate( glm::mat4(1.0f), angle,
Axis(axis_i) )` with `angle` 90 degrees times -1 for `left` and 1 for `right`, as the exact
quarter turn: cosine 0 and sine -1 or 1. The `float` matrix of the program is this matrix up
to rounding. -/
def Rotate_rot_mat (op : TChangeOperation) (row col : Fin 3) : Int :=
  let axis_i := AxisIndex op._axis
  let sign : Int := if op._direction = TDirection.left then -1 else 1
  glm_rotate 0 sign (Axis axis_i) row col

/-- The product of a 3 × 3 matrix and a vector. -/
def mul_vec (m : Fin 3 → Fin 3 → Int) (v : Fin 3 → Int) : Fin 3 → Int :=
  fun row => m row 0 * v 0 + m row 1 * v 1 + m row 2 * v 2

/-- The in-layer coordinates of the cell that the cell `(u, v)` turns into: `(2 - v, u)` for
`right` and `(v, 2 - u)` for `left`. -/
def turned_uv (d : TDirection) (u v : Nat) : Nat × Nat :=
  match d with
  | TDirection.right => (2 - v, u)
  | TDirection.left => (v, 2 - u)

/-! ## Calls of the public functions of a cube -/

/-- A call of one of the public functions `AnimationTime`, `Change`, `Shuffle` and `Update`
of a cube, with its arguments; a `Shuffle` carries the values that its calls of
`std::rand()` return and an `Update` the two clock readings it takes. -/
inductive TPublicCall where
  | AnimationTime (time_s : TSeconds)
  | Change (op : TChangeOperation)
  | Shuffle (steps : Int) (rand : List Nat)
  | Update (now now2 : TTime)

/-- The cube after one call of a public function. -/
def TPublicCall.apply (c : CCube) : TPublicCall → Except TFault CCube
  | TPublicCall.AnimationTime time_s => Except.ok (Rubiks.AnimationTime c time_s)
  | TPublicCall.Change op => Except.ok (Rubiks.Change c op)
  | TPublicCall.Shuffle steps rand => Rubiks.Shuffle c steps rand
  | TPublicCall.Update now now2 => Except.ok (Rubiks.Update c now now2)

/-- The cube after a series of calls of public functions, made one after the other. -/
def run_public (c : CCube) : List TPublicCall → Except TFault CCube
  | [] => Except.ok c
  | call :: calls =>
    match call.apply c with
    | Except.error e => Except.error e
    | Except.ok c1 => run_public c1 calls

/-- The operation that one pass of the `do` loop of `CCube::Shuffle` assembles from three
values of `std::rand()`: `a_axis[r1 % 3]`, `a_row[r2 % 3]`, `a_dir[r3 % 2]`. -/
def Shuffle_op (r1 r2 r3 : Nat) : TChangeOperation :=
  { _axis := arr_get a_axis (r1 % 3) TAxis.x
    _row := arr_get a_row (r2 % 3) TRow.low
    _direction := arr_get a_dir (r3 % 2) TDirection.left }

/-! ## Example values -/

/-- An example of a duration: with a clock that ticks once a millisecond, the test
`end - start < ms`. -/
def TSeconds.of_ms (ms : Int) : TSeconds :=
  ⟨fun time_start time_end => decide (time_end - time_start < ms)⟩

/-- An example of a cube: every sub cube at its own position, an animation of half a second,
no pending operation, no animation in progress. -/
def example_cube : CCube :=
  { _cube_map := fun p => (p.val : Int)
    _animation_time_s := TSeconds.of_ms 500
    _pending_queue := []
    _animation_is_active := false
    _current_time := 0
    _animation_start_time := 0 }

/-- An example of a cube with a pending operation: the example cube after
`Change({x, low, left})`. -/
def example_pending : CCube :=
  Change example_cube ⟨TAxis.x, TRow.low, TDirection.left⟩

/-- An example of a cube in the middle of an animation: the cube with the pending operation
after the `Update` at time 0 that starts the animation. -/
def example_animating : CCube :=
  Update example_pending 0 0

/-- An example of a series of calls of public functions: set the duration to half a second,
`Shuffle(2)` with six random values, a `Change`, and two calls of `Update`. -/
def example_public_calls : List TPublicCall :=
  [TPublicCall.AnimationTime (TSeconds.of_ms 500), TPublicCall.Shuffle 2 [0, 1, 1, 2, 0, 0],
    TPublicCall.Change ⟨TAxis.z, TRow.mid, TDirection.right⟩, TPublicCall.Update 0 0,
    TPublicCall.Update 100 100]

end Rubiks

namespace OpenGL.Polygon

/-! ## Scalars and collaborators of the renderer -/

/-- A `float`, as its bit pattern. -/
structure GLfloat where
  bits : Nat
deriving DecidableEq, Repr

/-- A `double`, as its bit pattern. -/
structure GLdouble where
  bits : Nat
deriving DecidableEq, Repr

/-- The literal `0.0f`. -/
instance : OfNat GLfloat 0 := ⟨⟨0⟩⟩

/-- The literal `1.0f`. -/
instance : OfNat GLfloat 1 := ⟨⟨0x3F800000⟩⟩

/-- Modelled from the spec: `Render::TPrimitive` is declared in a header that is not among
the sources; these are the primitive kinds the specification lists. -/
inductive TPrimitive where
  | triangles
  | triangle_strip
  | triangle_fan
  | triangle_adjacency
  | triangle_strip_adjacency
deriving DecidableEq, Repr

/-- Modelled from the spec: `Render::TColor` (float channels) and `Render::TColor8` (8 bit
channels) are declared in headers that are not among the sources; a colour is RGBA. -/
inductive TColor where
  | rgba (r g b a : GLfloat)
  | rgba8 (r g b a : Nat)
deriving DecidableEq, Repr

/-- Modelled from the spec: `Render::Polygon::TStyle` is declared in a header that is not
among the sources; the renderer reads its member `_depth_attenuation`. -/
structure TStyle where
  _depth_attenuation : GLfloat
deriving DecidableEq, Repr

/-- A call received by the shader-program collaborator that changes or may change it. -/
inductive TProgramCall where
  | Init
  | ActivateProgram (streaming : Bool)
  | DeactivateProgram
  | SetColor (color : TColor)
  | SetDeptAttenuation (factor : GLfloat)
  | StartSuccessivePrimitiveDrawings
  | FinishSuccessivePrimitiveDrawings
  | StartSequence
  | EndSequence
deriving DecidableEq, Repr

/-- Modelled from the spec: the class `CPrimitiveOpenGL_2_00` (the shader-program
collaborator) is not among the sources. Its interface is `Init()`,
`ActivateProgram(bool)` / `DeactivateProgram()`, `Attrib_xyzw_inx()`, `Attrib_y_inx()`,
`SetColor`, `SetDeptAttenuation`, `ActiveSequence() / StartSequence() / EndSequence() → bool`.
The model keeps the flag of the active sequence, the two attribute locations and the list of
the calls received, oldest first. -/
structure CPrimitiveOpenGL_2_00 where
  _active_sequence : Bool
  _attrib_xyzw_inx : Nat
  _attrib_y_inx : Nat
  _calls : List TProgramCall
deriving DecidableEq, Repr

namespace CPrimitiveOpenGL_2_00

/-- Modelled from the spec: record a call that leaves the sequence flag as it is. -/
def receive (prog : CPrimitiveOpenGL_2_00) (call : TProgramCall) : CPrimitiveOpenGL_2_00 :=
  { prog with _calls := prog._calls ++ [call] }

/-- Modelled from the spec: `ActiveSequence()`. -/
def ActiveSequence (prog : CPrimitiveOpenGL_2_00) : Bool := prog._active_sequence

/-- Modelled from the spec: `StartSequence() → bool` fails while a sequence is active and
otherwise makes the sequence active. -/
def StartSequence (prog : CPrimitiveOpenGL_2_00) : Bool × CPrimitiveOpenGL_2_00 :=
  if prog._active_sequence then (false, prog.receive TProgramCall.StartSequence)
  else (true, { prog.receive TProgramCall.StartSequence with _active_sequence := true })

/-- Modelled from the spec: `EndSequence() → bool` fails while no sequence is active and
otherwise makes the sequence inactive. -/
def EndSequence (prog : CPrimitiveOpenGL_2_00) : Bool × CPrimitiveOpenGL_2_00 :=
  if prog._active_sequence then
    (true, { prog.receive TProgramCall.EndSequence with _active_sequence := false })
  else (false, prog.receive TProgramCall.EndSequence)

end CPrimitiveOpenGL_2_00

/-- The argument `type` of `glVertexAttribPointer`. -/
inductive TGLType where
  | GL_FLOAT
  | GL_DOUBLE
deriving DecidableEq, Repr

/-- The memory a vertex attribute pointer refers to at the time of the call. -/
inductive TGLBuffer where
  | floats (data : List GLfloat)
  | doubles (data : List GLdouble)
deriving DecidableEq, Repr

/-- A command given to the graphics backend. -/
inductive TGLCall where
  | glVertexAttribPointer (index size : Nat) (type : TGLType) (pointer : TGLBuffer)
  | glDrawArrays (mode : TPrimitive) (first : Int) (count : Int)
deriving DecidableEq, Repr

/-- The conversion `(GLsizei)n` of a `size_t` to the 32 bit signed `GLsizei`. -/
def toGLsizei (n : Nat) : Int :=
  ((n : Int) + 2 ^ 31) % 2 ^ 32 - 2 ^ 31

/-- The quotient `a / b` of two unsigned integers; division by zero is undefined. -/
def udiv (a b : Nat) : Except TFault Nat :=
  if b = 0 then Except.error TFault.division_by_zero else Except.ok (a / b)

/-! ## The renderer -/

/-- The class `CPolygonOpenGL_2_00`. The member `_gl` is not a member of the class: it lists
the commands given to the graphics backend so far, oldest first. -/
structure CPolygonOpenGL_2_00 where
  _min_cache_elems : Nat
  _elem_cache : List GLfloat
  _primitive_prog : Option CPrimitiveOpenGL_2_00
  _polygon_style : TStyle
  _squence_type : TPrimitive
  _tuple_size : Nat
  _sequence_size : Nat
  _gl : List TGLCall
deriving DecidableEq, Repr

/-- The constructor `CPolygonOpenGL_2_00( size_t min_cache_elems )`:
`_min_cache_elems( min_cache_elems )`, `_elem_cache( min_cache_elems, 0.0f )`.
Modelled from the spec: the header with the default member initialisers is not among the
sources; `_primitive_prog` starts as the null pointer, `_tuple_size` and `_sequence_size`
start at zero, the initial style and primitive kind are taken as arguments. -/
def CPolygonOpenGL_2_00.ctor (min_cache_elems : Nat) (style : TStyle)
    (kind : TPrimitive) : CPolygonOpenGL_2_00 :=
  { _min_cache_elems := min_cache_elems
    _elem_cache := List.replicate min_cache_elems 0
    _primitive_prog := none
    _polygon_style := style
    _squence_type := kind
    _tuple_size := 0
    _sequence_size := 0
    _gl := [] }

/-- Modelled from the spec: the collaborator that `std::make_unique<CPrimitiveOpenGL_2_00>()`
followed by `Init()` yields has no active sequence; the attribute locations are arguments. -/
def CPrimitiveOpenGL_2_00.make (xyzw_inx y_inx : Nat) : CPrimitiveOpenGL_2_00 :=
  { _active_sequence := false
    _attrib_xyzw_inx := xyzw_inx
    _attrib_y_inx := y_inx
    _calls := [TProgramCall.Init] }

namespace CPolygonOpenGL_2_00

/-- The function `CPolygonOpenGL_2_00::Init`. -/
def Init (s : CPolygonOpenGL_2_00) (xyzw_inx y_inx : Nat) : CPolygonOpenGL_2_00 :=
  match s._primitive_prog with
  | some _ => s
  | none => { s with _primitive_prog := some (CPrimitiveOpenGL_2_00.make xyzw_inx y_inx) }

/-- The function `CPolygonOpenGL_2_00::StartSuccessivePolygonDrawings`. -/
def StartSuccessivePolygonDrawings (s : CPolygonOpenGL_2_00) : Bool × CPolygonOpenGL_2_00 :=
  match s._primitive_prog with
  | none => (false, s)
  | some prog =>
    if prog.ActiveSequence then (false, s)
    else
      let prog := prog.receive TProgramCall.StartSuccessivePrimitiveDrawings
      (true, { s with _primitive_prog := some prog })

/-- The function `CPolygonOpenGL_2_00::FinishSuccessivePolygonDrawings`. -/
def FinishSuccessivePolygonDrawings (s : CPolygonOpenGL_2_00) : Bool × CPolygonOpenGL_2_00 :=
  match s._primitive_prog with
  | none => (false, s)
  | some prog =>
    if prog.ActiveSequence then (false, s)
    else
      let prog := prog.receive TProgramCall.FinishSuccessivePrimitiveDrawings
      (true, { s with _primitive_prog := some prog })

/-- The two overloads of `CPolygonOpenGL_2_00::SetColor`. -/
def SetColor (s : CPolygonOpenGL_2_00) (color : TColor) : CPolygonOpenGL_2_00 :=
  match s._primitive_prog with
  | some prog => { s with _primitive_prog := some (prog.receive (TProgramCall.SetColor color)) }
  | none => s

/-- The function `CPolygonOpenGL_2_00::SetStyle`. -/
def SetStyle (s : CPolygonOpenGL_2_00) (style : TStyle) : CPolygonOpenGL_2_00 :=
  match s._primitive_prog with
  | none => s
  | some prog =>
    if prog.ActiveSequence then s
    else
      let prog := prog.receive (TProgramCall.SetDeptAttenuation s._polygon_style._depth_attenuation)
      let s := { s with _primitive_prog := some prog }
      { s with _polygon_style := style }

/-- The overload `Draw( primitive_type, tuple_size, coords_size, const float *coords )`. -/
def Draw (s : CPolygonOpenGL_2_00) (primitive_type : TPrimitive) (tuple_size coords_size : Nat)
    (coords : List GLfloat) : Except TFault (Bool × CPolygonOpenGL_2_00) :=
  match s._primitive_prog with
  | none => Except.ok (false, s)
  | some prog =>
    if prog.ActiveSequence then Except.ok (false, s)
    else
      let prog := prog.receive (TProgramCall.ActivateProgram false)
      let gl := s._gl ++ [TGLCall.glVertexAttribPointer prog._attrib_xyzw_inx tuple_size
        TGLType.GL_FLOAT (TGLBuffer.floats coords)]
      match udiv coords_size tuple_size with
      | Except.error e => Except.error e
      | Except.ok n =>
        let gl := gl ++ [TGLCall.glDrawArrays primitive_type 0 (toGLsizei n)]
        let prog := prog.receive TProgramCall.DeactivateProgram
        Except.ok (true, { s with _primitive_prog := some prog, _gl := gl })

/-- The overload `Draw( primitive_type, tuple_size, coords_size, const double *coords )`. -/
def Draw_double (s : CPolygonOpenGL_2_00) (primitive_type : TPrimitive)
    (tuple_size coords_size : Nat) (coords : List GLdouble) :
    Except TFault (Bool × CPolygonOpenGL_2_00) :=
  match s._primitive_prog with
  | none => Except.ok (false, s)
  | some prog =>
    if prog.ActiveSequence then Except.ok (false, s)
    else
      let prog := prog.receive (TProgramCall.ActivateProgram false)
      let gl := s._gl ++ [TGLCall.glVertexAttribPointer prog._attrib_xyzw_inx tuple_size
        TGLType.GL_DOUBLE (TGLBuffer.doubles coords)]
      match udiv coords_size tuple_size with
      | Except.error e => Except.error e
      | Except.ok n =>
        let gl := gl ++ [TGLCall.glDrawArrays primitive_type 0 (toGLsizei n)]
        let prog := prog.receive TProgramCall.DeactivateProgram
        Except.ok (true, { s with _primitive_prog := some prog, _gl := gl })

/-- The overload `Draw( primitive_type, no_of_coords, const float *x_coords,
const float *y_coords )`. -/
def Draw_xy (s : CPolygonOpenGL_2_00) (primitive_type : TPrimitive) (no_of_coords : Nat)
    (x_coords y_coords : List GLfloat) : Bool × CPolygonOpenGL_2_00 :=
  match s._primitive_prog with
  | none => (false, s)
  | some prog =>
    if prog.ActiveSequence then (false, s)
    else
      let prog := prog.receive (TProgramCall.ActivateProgram true)
      let gl := s._gl ++ [TGLCall.glVertexAttribPointer prog._attrib_xyzw_inx 1
        TGLType.GL_FLOAT (TGLBuffer.floats x_coords)]
      let gl := gl ++ [TGLCall.glVertexAttribPointer prog._attrib_y_inx 1
        TGLType.GL_FLOAT (TGLBuffer.floats y_coords)]
      let gl := gl ++ [TGLCall.glDrawArrays primitive_type 0 (toGLsizei no_of_coords)]
      let prog := prog.receive TProgramCall.DeactivateProgram
      (true, { s with _primitive_prog := some prog, _gl := gl })

/-- The overload `Draw( primitive_type, no_of_coords, const double *x_coords,
const double *y_coords )`. -/
def Draw_xy_double (s : CPolygonOpenGL_2_00) (primitive_type : TPrimitive) (no_of_coords : Nat)
    (x_coords y_coords : List GLdouble) : Bool × CPolygonOpenGL_2_00 :=
  match s._primitive_prog with
  | none => (false, s)
  | some prog =>
    if prog.ActiveSequence then (false, s)
    else
      let prog := prog.receive (TProgramCall.ActivateProgram true)
      let gl := s._gl ++ [TGLCall.glVertexAttribPointer prog._attrib_xyzw_inx 1
        TGLType.GL_DOUBLE (TGLBuffer.doubles x_coords)]
      let gl := gl ++ [TGLCall.glVertexAttribPointer prog._attrib_y_inx 1
        TGLType.GL_DOUBLE (TGLBuffer.doubles y_coords)]
      let gl := gl ++ [TGLCall.glDrawArrays primitive_type 0 (toGLsizei no_of_coords)]
      let prog := prog.receive TProgramCall.DeactivateProgram
      (true, { s with _primitive_prog := some prog, _gl := gl })

/-- The function `CPolygonOpenGL_2_00::StartSequence`. -/
def StartSequence (s : CPolygonOpenGL_2_00) (primitive_type : TPrimitive) (tuple_size : Nat) :
    Bool × CPolygonOpenGL_2_00 :=
  match s._primitive_prog with
  | none => (false, s)
  | some prog =>
    if prog.ActiveSequence then (false, s)
    else
      let prog := prog.StartSequence.2
      let s := { s with _primitive_prog := some prog }
      let s := { s with _squence_type := primitive_type }
      let s := { s with _tuple_size := tuple_size }
      (true, s)

/-- The function `CPolygonOpenGL_2_00::EndSequence`. -/
def EndSequence (s : CPolygonOpenGL_2_00) : Except TFault (Bool × CPolygonOpenGL_2_00) :=
  match s._primitive_prog with
  | none => Except.ok (false, s)
  | some prog =>
    let r := prog.EndSequence
    let s := { s with _primitive_prog := some r.2 }
    if r.1 == false then Except.ok (false, s)
    else
      let prog := r.2.receive (TProgramCall.ActivateProgram false)
      let gl := s._gl ++ [TGLCall.glVertexAttribPointer prog._attrib_xyzw_inx s._tuple_size
        TGLType.GL_FLOAT (TGLBuffer.floats s._elem_cache)]
      match udiv s._sequence_size s._tuple_size with
      | Except.error e => Except.error e
      | Except.ok n =>
        let gl := gl ++ [TGLCall.glDrawArrays s._squence_type 0 (toGLsizei n)]
        let prog := prog.receive TProgramCall.DeactivateProgram
        let s := { s with _primitive_prog := some prog, _gl := gl }
        let s := { s with _tuple_size := 0 }
        let s := { s with _sequence_size := 0 }
        Except.ok (true, s)

/-- The call `_elem_cache.resize( n )`: new elements are value-initialised. -/
def resize (cache : List GLfloat) (n : Nat) : List GLfloat :=
  (cache ++ List.replicate (n - cache.length) 0).take n

/-- The "reserve the cache" statement of the `DrawSequence` overloads, for `k` further
elements (`k` is `_tuple_size` or `coords_size`). -/
def reserve (s : CPolygonOpenGL_2_00) (k : Nat) : CPolygonOpenGL_2_00 :=
  if s._elem_cache.length < s._sequence_size + k then
    { s with _elem_cache := resize s._elem_cache (s._elem_cache.length + max k s._min_cache_elems) }
  else s

/-- The statement `_elem_cache.data()[_sequence_size++] = v`; a write at an index that is
not below `_elem_cache.size()` is an undefined access. -/
def put (s : CPolygonOpenGL_2_00) (v : GLfloat) : Except TFault CPolygonOpenGL_2_00 :=
  if s._sequence_size < s._elem_cache.length then
    Except.ok { s with _elem_cache := s._elem_cache.set s._sequence_size v
                       _sequence_size := s._sequence_size + 1 }
  else Except.error TFault.undefined_access

/-- The store of the values `vals` into the cache from index `i` on, one element after the
other (`std::memcpy` of floats, and the narrowing loop of the `double` overload); a write
at an index that is not below the size of the cache is an undefined access. -/
def store (cache : List GLfloat) (i : Nat) : List GLfloat → Except TFault (List GLfloat)
  | [] => if i ≤ cache.length then Except.ok cache else Except.error TFault.undefined_access
  | v :: vals =>
    if i < cache.length then store (cache.set i v) (i + 1) vals
    else Except.error TFault.undefined_access

/-- The first `n` elements of the array a pointer refers to; reading more elements than the
array holds is an undefined access. -/
def read_array {α : Type} (coords : List α) (n : Nat) : Except TFault (List α) :=
  if n ≤ coords.length then Except.ok (coords.take n) else Except.error TFault.undefined_access

/-- The overload `DrawSequence( float x, float y, float z )`. -/
def DrawSequence (s : CPolygonOpenGL_2_00) (x y z : GLfloat) :
    Except TFault (Bool × CPolygonOpenGL_2_00) :=
  match s._primitive_prog with
  | none => Except.ok (false, s)
  | some prog =>
    if prog.ActiveSequence == false then Except.ok (false, s)
    else
      let s := reserve s s._tuple_size
      match put s x with
      | Except.error e => Except.error e
      | Except.ok s =>
        match put s y with
        | Except.error e => Except.error e
        | Except.ok s =>
          match (if s._tuple_size ≥ 3 then put s z else Except.ok s) with
          | Except.error e => Except.error e
          | Except.ok s =>
            match (if s._tuple_size = 4 then put s 1 else Except.ok s) with
            | Except.error e => Except.error e
            | Except.ok s => Except.ok (true, s)

/-- The overload `DrawSequence( double x, double y, double z )`; `narrow` is the conversion
`(float)` of a `double`. -/
def DrawSequence_double (narrow : GLdouble → GLfloat) (s : CPolygonOpenGL_2_00)
    (x y z : GLdouble) : Except TFault (Bool × CPolygonOpenGL_2_00) :=
  match s._primitive_prog with
  | none => Except.ok (false, s)
  | some prog =>
    if prog.ActiveSequence == false then Except.ok (false, s)
    else
      let s := reserve s s._tuple_size
      match put s (narrow x) with
      | Except.error e => Except.error e
      | Except.ok s =>
        match put s (narrow y) with
        | Except.error e => Except.error e
        | Except.ok s =>
          match (if s._tuple_size ≥ 3 then put s (narrow z) else Except.ok s) with
          | Except.error e => Except.error e
          | Except.ok s =>
            match (if s._tuple_size = 4 then put s 1 else Except.ok s) with
            | Except.error e => Except.error e
            | Except.ok s => Except.ok (true, s)

/-- The overload `DrawSequence( size_t coords_size, const float *coords )`. -/
def DrawSequence_bulk (s : CPolygonOpenGL_2_00) (coords_size : Nat) (coords : List GLfloat) :
    Except TFault (Bool × CPolygonOpenGL_2_00) :=
  match s._primitive_prog with
  | none => Except.ok (false, s)
  | some prog =>
    if prog.ActiveSequence == false then Except.ok (false, s)
    else
      let s := reserve s coords_size
      match read_array coords coords_size with
      | Except.error e => Except.error e
      | Except.ok vals =>
        match store s._elem_cache s._sequence_size vals with
        | Except.error e => Except.error e
        | Except.ok cache =>
          let s := { s with _elem_cache := cache }
          let s := { s with _sequence_size := s._sequence_size + coords_size }
          Except.ok (true, s)

/-- The overload `DrawSequence( size_t coords_size, const double *coords )`; `narrow` is the
conversion `(float)` of a `double`. -/
def DrawSequence_bulk_double (narrow : GLdouble → GLfloat) (s : CPolygonOpenGL_2_00)
    (coords_size : Nat) (coords : List GLdouble) : Except TFault (Bool × CPolygonOpenGL_2_00) :=
  match s._primitive_prog with
  | none => Except.ok (false, s)
  | some prog =>
    if prog.ActiveSequence == false then Except.ok (false, s)
    else
      let s := reserve s coords_size
      match read_array coords coords_size with
      | Except.error e => Except.error e
      | Except.ok vals =>
        match store s._elem_cache s._sequence_size (vals.map narrow) with
        | Except.error e => Except.error e
        | Except.ok cache =>
          let s := { s with _elem_cache := cache }
          let s := { s with _sequence_size := s._sequence_size + coords_size }
          Except.ok (true, s)

end CPolygonOpenGL_2_00

/-! ## Call sequences on a renderer -/

/-- A call of a public member function of `CPolygonOpenGL_2_00`, with its arguments. -/
inductive TCall where
  | Init (xyzw_inx y_inx : Nat)
  | StartSuccessivePolygonDrawings
  | FinishSuccessivePolygonDrawings
  | SetColor (color : TColor)
  | SetStyle (style : TStyle)
  | Draw (primitive_type : TPrimitive) (tuple_size coords_size : Nat) (coords : List GLfloat)
  | Draw_double (primitive_type : TPrimitive) (tuple_size coords_size : Nat)
      (coords : List GLdouble)
  | Draw_xy (primitive_type : TPrimitive) (no_of_coords : Nat) (x_coords y_coords : List GLfloat)
  | Draw_xy_double (primitive_type : TPrimitive) (no_of_coords : Nat)
      (x_coords y_coords : List GLdouble)
  | StartSequence (primitive_type : TPrimitive) (tuple_size : Nat)
  | EndSequence
  | DrawSequence (x y z : GLfloat)
  | DrawSequence_double (x y z : GLdouble)
  | DrawSequence_bulk (coords_size : Nat) (coords : List GLfloat)
  | DrawSequence_bulk_double (coords_size : Nat) (coords : List GLdouble)
deriving DecidableEq, Repr

/-- The effect of one call: the value returned (`true` for the functions that return no
`bool`) and the renderer afterwards. -/
def TCall.apply (narrow : GLdouble → GLfloat) (s : CPolygonOpenGL_2_00) :
    TCall → Except TFault (Bool × CPolygonOpenGL_2_00)
  | TCall.Init a b => Except.ok (true, s.Init a b)
  | TCall.StartSuccessivePolygonDrawings => Except.ok s.StartSuccessivePolygonDrawings
  | TCall.FinishSuccessivePolygonDrawings => Except.ok s.FinishSuccessivePolygonDrawings
  | TCall.SetColor color => Except.ok (true, s.SetColor color)
  | TCall.SetStyle style => Except.ok (true, s.SetStyle style)
  | TCall.Draw k t n coords => s.Draw k t n coords
  | TCall.Draw_double k t n coords => s.Draw_double k t n coords
  | TCall.Draw_xy k n xs ys => Except.ok (s.Draw_xy k n xs ys)
  | TCall.Draw_xy_double k n xs ys => Except.ok (s.Draw_xy_double k n xs ys)
  | TCall.StartSequence k t => Except.ok (s.StartSequence k t)
  | TCall.EndSequence => s.EndSequence
  | TCall.DrawSequence x y z => s.DrawSequence x y z
  | TCall.DrawSequence_double x y z => s.DrawSequence_double narrow x y z
  | TCall.DrawSequence_bulk n coords => s.DrawSequence_bulk n coords
  | TCall.DrawSequence_bulk_double n coords => s.DrawSequence_bulk_double narrow n coords

/-- The renderer after a series of calls, made one after the other. -/
def run (narrow : GLdouble → GLfloat) (s : CPolygonOpenGL_2_00) :
    List TCall → Except TFault CPolygonOpenGL_2_00
  | [] => Except.ok s
  | call :: calls =>
    match call.apply narrow s with
    | Except.error e => Except.error e
    | Except.ok r => run narrow r.2 calls

/-- The arguments of a call respect what the function documents: a tuple size is 2, 3 or 4,
and an array passed by pointer holds at least the announced number of elements. -/
def TCall.wellFormed : TCall → Prop
  | TCall.Draw _ t n coords => (t = 2 ∨ t = 3 ∨ t = 4) ∧ n ≤ coords.length
  | TCall.Draw_double _ t n coords => (t = 2 ∨ t = 3 ∨ t = 4) ∧ n ≤ coords.length
  | TCall.Draw_xy _ n xs ys => n ≤ xs.length ∧ n ≤ ys.length
  | TCall.Draw_xy_double _ n xs ys => n ≤ xs.length ∧ n ≤ ys.length
  | TCall.StartSequence _ t => t = 2 ∨ t = 3 ∨ t = 4
  | TCall.DrawSequence_bulk n coords => n ≤ coords.length
  | TCall.DrawSequence_bulk_double n coords => n ≤ coords.length
  | _ => True

/-- Whether the arguments of a call are well formed can be computed. -/
instance TCall.wellFormed.decidable (call : TCall) : Decidable call.wellFormed := by
  cases call <;> unfold TCall.wellFormed <;> infer_instance

/-- The invariant of the cache: the used count does not exceed the size of the cache, and
while a sequence is active the tuple size is 2, 3 or 4. -/
def CacheInv (s : CPolygonOpenGL_2_00) : Prop :=
  s._sequence_size ≤ s._elem_cache.length ∧
  ∀ prog, s._primitive_prog = some prog → prog._active_sequence = true →
    (s._tuple_size = 2 ∨ s._tuple_size = 3 ∨ s._tuple_size = 4)

/-- The growth rule for a call that finds the renderer `s`, appends `k` scalars and leaves
the renderer `s1`: the used count grows by `k`; when the capacity `c` is at least the used
count `n` plus `k` it stays, and otherwise it becomes `c + max(k, min_cache_elems)`, which is
at least `n + k`. -/
def GrowthRule (s s1 : CPolygonOpenGL_2_00) (k : Nat) : Prop :=
  s1._sequence_size = s._sequence_size + k ∧
  (s._sequence_size + k ≤ s._elem_cache.length →
    s1._elem_cache.length = s._elem_cache.length) ∧
  (s._elem_cache.length < s._sequence_size + k →
    s1._elem_cache.length = s._elem_cache.length + max k s._min_cache_elems ∧
    s._sequence_size + k ≤ s1._elem_cache.length)

/-- Whether the growth rule holds between two renderers can be computed. -/
instance GrowthRule.decidable (s s1 : CPolygonOpenGL_2_00) (k : Nat) :
    Decidable (GrowthRule s s1 k) := by
  unfold GrowthRule
  infer_instance

/-- An example of the conversion `(float)` of a `double`, for the evaluation of examples:
it keeps the low 32 bits of the pattern. -/
def example_narrow (d : GLdouble) : GLfloat := ⟨d.bits % 2 ^ 32⟩

/-- An example of a style. -/
def example_style : TStyle := { _depth_attenuation := 0 }

/-- An example of a renderer: constructed with room for two elements and initialised. -/
def example_renderer : CPolygonOpenGL_2_00 :=
  (CPolygonOpenGL_2_00.ctor 2 example_style TPrimitive.triangles).Init 0 1

/-- An example of a series of calls: initialise, start a sequence of triangles with three
scalars a vertex, and give two vertices. -/
def example_calls : List TCall :=
  [TCall.Init 0 1, TCall.StartSequence TPrimitive.triangles 3, TCall.DrawSequence 1 0 0,
    TCall.DrawSequence 0 1 0]

/-! ## Notions used by the theorems about the renderer -/

/-- Whether a sequence is active on the renderer: the collaborator exists and its
`ActiveSequence()` is true. -/
def activeSequence (s : CPolygonOpenGL_2_00) : Bool :=
  match s._primitive_prog with
  | some prog => prog.ActiveSequence
  | none => false

/-- The scalars that stand for one vertex `(x, y, z)` in a sequence of tuple size `t`:
`(x, y)` for 2, `(x, y, z)` for 3 and `(x, y, z, 1.0)` for 4. -/
def vertex_scalars (t : Nat) (v : GLfloat × GLfloat × GLfloat) : List GLfloat :=
  if t = 2 then [v.1, v.2.1]
  else if t = 3 then [v.1, v.2.1, v.2.2]
  else [v.1, v.2.1, v.2.2, 1]

/-- The renderer `s1` differs from `s` at most in the cache and in the used count. -/
def SameButCache (s s1 : CPolygonOpenGL_2_00) : Prop :=
  s1._min_cache_elems = s._min_cache_elems ∧ s1._primitive_prog = s._primitive_prog ∧
  s1._polygon_style = s._polygon_style ∧ s1._squence_type = s._squence_type ∧
  s1._tuple_size = s._tuple_size ∧ s1._gl = s._gl

/-- While no sequence is active the used count is zero. -/
def IdleInv (s : CPolygonOpenGL_2_00) : Prop :=
  activeSequence s = false → s._sequence_size = 0

/-- A call that streams whole tuples of size `t`: a per-vertex `DrawSequence`, or a bulk
`DrawSequence` whose `coords_size` is a multiple of `t` and whose array holds that many
elements. -/
def TCall.streamsTuples (t : Nat) : TCall → Prop
  | TCall.DrawSequence _ _ _ => True
  | TCall.DrawSequence_double _ _ _ => True
  | TCall.DrawSequence_bulk n coords => t ∣ n ∧ n ≤ coords.length
  | TCall.DrawSequence_bulk_double n coords => t ∣ n ∧ n ≤ coords.length
  | _ => False

/-- Whether a call streams whole tuples of size `t` can be computed. -/
instance TCall.streamsTuples.decidable (t : Nat) (call : TCall) :
    Decidable (call.streamsTuples t) := by
  cases call <;> unfold TCall.streamsTuples <;> infer_instance

/-- The per-vertex call `DrawSequence( x, y, z )` for a vertex. -/
def TCall.vertex (v : GLfloat × GLfloat × GLfloat) : TCall :=
  TCall.DrawSequence v.1 v.2.1 v.2.2

/-- An example of a renderer with an active sequence of triangles with three scalars a
vertex. -/
def example_active : CPolygonOpenGL_2_00 :=
  (example_renderer.StartSequence TPrimitive.triangles 3).2

/-- The factor of the call of `SetDeptAttenuation` that the collaborator received last, if it
received one. -/
def CPrimitiveOpenGL_2_00.lastDeptAttenuation (prog : CPrimitiveOpenGL_2_00) : Option GLfloat :=
  prog._calls.reverse.findSome? fun call =>
    match call with
    | TProgramCall.SetDeptAttenuation factor => some factor
    | _ => none

/-- An example of a style with the depth attenuation `1.0`. -/
def example_attenuated : TStyle := { _depth_attenuation := 1 }

/-- An example of three vertices: `(1, 0, 0)`, `(0, 1, 0)`, `(0, 0, 1)`. -/
def example_vertices : List (GLfloat × GLfloat × GLfloat) :=
  [(1, 0, 0), (0, 1, 0), (0, 0, 1)]

end OpenGL.Polygon

/-! # Theorems -/

namespace Rubiks

/-! ## The rotation as a rearrangement of positions -/

theorem Rotate_map_apply (m : TMapCubes) (op : TChangeOperation) (p : Fin 27) :
    Rotate_map m op p = m (Rotate_src op p) := by
  obtain ⟨a, r, d⟩ := op
  cases a <;> cases r <;> cases d <;> fin_cases p <;> rfl

theorem Rotate_src_inverse (op : TChangeOperation) (p : Fin 27) :
    Rotate_src op (Rotate_src (inverse op) p) = p := by
  obtain ⟨a, r, d⟩ := op
  cases a <;> cases r <;> cases d <;> fin_cases p <;> rfl

theorem inverse_inverse (op : TChangeOperation) : inverse (inverse op) = op := by
  obtain ⟨a, r, d⟩ := op
  cases d <;> rfl

theorem Rotate_map_inverse (m : TMapCubes) (op : TChangeOperation) :
    Rotate_map (Rotate_map m op) (inverse op) = m := by
  funext p
  rw [Rotate_map_apply, Rotate_map_apply, Rotate_src_inverse]

theorem InitGeometry_map_apply (m : TMapCubes) (p : Fin 27) :
    InitGeometry_map m p = (p.val : Int) := by
  fin_cases p <;> rfl

theorem IsPermutation_Rotate_map (m : TMapCubes) (op : TChangeOperation)
    (h : IsPermutation m) : IsPermutation (Rotate_map m op) := by
  intro k
  obtain ⟨q, hq, huniq⟩ := h k
  refine ⟨Rotate_src (inverse op) q, ?_, ?_⟩
  · show Rotate_map m op (Rotate_src (inverse op) q) = _
    rw [Rotate_map_apply, Rotate_src_inverse]
    exact hq
  · intro p hp
    have hp2 : m (Rotate_src op p) = (k.val : Int) := by
      rw [Rotate_map_apply] at hp; exact hp
    have := huniq _ hp2
    rw [← this]
    have h2 := Rotate_src_inverse (inverse op) p
    rw [inverse_inverse] at h2
    exact h2.symm

/-! ## One call of `Update` -/

theorem Update_step_cases (c : CCube) (now now2 : TTime) :
    ((Update_step c now now2).2 = none ∧
      (Update_step c now now2).1._pending_queue = c._pending_queue ∧
      (Update_step c now now2).1._cube_map = c._cube_map ∧
      ((Update_step c now now2).1._animation_is_active = true → c._pending_queue ≠ [])) ∨
    (∃ op, c._pending_queue.getLast? = some op ∧
      (Update_step c now now2).2 = some op ∧
      (Update_step c now now2).1._pending_queue = c._pending_queue.dropLast ∧
      (Update_step c now now2).1._cube_map = Rotate_map c._cube_map op ∧
      (Update_step c now now2).1._animation_is_active = false) := by
  obtain ⟨m, d, q, act, t0, t1⟩ := c
  rcases hq : q.getLast? with _ | op
  · have hq2 : q = [] := by simpa using hq
    subst hq2
    left
    simp [Update_step]
  · have hne : q ≠ [] := by
      intro h; subst h; simp at hq
    have hemp : q.isEmpty = false := by
      cases q with
      | nil => exact absurd rfl hne
      | cons a l => rfl
    cases act
    · left
      simp [Update_step, hq, hemp, hne]
    · by_cases hlt : d.past_lt t1 now = true
      · left
        simp [Update_step, hq, hemp, hne, hlt]
      · right
        refine ⟨op, rfl, ?_⟩
        simp [Update_step, hq, hemp, hlt, Update_commit, Rotate]

/-! ## Runs of calls -/

theorem run_cube_map (c : CCube) (calls : List TCall) :
    (run c calls).1._cube_map = (run c calls).2.foldl Rotate_map c._cube_map := by
  induction calls generalizing c with
  | nil => rfl
  | cons call calls ih =>
    cases call with
    | Change op =>
      simp only [run, TCall.apply, Option.toList, List.nil_append]
      rw [ih]; rfl
    | Update now now2 =>
      simp only [run, TCall.apply]
      rw [ih]
      rcases Update_step_cases c now now2 with ⟨h2, _, hm, _⟩ | ⟨op, _, h2, _, hm, _⟩
      · rw [h2, hm]; rfl
      · rw [h2, hm]; rfl

theorem IsPermutation_foldl (ops : List TChangeOperation) (m : TMapCubes)
    (h : IsPermutation m) : IsPermutation (ops.foldl Rotate_map m) := by
  induction ops generalizing m with
  | nil => exact h
  | cons op ops ih => exact ih _ (IsPermutation_Rotate_map m op h)

theorem run_fifo (c : CCube) (calls : List TCall) :
    (run c calls).2 ++ (run c calls).1._pending_queue.reverse =
      c._pending_queue.reverse ++ changed calls := by
  induction calls generalizing c with
  | nil => simp [run, changed]
  | cons call calls ih =>
    cases call with
    | Change op =>
      simp only [run, TCall.apply, Option.toList, List.nil_append, changed]
      rw [ih]
      simp [Change]
    | Update now now2 =>
      simp only [run, TCall.apply, changed]
      rcases Update_step_cases c now now2 with ⟨h2, hq, _, _⟩ | ⟨op, hl, h2, hq, _, _⟩
      · rw [h2, Option.toList, List.nil_append, ih, hq]
      · rw [h2, Option.toList, List.append_assoc, ih, hq]
        have hne : c._pending_queue ≠ [] := by
          intro h; rw [h] at hl; simp at hl
        have hlast : c._pending_queue.getLast hne = op := by
          rw [List.getLast?_eq_getLast _ hne] at hl
          exact Option.some.inj hl
        conv_rhs => rw [← List.dropLast_append_getLast hne]
        rw [hlast]
        simp

theorem run_active (c : CCube) (calls : List TCall)
    (h : c._animation_is_active = true → c._pending_queue ≠ []) :
    (run c calls).1._animation_is_active = true → (run c calls).1._pending_queue ≠ [] := by
  induction calls generalizing c with
  | nil => exact h
  | cons call calls ih =>
    cases call with
    | Change op =>
      simp only [run, TCall.apply]
      apply ih
      intro _
      simp [Change]
    | Update now now2 =>
      simp only [run, TCall.apply]
      apply ih
      rcases Update_step_cases c now now2 with ⟨_, hq, _, ha⟩ | ⟨op, _, _, _, _, ha⟩
      · intro hact
        rw [hq]
        exact ha hact
      · intro hact
        rw [ha] at hact
        exact absurd hact (by decide)

theorem changed_map_Update (ups : List (TTime × TTime)) :
    changed (ups.map (fun t => TCall.Update t.1 t.2)) = [] := by
  induction ups with
  | nil => rfl
  | cons t ups ih => simpa [changed] using ih

/-! ## The claims about the cube -/

/-- C1. Permutation invariant: on a cube initialised by `Init`, after every finite series of
`Change` and `Update` calls, whatever the clock readings, every identity `0..26` is at
exactly one of the 27 positions of `_cube_map`. -/
theorem cube_map_permutation (c : CCube) (calls : List TCall) :
    IsPermutation (run (Init c) calls).1._cube_map := by
  rw [run_cube_map]
  apply IsPermutation_foldl
  intro k
  refine ⟨k, InitGeometry_map_apply _ k, ?_⟩
  intro p hp
  have h := InitGeometry_map_apply c._cube_map p
  have hp2 : InitGeometry_map c._cube_map p = (k.val : Int) := hp
  rw [h] at hp2
  exact Fin.ext (by exact_mod_cast hp2)

/-- C2. Rotation round trip: for every mapping, axis, row and direction, `Rotate` of an
operation followed by `Rotate` of its inverse leaves `_cube_map` as it was at all 27
positions. -/
theorem Rotate_round_trip (c : CCube) (op : TChangeOperation) :
    (Rotate (Rotate c op) (inverse op))._cube_map = c._cube_map := by
  show Rotate_map (Rotate_map c._cube_map op) (inverse op) = c._cube_map
  exact Rotate_map_inverse _ _

/-- C3. A quarter turn is a cyclic shift by two ring slots, read from the mapping before the
call: every ring slot `i` is a position of the cube, and the identity at ring slot `i`
before `Rotate` is afterwards at ring slot `i + 2` for `right` and `i + 6` for `left`
(slots counted modulo 8). On a fresh cube the operation `x, low, right` gives
`map[6]=0, map[15]=3, map[24]=6, map[21]=15, map[18]=24, map[9]=21, map[0]=18, map[3]=9`. -/
theorem Rotate_ring_shift :
    (∀ (c : CCube) (op : TChangeOperation) (i : Fin 8),
      ring_cell op i < 27 ∧
      CubeIndex (Rotate c op) (ring_cell op (i + ring_shift op._direction)) =
        CubeIndex c (ring_cell op i)) ∧
    (∀ c : CCube,
      let c1 := Rotate (Init c) ⟨TAxis.x, TRow.low, TDirection.right⟩
      CubeIndex c1 6 = 0 ∧ CubeIndex c1 15 = 3 ∧ CubeIndex c1 24 = 6 ∧ CubeIndex c1 21 = 15 ∧
      CubeIndex c1 18 = 24 ∧ CubeIndex c1 9 = 21 ∧ CubeIndex c1 0 = 18 ∧ CubeIndex c1 3 = 9) := by
  constructor
  · intro c op i
    obtain ⟨a, r, d⟩ := op
    cases a <;> cases r <;> cases d <;> fin_cases i <;> exact ⟨by decide, rfl⟩
  · intro c
    refine ⟨rfl, rfl, rfl, rfl, rfl, rfl, rfl, rfl⟩

theorem Rotate_src_frame (op : TChangeOperation) (p : Fin 27)
    (h : ∀ i : Fin 8, p.val ≠ ring_cell op i) : Rotate_src op p = p := by
  obtain ⟨a, r, d⟩ := op
  revert p
  cases a <;> cases r <;> cases d <;> decide

theorem ring_cell_count (op : TChangeOperation) :
    (Finset.univ.filter (fun p : Fin 27 => ∀ i : Fin 8, p.val ≠ ring_cell op i)).card = 19 := by
  obtain ⟨a, r, d⟩ := op
  cases a <;> cases r <;> cases d <;> decide

theorem centre_not_ring (op : TChangeOperation) (i : Fin 8) :
    cell (AxisIndex op._axis) (RowIndex op._row) 1 1 ≠ ring_cell op i := by
  obtain ⟨a, r, d⟩ := op
  revert i
  cases a <;> cases r <;> cases d <;> decide

theorem other_layer_not_ring (op : TChangeOperation) (r u v : Fin 3)
    (h : r.val ≠ RowIndex op._row) (i : Fin 8) :
    cell (AxisIndex op._axis) r.val u.val v.val ≠ ring_cell op i := by
  obtain ⟨a, r0, d⟩ := op
  revert r u v i
  cases a <;> cases r0 <;> cases d <;> decide

/-- C4. Frame of a rotation: `Rotate` leaves `_cube_map` unchanged at every position that is
not one of the eight ring cells of the named layer. There are 19 such positions for every
operation; the centre cell of the layer and all cells of the two other layers are among
them. -/
theorem Rotate_frame (c : CCube) (op : TChangeOperation) :
    (∀ p : Fin 27, (∀ i : Fin 8, p.val ≠ ring_cell op i) →
      (Rotate c op)._cube_map p = c._cube_map p) ∧
    (Finset.univ.filter (fun p : Fin 27 => ∀ i : Fin 8, p.val ≠ ring_cell op i)).card = 19 ∧
    (∀ i : Fin 8, cell (AxisIndex op._axis) (RowIndex op._row) 1 1 ≠ ring_cell op i) ∧
    (∀ r u v : Fin 3, r.val ≠ RowIndex op._row →
      ∀ i : Fin 8, cell (AxisIndex op._axis) r.val u.val v.val ≠ ring_cell op i) := by
  refine ⟨?_, ring_cell_count op, centre_not_ring op, other_layer_not_ring op⟩
  intro p hp
  show Rotate_map c._cube_map op p = c._cube_map p
  rw [Rotate_map_apply, Rotate_src_frame op p hp]

/-- Witness of C4: the cell 13 in the middle of the cube is outside the ring of the layer
`x = 0` and keeps its identity when that layer turns right. -/
theorem Rotate_frame_witness :
    (∀ i : Fin 8, (13 : Fin 27).val ≠ ring_cell ⟨TAxis.x, TRow.low, TDirection.right⟩ i) ∧
    (Rotate example_cube ⟨TAxis.x, TRow.low, TDirection.right⟩)._cube_map 13 =
      example_cube._cube_map 13 :=
  ⟨by decide,
    (Rotate_frame example_cube ⟨TAxis.x, TRow.low, TDirection.right⟩).1 13 (by decide)⟩

/-- C5. FIFO execution: on a cube that starts with no animation and an empty queue, for
every interleaving of `Change` and `Update` calls and every clock reading, the operations
that `Update` popped and passed to `Rotate` are, in order, a prefix of the operations passed
to `Change`, the rest of which wait in the queue, the oldest at the back; and in every state
reached in which an animation is in progress, the queue holds
an operation at its back and a further `Change` leaves that operation where it is. -/
theorem Update_fifo (c : CCube) (hidle : c._animation_is_active = false)
    (hempty : c._pending_queue = []) (calls : List TCall) :
    (run c calls).2 <+: changed calls ∧
    (run c calls).2 ++ (run c calls).1._pending_queue.reverse = changed calls ∧
    ((run c calls).1._animation_is_active = true →
      ∀ op : TChangeOperation,
        (run c calls).1._pending_queue.getLast?.isSome = true ∧
        (Change (run c calls).1 op)._pending_queue.getLast? =
          (run c calls).1._pending_queue.getLast?) := by
  have h := run_fifo c calls
  rw [hempty] at h
  simp only [List.reverse_nil, List.nil_append] at h
  refine ⟨⟨_, h⟩, h, ?_⟩
  · intro hact op
    have hne := run_active c calls (by rw [hidle]; intro h; exact absurd h (by decide)) hact
    constructor
    · cases hq : (run c calls).1._pending_queue with
      | nil => exact absurd hq hne
      | cons a l => simp [List.getLast?_cons_cons, List.getLast?_isSome]
    · show (op :: (run c calls).1._pending_queue).getLast? = _
      cases hq : (run c calls).1._pending_queue with
      | nil => exact absurd hq hne
      | cons a l => rw [List.getLast?_cons_cons]

/-- Witness of C5: on the example cube two operations are passed to `Change`, the second
one while the first is animated, and the first is committed. -/
theorem Update_fifo_witness :
    example_cube._animation_is_active = false ∧ example_cube._pending_queue = [] ∧
    (run example_cube
      [TCall.Change ⟨TAxis.x, TRow.low, TDirection.right⟩, TCall.Update 0 0,
        TCall.Change ⟨TAxis.y, TRow.mid, TDirection.left⟩, TCall.Update 600 600]).2 <+:
      changed
        [TCall.Change ⟨TAxis.x, TRow.low, TDirection.right⟩, TCall.Update 0 0,
          TCall.Change ⟨TAxis.y, TRow.mid, TDirection.left⟩, TCall.Update 600 600] :=
  ⟨rfl, rfl, (Update_fifo example_cube rfl rfl _).1⟩

/-- C6. Inverse pair through the queue: on a cube with an empty queue, after `Change(op)`,
`Change(inverse(op))` and any run of `Update` calls, with any clock readings, at whose end
the pending queue is empty, exactly two operations were committed, `op` and then its
inverse, and `_cube_map` is what it was before. -/
theorem inverse_pair_restores (c : CCube) (hempty : c._pending_queue = [])
    (op : TChangeOperation) (ups : List (TTime × TTime))
    (hdone : (run c (TCall.Change op :: TCall.Change (inverse op) ::
      ups.map (fun t => TCall.Update t.1 t.2))).1._pending_queue = []) :
    (run c (TCall.Change op :: TCall.Change (inverse op) ::
      ups.map (fun t => TCall.Update t.1 t.2))).2 = [op, inverse op] ∧
    (run c (TCall.Change op :: TCall.Change (inverse op) ::
      ups.map (fun t => TCall.Update t.1 t.2))).2.length = 2 ∧
    (run c (TCall.Change op :: TCall.Change (inverse op) ::
      ups.map (fun t => TCall.Update t.1 t.2))).1._cube_map = c._cube_map := by
  have h := run_fifo c (TCall.Change op :: TCall.Change (inverse op) ::
      ups.map (fun t => TCall.Update t.1 t.2))
  rw [hdone, hempty] at h
  simp only [List.reverse_nil, List.nil_append, List.append_nil, changed,
    changed_map_Update] at h
  refine ⟨h, by rw [h]; rfl, ?_⟩
  rw [run_cube_map, h]
  exact Rotate_map_inverse _ _

/-- Witness of C6: on the example cube the layer `x = 0` is turned right and back; four
`Update` calls start and complete the two animations. -/
theorem inverse_pair_restores_witness :
    example_cube._pending_queue = [] ∧
    (run example_cube
      (TCall.Change ⟨TAxis.x, TRow.low, TDirection.right⟩ ::
        TCall.Change (inverse ⟨TAxis.x, TRow.low, TDirection.right⟩) ::
        [(0, 0), (600, 600), (700, 700), (1300, 1300)].map
          (fun t => TCall.Update t.1 t.2))).1._pending_queue = [] ∧
    (run example_cube
      (TCall.Change ⟨TAxis.x, TRow.low, TDirection.right⟩ ::
        TCall.Change (inverse ⟨TAxis.x, TRow.low, TDirection.right⟩) ::
        [(0, 0), (600, 600), (700, 700), (1300, 1300)].map
          (fun t => TCall.Update t.1 t.2))).1._cube_map = example_cube._cube_map :=
  ⟨rfl, by decide,
    (inverse_pair_restores example_cube rfl ⟨TAxis.x, TRow.low, TDirection.right⟩
      [(0, 0), (600, 600), (700, 700), (1300, 1300)] (by decide)).2.2⟩

/-! ## Shuffle -/

theorem foldl_Change (ops : List TChangeOperation) (c : CCube) :
    (ops.foldl Change c)._pending_queue = ops.reverse ++ c._pending_queue ∧
    (ops.foldl Change c)._cube_map = c._cube_map ∧
    (ops.foldl Change c)._animation_is_active = c._animation_is_active := by
  induction ops generalizing c with
  | nil => exact ⟨rfl, rfl, rfl⟩
  | cons op ops ih =>
    obtain ⟨h1, h2, h3⟩ := ih (Change c op)
    refine ⟨?_, ?_, ?_⟩
    · rw [List.foldl_cons, h1]; simp [Change]
    · rw [List.foldl_cons, h2]; rfl
    · rw [List.foldl_cons, h3]; rfl

theorem Shuffle_ops_length (c : CCube) (n : Nat) (acc : List TChangeOperation)
    (rand : List Nat) (ops : List TChangeOperation) (rest : List Nat)
    (h : Shuffle_ops c n acc rand = Except.ok (ops, rest)) :
    ∃ new, ops = acc ++ new ∧ new.length = n := by
  induction n generalizing acc rand with
  | zero =>
    simp only [Shuffle_ops, Except.ok.injEq, Prod.mk.injEq] at h
    exact ⟨[], by simp [h.1], rfl⟩
  | succ n ih =>
    unfold Shuffle_ops at h
    split at h
    · exact absurd h (by simp)
    · obtain ⟨new, h1, h2⟩ := ih _ _ h
      exact ⟨_ :: new, by simpa using h1, by simp [h2]⟩

theorem Shuffle_draw_empty (c : CCube) (hq : c._pending_queue = [])
    (acc : List TChangeOperation) (rand : List Nat) (h : 3 ≤ rand.length) :
    ∃ op rest, Shuffle_draw c acc rand = Except.ok (op, rest) ∧ rest.length + 3 = rand.length := by
  match rand, h with
  | r1 :: r2 :: r3 :: rest, _ =>
    refine ⟨⟨arr_get a_axis (r1 % 3) TAxis.x, arr_get a_row (r2 % 3) TRow.low,
      arr_get a_dir (r3 % 2) TDirection.left⟩, rest, ?_, by simp⟩
    simp [Shuffle_draw, hq]

theorem Shuffle_ops_empty (c : CCube) (hq : c._pending_queue = []) (n : Nat)
    (acc : List TChangeOperation) (rand : List Nat) (h : 3 * n ≤ rand.length) :
    ∃ ops rest, Shuffle_ops c n acc rand = Except.ok (ops, rest) ∧
      rest.length + 3 * n = rand.length := by
  induction n generalizing acc rand with
  | zero => exact ⟨acc, rand, rfl, by simp⟩
  | succ n ih =>
    obtain ⟨op, rest, h1, h2⟩ := Shuffle_draw_empty c hq acc rand (by omega)
    obtain ⟨ops, rest2, h3, h4⟩ := ih (acc ++ [op]) rest (by omega)
    refine ⟨ops, rest2, ?_, by omega⟩
    unfold Shuffle_ops
    rw [h1]
    exact h3

/-- C7, evaluated on the code. With an empty pending queue `Shuffle(3)` accepts every draw:
the draws `(x, low, left)`, `(x, low, right)`, `(x, low, left)` are enqueued although each of the
last two is the inverse of its predecessor, and three draws of `(x, low, left)` are enqueued
although they are three identical operations in a row. -/
theorem Shuffle_constraints_fail :
    (∃ c, Shuffle example_cube 3 [0, 0, 0, 0, 0, 1, 0, 0, 0] = Except.ok c ∧
      c._pending_queue.reverse =
        [⟨TAxis.x, TRow.low, TDirection.left⟩, ⟨TAxis.x, TRow.low, TDirection.right⟩,
          ⟨TAxis.x, TRow.low, TDirection.left⟩] ∧
      NoImmediateInverse c._pending_queue.reverse = false) ∧
    (∃ c, Shuffle example_cube 3 [0, 0, 0, 0, 0, 0, 0, 0, 0] = Except.ok c ∧
      c._pending_queue.reverse =
        [⟨TAxis.x, TRow.low, TDirection.left⟩, ⟨TAxis.x, TRow.low, TDirection.left⟩,
          ⟨TAxis.x, TRow.low, TDirection.left⟩] ∧
      NoTripleRepeat c._pending_queue.reverse = false) :=
  ⟨⟨_, rfl, rfl, rfl⟩, ⟨_, rfl, rfl, rfl⟩⟩

/-- C8. `Shuffle` produces exactly `steps` operations: whenever `Shuffle(steps)` returns, the
vector `shuffle_ops` holds `steps` operations (none for `steps <= 0`), the pending queue is
the queue before with these operations pushed at its front in generation order, so that they
leave the queue after the operations already pending and in generation order, and `_cube_map`
and the animation flag are unchanged. `Shuffle` does return when the pending queue is empty
and three random values are available for each step, and when `steps <= 0`. -/
theorem Shuffle_enqueues_steps (c : CCube) (steps : Int) (rand : List Nat) :
    (∀ c1 : CCube, Shuffle c steps rand = Except.ok c1 →
      ∃ ops rest, Shuffle_ops c steps.toNat [] rand = Except.ok (ops, rest) ∧
        (ops.length : Int) = max steps 0 ∧
        c1._pending_queue = ops.reverse ++ c._pending_queue ∧
        c1._cube_map = c._cube_map ∧
        c1._animation_is_active = c._animation_is_active) ∧
    (c._pending_queue = [] → 3 * steps.toNat ≤ rand.length →
      ∃ c1, Shuffle c steps rand = Except.ok c1) ∧
    (steps ≤ 0 → ∃ c1, Shuffle c steps rand = Except.ok c1 ∧
      c1._pending_queue = c._pending_queue) := by
  refine ⟨?_, ?_, ?_⟩
  · intro c1 h
    unfold Shuffle at h
    split at h
    · exact absurd h (by simp)
    · rename_i ops rest hops
      obtain ⟨new, h1, h2⟩ := Shuffle_ops_length c _ _ _ _ _ hops
      have hc : c1 = ops.foldl Change c := by
        simp only [Except.ok.injEq] at h
        exact h.symm
      obtain ⟨f1, f2, f3⟩ := foldl_Change ops c
      refine ⟨ops, rest, hops, ?_, by rw [hc, f1], by rw [hc, f2], by rw [hc, f3]⟩
      rw [h1, List.nil_append, h2]
      omega
  · intro hq hlen
    obtain ⟨ops, rest, h, _⟩ := Shuffle_ops_empty c hq steps.toNat [] rand hlen
    refine ⟨ops.foldl Change c, ?_⟩
    unfold Shuffle
    rw [h]
  · intro hle
    refine ⟨c, ?_, rfl⟩
    unfold Shuffle
    rw [Int.toNat_eq_zero.mpr hle]
    rfl

/-- Witness of C8: `Shuffle(2)` on the example cube with six random values returns and
enqueues two operations. -/
theorem Shuffle_enqueues_steps_witness :
    ∃ c1, Shuffle example_cube 2 [0, 1, 1, 2, 0, 0] = Except.ok c1 ∧
      ∃ ops rest, Shuffle_ops example_cube (2 : Int).toNat [] [0, 1, 1, 2, 0, 0] =
          Except.ok (ops, rest) ∧
        (ops.length : Int) = max 2 0 ∧
        c1._pending_queue = ops.reverse ++ example_cube._pending_queue ∧
        c1._cube_map = example_cube._cube_map ∧
        c1._animation_is_active = example_cube._animation_is_active :=
  ⟨_, rfl, (Shuffle_enqueues_steps example_cube 2 [0, 1, 1, 2, 0, 0]).1 _ rfl⟩

/-! ## The index update and the geometry -/

/-- C20. The index update agrees with the geometry: for every axis `a`, row `r`, direction
and every cell `(u, v)` of that layer (`u` on axis `(a + 1) mod 3`, `v` on axis
`(a + 2) mod 3`), the identity at `(u, v)` before `Rotate` is afterwards at the cell
`(2 - v, u)` for `right` and `(v, 2 - u)` for `left`, and the centred coordinates of that
cell are the centred coordinates of `(u, v)` turned by the exact quarter turn about axis `a`
that `Rotate` multiplies into the orientation matrix of the sub cube (+90 degrees for
`right`, -90 degrees for `left`; axes indexed x = 0, y = 1, z = 2). -/
theorem Rotate_agrees_with_geometry (c : CCube) (op : TChangeOperation) (u v : Fin 3) :
    cell (AxisIndex op._axis) (RowIndex op._row) u.val v.val < 27 ∧
    cell (AxisIndex op._axis) (RowIndex op._row)
      (turned_uv op._direction u.val v.val).1 (turned_uv op._direction u.val v.val).2 < 27 ∧
    CubeIndex (Rotate c op)
      (cell (AxisIndex op._axis) (RowIndex op._row)
        (turned_uv op._direction u.val v.val).1 (turned_uv op._direction u.val v.val).2) =
      CubeIndex c (cell (AxisIndex op._axis) (RowIndex op._row) u.val v.val) ∧
    trans_vec (cell (AxisIndex op._axis) (RowIndex op._row)
        (turned_uv op._direction u.val v.val).1 (turned_uv op._direction u.val v.val).2) =
      mul_vec (Rotate_rot_mat op)
        (trans_vec (cell (AxisIndex op._axis) (RowIndex op._row) u.val v.val)) := by
  obtain ⟨a, r, d⟩ := op
  cases a <;> cases r <;> cases d <;> fin_cases u <;> fin_cases v <;>
    exact ⟨by decide, by decide, rfl, by decide⟩

/-! ## What changes the mapping -/

theorem Update_unchanged_or_commit (c : CCube) (now now2 : TTime) :
    ((Update c now now2)._cube_map = c._cube_map ∧
      (Update c now now2)._pending_queue = c._pending_queue ∧
      (c._animation_is_active = false → c._pending_queue ≠ [] →
        (Update c now now2)._animation_is_active = true)) ∨
    (c._animation_is_active = true ∧ c._pending_queue ≠ [] ∧
      c._animation_time_s.past_lt c._animation_start_time now = false ∧
      ∃ op, c._pending_queue.getLast? = some op ∧
        (Update c now now2)._pending_queue = c._pending_queue.dropLast ∧
        (Update c now now2)._cube_map = Rotate_map c._cube_map op) := by
  obtain ⟨m, d, q, act, t0, t1⟩ := c
  rcases hq : q.getLast? with _ | op
  · have hq2 : q = [] := by simpa using hq
    subst hq2
    left
    simp [Update, Update_step]
  · have hne : q ≠ [] := by
      intro h; subst h; simp at hq
    have hemp : q.isEmpty = false := by
      cases q with
      | nil => exact absurd rfl hne
      | cons a l => rfl
    cases act
    · left
      simp [Update, Update_step, hq, hemp, hne]
    · by_cases hlt : d.past_lt t1 now = true
      · left
        simp [Update, Update_step, hq, hemp, hne, hlt]
      · right
        refine ⟨rfl, hne, by simpa using hlt, op, rfl, ?_⟩
        simp [Update, Update_step, hq, hemp, hlt, Update_commit, Rotate]

/-- C21. Only a commit mutates the mapping. `Change` never changes `_cube_map`, and neither
does a `Shuffle` that returns. A call of `Update` changes `_cube_map` or the pending queue
only if, on entry, the animation was active, the queue was not empty and the test
`DeltaTime_s(_animation_start_time, now) < _animation_time_s` failed (the elapsed time was
not smaller than the duration); it then removes the operation at the back of the queue and
applies `Rotate` with it. In particular an `Update` on a cube that is not animating leaves
`_cube_map` and the queue as they are, also the one that finds a pending operation and turns
the animation on, and so does every `Update` for which the elapsed time is smaller than the
duration. -/
theorem only_commit_mutates (c : CCube) (op : TChangeOperation) (steps : Int) (rand : List Nat)
    (now now2 : TTime) :
    (Change c op)._cube_map = c._cube_map ∧
    (∀ c1, Shuffle c steps rand = Except.ok c1 → c1._cube_map = c._cube_map) ∧
    ((Update c now now2)._cube_map ≠ c._cube_map ∨
        (Update c now now2)._pending_queue ≠ c._pending_queue →
      c._animation_is_active = true ∧ c._pending_queue ≠ [] ∧
      c._animation_time_s.past_lt c._animation_start_time now = false ∧
      ∃ last, c._pending_queue.getLast? = some last ∧
        (Update c now now2)._pending_queue = c._pending_queue.dropLast ∧
        (Update c now now2)._cube_map = (Rotate c last)._cube_map) ∧
    (c._animation_is_active = false →
      (Update c now now2)._cube_map = c._cube_map ∧
      (Update c now now2)._pending_queue = c._pending_queue) ∧
    (c._animation_is_active = false → c._pending_queue ≠ [] →
      (Update c now now2)._animation_is_active = true ∧
      (Update c now now2)._cube_map = c._cube_map ∧
      (Update c now now2)._pending_queue = c._pending_queue) ∧
    (c._animation_time_s.past_lt c._animation_start_time now = true →
      (Update c now now2)._cube_map = c._cube_map ∧
      (Update c now now2)._pending_queue = c._pending_queue) := by
  refine ⟨rfl, ?_, ?_, ?_, ?_, ?_⟩
  · intro c1 h
    unfold Shuffle at h
    split at h
    · exact absurd h (by simp)
    · rename_i ops rest hops
      simp only [Except.ok.injEq] at h
      rw [← h]
      exact (foldl_Change ops c).2.1
  · intro hch
    rcases Update_unchanged_or_commit c now now2 with ⟨hm, hq, _⟩ | h
    · rcases hch with hch | hch
      · exact absurd hm hch
      · exact absurd hq hch
    · exact h
  · intro hidle
    rcases Update_unchanged_or_commit c now now2 with ⟨hm, hq, _⟩ | ⟨hact, _⟩
    · exact ⟨hm, hq⟩
    · rw [hidle] at hact
      exact absurd hact (by decide)
  · intro hidle hne
    rcases Update_unchanged_or_commit c now now2 with ⟨hm, hq, ha⟩ | ⟨hact, _⟩
    · exact ⟨ha hidle hne, hm, hq⟩
    · rw [hidle] at hact
      exact absurd hact (by decide)
  · intro hlt
    rcases Update_unchanged_or_commit c now now2 with ⟨hm, hq, _⟩ | ⟨_, _, hge, _⟩
    · exact ⟨hm, hq⟩
    · rw [hlt] at hge
      exact absurd hge (by decide)

/-- Witness of C21: on the example cube in the middle of the animation of its one pending
operation, the `Update` half a second after the start empties the queue; the animation was
active, the queue not empty and the elapsed time not smaller than the duration. -/
theorem only_commit_mutates_witness :
    (Update example_animating 500 500)._pending_queue ≠ example_animating._pending_queue ∧
    example_animating._animation_is_active = true ∧ example_animating._pending_queue ≠ [] ∧
    example_animating._animation_time_s.past_lt example_animating._animation_start_time 500 =
      false :=
  ⟨by decide,
    ((only_commit_mutates example_animating ⟨TAxis.x, TRow.low, TDirection.left⟩ 0 [] 500
      500).2.2.1 (Or.inr (by decide))).1,
    ((only_commit_mutates example_animating ⟨TAxis.x, TRow.low, TDirection.left⟩ 0 [] 500
      500).2.2.1 (Or.inr (by decide))).2.1,
    ((only_commit_mutates example_animating ⟨TAxis.x, TRow.low, TDirection.left⟩ 0 [] 500
      500).2.2.1 (Or.inr (by decide))).2.2.1⟩

/-! ## The animation flag and the pending queue -/

theorem apply_public_active (c c1 : CCube) (call : TPublicCall)
    (h : c._animation_is_active = true → c._pending_queue ≠ [])
    (h1 : call.apply c = Except.ok c1) :
    c1._animation_is_active = true → c1._pending_queue ≠ [] := by
  cases call with
  | AnimationTime time_s =>
    simp only [TPublicCall.apply, Except.ok.injEq] at h1
    subst h1
    exact h
  | Change op =>
    simp only [TPublicCall.apply, Except.ok.injEq] at h1
    subst h1
    intro _
    simp [Change]
  | Shuffle steps rand =>
    simp only [TPublicCall.apply] at h1
    unfold Shuffle at h1
    split at h1
    · exact absurd h1 (by simp)
    · rename_i ops rest hops
      simp only [Except.ok.injEq] at h1
      subst h1
      obtain ⟨f1, _, f3⟩ := foldl_Change ops c
      intro hact
      rw [f3] at hact
      rw [f1]
      simp [h hact]
  | Update now now2 =>
    simp only [TPublicCall.apply, Except.ok.injEq] at h1
    subst h1
    rcases Update_step_cases c now now2 with ⟨_, hq, _, ha⟩ | ⟨op, _, _, _, _, ha⟩
    · intro hact
      unfold Update at hact ⊢
      rw [hq]
      exact ha hact
    · intro hact
      unfold Update at hact
      rw [ha] at hact
      exact absurd hact (by decide)

theorem run_public_active (calls : List TPublicCall) (c c1 : CCube)
    (h : c._animation_is_active = true → c._pending_queue ≠ [])
    (h1 : run_public c calls = Except.ok c1) :
    c1._animation_is_active = true → c1._pending_queue ≠ [] := by
  induction calls generalizing c with
  | nil =>
    simp only [run_public, Except.ok.injEq] at h1
    subst h1
    exact h
  | cons call calls ih =>
    unfold run_public at h1
    split at h1
    · exact absurd h1 (by simp)
    · rename_i c2 hc2
      exact ih c2 (apply_public_active c c2 call h hc2) h1

/-- C22. Animation-clock invariant. In every state that a freshly constructed cube reaches
by calls of `AnimationTime`, `Change`, `Shuffle` and `Update`, `_animation_is_active` implies
that the pending queue is not empty; and a call of `Update` on a cube (reachable or not) with
an empty queue returns with `_animation_is_active` false and the queue still empty. -/
theorem active_implies_pending (ticks_per_ms : Int) (calls : List TPublicCall) (c : CCube)
    (h : run_public (CCube.ctor ticks_per_ms) calls = Except.ok c) :
    (c._animation_is_active = true → c._pending_queue ≠ []) ∧
    (∀ (c0 : CCube) (now now2 : TTime), c0._pending_queue = [] →
      (Update c0 now now2)._animation_is_active = false ∧
      (Update c0 now now2)._pending_queue = []) := by
  have h0 : (CCube.ctor ticks_per_ms)._animation_is_active = false := rfl
  refine ⟨run_public_active calls _ c (fun hact => absurd (h0.symm.trans hact) (by decide)) h, ?_⟩
  intro c0 now now2 hq
  obtain ⟨m, d, q, act, t0, t1⟩ := c0
  simp only at hq
  subst hq
  simp [Update, Update_step]

/-- Witness of C22: a fresh cube after `AnimationTime`, `Shuffle(2)`, `Change` and two calls of
`Update` is animating, with three operations pending. -/
theorem active_implies_pending_witness :
    ∃ c, run_public (CCube.ctor 1000000) example_public_calls = Except.ok c ∧
      c._animation_is_active = true ∧ c._pending_queue.length = 3 ∧
      (c._animation_is_active = true → c._pending_queue ≠ []) :=
  ⟨_, rfl, by decide, by decide,
    (active_implies_pending 1000000 example_public_calls _ rfl).1⟩

/-! ## The draws of `Shuffle` -/

theorem isEmpty_of_ne_nil (q : TChangeQueue) (hq : q ≠ []) : q.isEmpty = false := by
  cases q with
  | nil => exact absurd rfl hq
  | cons a l => rfl

theorem Shuffle_draw_first (c : CCube) (hq : c._pending_queue ≠ []) (r1 r2 r3 : Nat)
    (rand : List Nat) :
    Shuffle_draw c [] (r1 :: r2 :: r3 :: rand) = Except.error TFault.undefined_access := by
  simp [Shuffle_draw, isEmpty_of_ne_nil _ hq]

theorem valid_false_iff (back op : TChangeOperation) :
    (back._axis != op._axis || back._row != op._row || back._direction == op._direction) = false ↔
      op = inverse back := by
  obtain ⟨a, r, d⟩ := back
  obtain ⟨a1, r1, d1⟩ := op
  cases a <;> cases r <;> cases d <;> cases a1 <;> cases r1 <;> cases d1 <;> decide

theorem Shuffle_draw_second_check (c : CCube) (hq : c._pending_queue ≠ [])
    (shuffle_ops : List TChangeOperation) (back : TChangeOperation)
    (hb : shuffle_ops.getLast? = some back) (hlen : 1 < shuffle_ops.length) (r1 r2 r3 : Nat)
    (hinv : Shuffle_op r1 r2 r3 ≠ inverse back) (rand : List Nat) :
    Shuffle_draw c shuffle_ops (r1 :: r2 :: r3 :: rand) =
      Except.error TFault.undefined_access := by
  have hv : (back._axis != (Shuffle_op r1 r2 r3)._axis ||
      back._row != (Shuffle_op r1 r2 r3)._row ||
      back._direction == (Shuffle_op r1 r2 r3)._direction) = true := by
    rcases h : (back._axis != (Shuffle_op r1 r2 r3)._axis ||
      back._row != (Shuffle_op r1 r2 r3)._row ||
      back._direction == (Shuffle_op r1 r2 r3)._direction) with _ | _
    · exact absurd ((valid_false_iff _ _).mp h) hinv
    · rfl
  unfold Shuffle_op at hv
  rw [Shuffle_draw]
  simp only [isEmpty_of_ne_nil _ hq, hb, hv]
  cases shuffle_ops with
  | nil => simp at hlen
  | cons a l =>
    cases l with
    | nil => simp at hlen
    | cons b l => simp

theorem Shuffle_ops_empty_drop (c : CCube) (hq : c._pending_queue = []) (n : Nat)
    (acc : List TChangeOperation) (rand : List Nat) (h : 3 * n ≤ rand.length) :
    ∃ new, new.length = n ∧
      Shuffle_ops c n acc rand = Except.ok (acc ++ new, rand.drop (3 * n)) := by
  induction n generalizing acc rand with
  | zero => exact ⟨[], rfl, by simp [Shuffle_ops]⟩
  | succ n ih =>
    match rand, h with
    | r1 :: r2 :: r3 :: rest, h =>
      have hd : Shuffle_draw c acc (r1 :: r2 :: r3 :: rest) =
          Except.ok (Shuffle_op r1 r2 r3, rest) := by
        simp [Shuffle_draw, hq, Shuffle_op]
      obtain ⟨new, h1, h2⟩ := ih (acc ++ [Shuffle_op r1 r2 r3]) rest (by simp at h; omega)
      refine ⟨Shuffle_op r1 r2 r3 :: new, by simp [h1], ?_⟩
      unfold Shuffle_ops
      rw [hd]
      simp only
      rw [h2]
      have e : 3 * (n + 1) = 3 * n + 3 := by ring
      simp [e]

theorem Shuffle_draw_queue_empty (c : CCube) (hq : c._pending_queue = [])
    (acc : List TChangeOperation) (rand : List Nat) (op : TChangeOperation) (rest : List Nat)
    (h : Shuffle_draw c acc rand = Except.ok (op, rest)) :
    3 ≤ rand.length ∧ rest = rand.drop 3 := by
  match rand with
  | r1 :: r2 :: r3 :: more =>
    simp only [Shuffle_draw, hq, List.isEmpty_nil, if_true, Except.ok.injEq, Prod.mk.injEq] at h
    exact ⟨by simp, by simp [h.2]⟩
  | [] => simp [Shuffle_draw] at h
  | [_] => simp [Shuffle_draw] at h
  | [_, _] => simp [Shuffle_draw] at h

theorem Shuffle_ops_queue_empty (c : CCube) (hq : c._pending_queue = []) (n : Nat)
    (acc : List TChangeOperation) (rand : List Nat) (ops : List TChangeOperation)
    (rest : List Nat) (h : Shuffle_ops c n acc rand = Except.ok (ops, rest)) :
    3 * n ≤ rand.length ∧ rest = rand.drop (3 * n) := by
  induction n generalizing acc rand with
  | zero =>
    simp only [Shuffle_ops, Except.ok.injEq, Prod.mk.injEq] at h
    exact ⟨by simp, by simp [h.2]⟩
  | succ n ih =>
    unfold Shuffle_ops at h
    split at h
    · exact absurd h (by simp)
    · rename_i op rest1 hd
      obtain ⟨d1, d2⟩ := Shuffle_draw_queue_empty c hq acc rand op rest1 hd
      obtain ⟨i1, i2⟩ := ih _ _ h
      subst d2
      rw [List.length_drop] at i1
      refine ⟨by omega, ?_⟩
      rw [i2, List.drop_drop]
      congr 1
      omega

theorem Shuffle_draw_queue_pending (c : CCube) (hq : c._pending_queue ≠ []) (rand : List Nat) :
    ∃ e, Shuffle_draw c [] rand = Except.error e := by
  match rand with
  | r1 :: r2 :: r3 :: more => exact ⟨_, Shuffle_draw_first c hq r1 r2 r3 more⟩
  | [] => exact ⟨TFault.draws_exhausted, by simp [Shuffle_draw]⟩
  | [_] => exact ⟨TFault.draws_exhausted, by simp [Shuffle_draw]⟩
  | [_, _] => exact ⟨TFault.draws_exhausted, by simp [Shuffle_draw]⟩

theorem Shuffle_returns_inv (c c1 : CCube) (steps : Int) (rand : List Nat)
    (h : Shuffle c steps rand = Except.ok c1) : c._pending_queue = [] ∨ steps ≤ 0 := by
  by_cases hq : c._pending_queue = []
  · exact Or.inl hq
  · right
    by_contra hs
    obtain ⟨n, hn⟩ : ∃ n, steps.toNat = n + 1 := ⟨steps.toNat - 1, by omega⟩
    obtain ⟨e, he⟩ := Shuffle_draw_queue_pending c hq rand
    unfold Shuffle at h
    rw [hn] at h
    unfold Shuffle_ops at h
    rw [he] at h
    exact absurd h (by simp)

/-- C23, evaluated on the code. Whenever `Shuffle(steps)` returns, the pending queue was empty
on entry or `steps <= 0`, and no draw was repeated: the loop drew exactly one
`(axis, row, direction)` triple per step, the first `3 * steps` values of `std::rand()`
(none for `steps <= 0`). With an empty pending queue `Shuffle(steps)` does return, for every
`steps` and all random values. With a pending queue that is not empty and `steps >= 1` it
does not return: the first pass of the loop evaluates `shuffle_ops.back()` on the empty
vector, for every choice of the random values. -/
theorem Shuffle_draws_per_step (c : CCube) (steps : Int) (rand : List Nat) :
    (∀ c1, Shuffle c steps rand = Except.ok c1 →
      (c._pending_queue = [] ∨ steps ≤ 0) ∧ 3 * steps.toNat ≤ rand.length ∧
      ∃ ops, ops.length = steps.toNat ∧
        Shuffle_ops c steps.toNat [] rand = Except.ok (ops, rand.drop (3 * steps.toNat)) ∧
        c1 = ops.foldl Change c) ∧
    (c._pending_queue = [] → 3 * steps.toNat ≤ rand.length →
      ∃ c1, Shuffle c steps rand = Except.ok c1) ∧
    (c._pending_queue ≠ [] → 1 ≤ steps → 3 ≤ rand.length →
      Shuffle c steps rand = Except.error TFault.undefined_access) := by
  refine ⟨?_, ?_, ?_⟩
  · intro c1 h
    have hinv := Shuffle_returns_inv c c1 steps rand h
    refine ⟨hinv, ?_⟩
    unfold Shuffle at h
    split at h
    · exact absurd h (by simp)
    · rename_i ops rest hops
      simp only [Except.ok.injEq] at h
      obtain ⟨new, h1, h2⟩ := Shuffle_ops_length c _ _ _ _ _ hops
      rw [List.nil_append] at h1
      have hcons : 3 * steps.toNat ≤ rand.length ∧ rest = rand.drop (3 * steps.toNat) := by
        rcases hinv with hq | hs
        · exact Shuffle_ops_queue_empty c hq _ _ _ _ _ hops
        · have h0 : steps.toNat = 0 := Int.toNat_eq_zero.mpr hs
          rw [h0] at hops ⊢
          simp only [Shuffle_ops, Except.ok.injEq, Prod.mk.injEq] at hops
          exact ⟨by simp, by simp [hops.2]⟩
      refine ⟨hcons.1, ops, by rw [h1, h2], ?_, h.symm⟩
      rw [hops, hcons.2]
  · intro hq hlen
    obtain ⟨new, _, h2⟩ := Shuffle_ops_empty_drop c hq steps.toNat [] rand hlen
    refine ⟨([] ++ new).foldl Change c, ?_⟩
    unfold Shuffle
    rw [h2]
  · intro hq hs hr
    match rand, hr with
    | r1 :: r2 :: r3 :: rest, _ =>
      obtain ⟨n, hn⟩ : ∃ n, steps.toNat = n + 1 := ⟨steps.toNat - 1, by omega⟩
      unfold Shuffle
      rw [hn]
      unfold Shuffle_ops
      rw [Shuffle_draw_first c hq r1 r2 r3 rest]

/-- Witness of C23: on the example cube, whose queue is empty, `Shuffle(2)` with seven random
values returns after two draws and leaves the seventh value; on the cube with a pending
operation `Shuffle(1)` with the random values 0, 0, 0 does not return. -/
theorem Shuffle_draws_per_step_witness :
    (∃ c1, Shuffle example_cube 2 [0, 1, 1, 2, 0, 0, 5] = Except.ok c1 ∧
      ∃ ops, ops.length = (2 : Int).toNat ∧
        Shuffle_ops example_cube (2 : Int).toNat [] [0, 1, 1, 2, 0, 0, 5] =
          Except.ok (ops, [0, 1, 1, 2, 0, 0, 5].drop (3 * (2 : Int).toNat)) ∧
        c1 = ops.foldl Change example_cube) ∧
    Shuffle example_pending 1 [0, 0, 0] = Except.error TFault.undefined_access :=
  ⟨⟨_, rfl, ((Shuffle_draws_per_step example_cube 2 [0, 1, 1, 2, 0, 0, 5]).1 _ rfl).2.2⟩,
    (Shuffle_draws_per_step example_pending 1 [0, 0, 0]).2.2 (by decide) (by decide)
      (by decide)⟩

/-- C25, evaluated on the code. With a pending queue that is not empty, `Shuffle(steps)` for
`steps >= 1` reads outside its operation list: the first pass of the loop evaluates
`shuffle_ops.back()` while `shuffle_ops` is empty, for every choice of the random values. And
whenever a draw passes the first check with more than one operation in `shuffle_ops`, the
loop evaluates `shuffle_ops.rbegin()-2`, a position behind the end of the vector. -/
theorem Shuffle_reads_outside (c : CCube) (steps : Int) (rand : List Nat)
    (hq : c._pending_queue ≠ []) (hs : 1 ≤ steps) (hr : 3 ≤ rand.length) :
    Shuffle c steps rand = Except.error TFault.undefined_access ∧
    Shuffle_draw c [] rand = Except.error TFault.undefined_access ∧
    ∀ (shuffle_ops : List TChangeOperation) (back : TChangeOperation) (r1 r2 r3 : Nat)
      (rest : List Nat),
      shuffle_ops.getLast? = some back → 1 < shuffle_ops.length →
      Shuffle_op r1 r2 r3 ≠ inverse back →
      Shuffle_draw c shuffle_ops (r1 :: r2 :: r3 :: rest) =
        Except.error TFault.undefined_access := by
  match rand, hr with
  | r1 :: r2 :: r3 :: rest, _ =>
    have hd := Shuffle_draw_first c hq r1 r2 r3 rest
    refine ⟨?_, hd, ?_⟩
    · obtain ⟨n, hn⟩ : ∃ n, steps.toNat = n + 1 := ⟨steps.toNat - 1, by omega⟩
      unfold Shuffle
      rw [hn]
      unfold Shuffle_ops
      rw [hd]
    · intro shuffle_ops back s1 s2 s3 rest2 hb hlen hacc
      exact Shuffle_draw_second_check c hq shuffle_ops back hb hlen s1 s2 s3 hacc rest2

/-- Witness of C25: `Shuffle(2)` on the cube with a pending operation, with the random
values 1, 2, 0, 0, 0, 1. -/
theorem Shuffle_reads_outside_witness :
    example_pending._pending_queue ≠ [] ∧
    Shuffle example_pending 2 [1, 2, 0, 0, 0, 1] = Except.error TFault.undefined_access :=
  ⟨by decide,
    (Shuffle_reads_outside example_pending 2 [1, 2, 0, 0, 0, 1] (by decide) (by decide)
      (by decide)).1⟩

end Rubiks

namespace OpenGL.Polygon

open CPolygonOpenGL_2_00

/-! ## The cache of the renderer -/

theorem resize_length (cache : List GLfloat) (n : Nat) : (resize cache n).length = n := by
  simp only [resize, List.length_take, List.length_append, List.length_replicate]
  omega

theorem reserve_fields (s : CPolygonOpenGL_2_00) (k : Nat) :
    (reserve s k)._sequence_size = s._sequence_size ∧
    (reserve s k)._tuple_size = s._tuple_size ∧
    (reserve s k)._primitive_prog = s._primitive_prog ∧
    (reserve s k)._min_cache_elems = s._min_cache_elems := by
  unfold reserve
  split <;> exact ⟨rfl, rfl, rfl, rfl⟩

theorem reserve_length (s : CPolygonOpenGL_2_00) (k : Nat) :
    (s._sequence_size + k ≤ s._elem_cache.length →
      (reserve s k)._elem_cache.length = s._elem_cache.length) ∧
    (s._elem_cache.length < s._sequence_size + k →
      (reserve s k)._elem_cache.length = s._elem_cache.length + max k s._min_cache_elems) := by
  unfold reserve
  constructor
  · intro h
    rw [if_neg (by omega)]
  · intro h
    rw [if_pos h]
    exact resize_length _ _

theorem reserve_length_le (s : CPolygonOpenGL_2_00) (k : Nat) :
    s._elem_cache.length ≤ (reserve s k)._elem_cache.length := by
  obtain ⟨h1, h2⟩ := reserve_length s k
  by_cases h : s._elem_cache.length < s._sequence_size + k
  · rw [h2 h]; omega
  · rw [h1 (by omega)]

theorem reserve_enough (s : CPolygonOpenGL_2_00) (k : Nat)
    (h : s._sequence_size ≤ s._elem_cache.length) :
    s._sequence_size + k ≤ (reserve s k)._elem_cache.length := by
  obtain ⟨h1, h2⟩ := reserve_length s k
  by_cases hlt : s._elem_cache.length < s._sequence_size + k
  · rw [h2 hlt]
    have := le_max_left k s._min_cache_elems
    omega
  · rw [h1 (by omega)]; omega

theorem put_ok (s : CPolygonOpenGL_2_00) (v : GLfloat)
    (h : s._sequence_size < s._elem_cache.length) :
    ∃ s1, put s v = Except.ok s1 ∧ s1._sequence_size = s._sequence_size + 1 ∧
      s1._elem_cache.length = s._elem_cache.length ∧ s1._tuple_size = s._tuple_size ∧
      s1._primitive_prog = s._primitive_prog ∧ s1._min_cache_elems = s._min_cache_elems := by
  refine ⟨_, if_pos h, rfl, ?_, rfl, rfl, rfl⟩
  simp

theorem put_inv (s s1 : CPolygonOpenGL_2_00) (v : GLfloat) (h : put s v = Except.ok s1) :
    s._sequence_size < s._elem_cache.length ∧ s1._elem_cache.length = s._elem_cache.length := by
  unfold put at h
  split at h
  · rename_i hlt
    simp only [Except.ok.injEq] at h
    subst h
    exact ⟨hlt, by simp⟩
  · exact absurd h (by simp)

theorem store_ok (vals : List GLfloat) (cache : List GLfloat) (i : Nat)
    (h : i + vals.length ≤ cache.length) :
    ∃ cache1, store cache i vals = Except.ok cache1 ∧ cache1.length = cache.length := by
  induction vals generalizing cache i with
  | nil => exact ⟨cache, if_pos (by simpa using h), rfl⟩
  | cons v vals ih =>
    have hlt : i < cache.length := by simp at h; omega
    obtain ⟨c1, h1, h2⟩ := ih (cache.set i v) (i + 1) (by simp at h ⊢; omega)
    refine ⟨c1, ?_, by simpa using h2⟩
    unfold store
    rw [if_pos hlt]
    exact h1

theorem store_inv (vals : List GLfloat) (cache cache1 : List GLfloat) (i : Nat)
    (h : store cache i vals = Except.ok cache1) :
    i + vals.length ≤ cache.length ∧ cache1.length = cache.length := by
  induction vals generalizing cache i with
  | nil =>
    unfold store at h
    split at h
    · rename_i hle
      simp only [Except.ok.injEq] at h
      subst h
      exact ⟨by simpa using hle, rfl⟩
    · exact absurd h (by simp)
  | cons v vals ih =>
    unfold store at h
    split at h
    · obtain ⟨h1, h2⟩ := ih _ _ h
      simp at h1 h2 ⊢
      exact ⟨by omega, h2⟩
    · exact absurd h (by simp)

theorem DrawSequence_length (s s1 : CPolygonOpenGL_2_00) (x y z : GLfloat) (b : Bool)
    (h : DrawSequence s x y z = Except.ok (b, s1)) :
    (b = false ∧ s1 = s) ∨
    (b = true ∧ s1._elem_cache.length = (reserve s s._tuple_size)._elem_cache.length) := by
  unfold DrawSequence at h
  split at h
  · simp only [Except.ok.injEq, Prod.mk.injEq] at h
    exact Or.inl ⟨h.1.symm, h.2.symm⟩
  · split at h
    · simp only [Except.ok.injEq, Prod.mk.injEq] at h
      exact Or.inl ⟨h.1.symm, h.2.symm⟩
    · right
      dsimp only at h
      split at h
      · exact absurd h (by simp)
      · rename_i s2 h2
        split at h
        · exact absurd h (by simp)
        · rename_i s3 h3
          split at h
          · exact absurd h (by simp)
          · rename_i s4 h4
            split at h
            · exact absurd h (by simp)
            · rename_i s5 h5
              simp only [Except.ok.injEq, Prod.mk.injEq] at h
              obtain ⟨hb, hs⟩ := h
              subst hs
              refine ⟨hb.symm, ?_⟩
              have e2 := (put_inv _ _ _ h2).2
              have e3 := (put_inv _ _ _ h3).2
              have e4 : s4._elem_cache.length = s3._elem_cache.length := by
                split at h4
                · exact (put_inv _ _ _ h4).2
                · simp only [Except.ok.injEq] at h4
                  rw [h4]
              have e5 : s5._elem_cache.length = s4._elem_cache.length := by
                split at h5
                · exact (put_inv _ _ _ h5).2
                · simp only [Except.ok.injEq] at h5
                  rw [h5]
              rw [e5, e4, e3, e2]

theorem DrawSequence_active (s : CPolygonOpenGL_2_00) (x y z : GLfloat)
    (prog : CPrimitiveOpenGL_2_00) (hp : s._primitive_prog = some prog)
    (hact : prog._active_sequence = true)
    (ht : s._tuple_size = 2 ∨ s._tuple_size = 3 ∨ s._tuple_size = 4)
    (hinv : s._sequence_size ≤ s._elem_cache.length) :
    ∃ s1, DrawSequence s x y z = Except.ok (true, s1) ∧
      s1._sequence_size = s._sequence_size + s._tuple_size ∧
      s1._tuple_size = s._tuple_size ∧ s1._primitive_prog = s._primitive_prog ∧
      s1._min_cache_elems = s._min_cache_elems := by
  obtain ⟨r1, r2, r3, r4⟩ := reserve_fields s s._tuple_size
  have hlen := reserve_enough s s._tuple_size hinv
  obtain ⟨s2, p2, q2, l2, t2, g2, m2⟩ := put_ok (reserve s s._tuple_size) x (by omega)
  obtain ⟨s3, p3, q3, l3, t3, g3, m3⟩ := put_ok s2 y (by omega)
  unfold DrawSequence
  rw [hp]
  simp only [CPrimitiveOpenGL_2_00.ActiveSequence, hact, p2, p3]
  rcases ht with ht | ht | ht
  · have c1 : ¬ s3._tuple_size ≥ 3 := by omega
    have c2 : ¬ s3._tuple_size = 4 := by omega
    simp only [c1, c2, if_false]
    exact ⟨s3, by simp, by omega, by omega, by rw [g3, g2, r3, hp], by omega⟩
  · obtain ⟨s4, p4, q4, l4, t4, g4, m4⟩ := put_ok s3 z (by omega)
    have c1 : s3._tuple_size ≥ 3 := by omega
    have c2 : ¬ s4._tuple_size = 4 := by omega
    simp only [c1, c2, if_true, if_false, p4]
    exact ⟨s4, by simp, by omega, by omega, by rw [g4, g3, g2, r3, hp], by omega⟩
  · obtain ⟨s4, p4, q4, l4, t4, g4, m4⟩ := put_ok s3 z (by omega)
    obtain ⟨s5, p5, q5, l5, t5, g5, m5⟩ := put_ok s4 1 (by omega)
    have c1 : s3._tuple_size ≥ 3 := by omega
    have c2 : s4._tuple_size = 4 := by omega
    simp only [c1, c2, if_true, p4, p5]
    exact ⟨s5, by simp, by omega, by omega, by rw [g5, g4, g3, g2, r3, hp], by omega⟩

theorem DrawSequence_double_eq (narrow : GLdouble → GLfloat) (s : CPolygonOpenGL_2_00)
    (x y z : GLdouble) :
    DrawSequence_double narrow s x y z = DrawSequence s (narrow x) (narrow y) (narrow z) := rfl

theorem DrawSequence_bulk_double_eq (narrow : GLdouble → GLfloat) (s : CPolygonOpenGL_2_00)
    (n : Nat) (coords : List GLdouble) :
    DrawSequence_bulk_double narrow s n coords = DrawSequence_bulk s n (coords.map narrow) := by
  unfold DrawSequence_bulk_double DrawSequence_bulk read_array
  by_cases h : n ≤ coords.length
  · simp [h, List.map_take]
  · simp [h]

theorem DrawSequence_bulk_length (s s1 : CPolygonOpenGL_2_00) (n : Nat)
    (coords : List GLfloat) (b : Bool)
    (h : DrawSequence_bulk s n coords = Except.ok (b, s1)) :
    (b = false ∧ s1 = s) ∨
    (b = true ∧ s1._elem_cache.length = (reserve s n)._elem_cache.length) := by
  unfold DrawSequence_bulk at h
  split at h
  · simp only [Except.ok.injEq, Prod.mk.injEq] at h
    exact Or.inl ⟨h.1.symm, h.2.symm⟩
  · split at h
    · simp only [Except.ok.injEq, Prod.mk.injEq] at h
      exact Or.inl ⟨h.1.symm, h.2.symm⟩
    · right
      dsimp only at h
      split at h
      · exact absurd h (by simp)
      · split at h
        · exact absurd h (by simp)
        · rename_i cache hst
          simp only [Except.ok.injEq, Prod.mk.injEq] at h
          obtain ⟨hb, hs⟩ := h
          subst hs
          exact ⟨hb.symm, (store_inv _ _ _ _ hst).2⟩

theorem DrawSequence_bulk_active (s : CPolygonOpenGL_2_00) (n : Nat) (coords : List GLfloat)
    (prog : CPrimitiveOpenGL_2_00) (hp : s._primitive_prog = some prog)
    (hact : prog._active_sequence = true) (hn : n ≤ coords.length)
    (hinv : s._sequence_size ≤ s._elem_cache.length) :
    ∃ s1, DrawSequence_bulk s n coords = Except.ok (true, s1) ∧
      s1._sequence_size = s._sequence_size + n ∧
      s1._tuple_size = s._tuple_size ∧ s1._primitive_prog = s._primitive_prog ∧
      s1._min_cache_elems = s._min_cache_elems := by
  obtain ⟨r1, r2, r3, r4⟩ := reserve_fields s n
  have hlen := reserve_enough s n hinv
  obtain ⟨cache, hst, hcl⟩ := store_ok (coords.take n) (reserve s n)._elem_cache
    (reserve s n)._sequence_size (by rw [r1, List.length_take]; omega)
  unfold DrawSequence_bulk
  rw [hp]
  simp only [CPrimitiveOpenGL_2_00.ActiveSequence, hact, read_array, if_pos hn, hst]
  refine ⟨{ reserve s n with
    _elem_cache := cache, _sequence_size := (reserve s n)._sequence_size + n }, ?_, ?_, ?_, ?_, ?_⟩
  · simp
  · simp [r1]
  · simp [r2]
  · simp [r3, hp]
  · simp [r4]

/-! ## One call on the renderer -/

theorem udiv_ok (a b : Nat) (h : b = 2 ∨ b = 3 ∨ b = 4) : udiv a b = Except.ok (a / b) := by
  unfold udiv
  rw [if_neg (by omega)]

theorem DrawSequence_preserves (s : CPolygonOpenGL_2_00) (x y z : GLfloat)
    (hinv : CacheInv s) :
    ∃ r, DrawSequence s x y z = Except.ok r ∧ CacheInv r.2 ∧
      r.2._min_cache_elems = s._min_cache_elems := by
  obtain ⟨h1, h2⟩ := hinv
  rcases hp : s._primitive_prog with _ | prog
  · exact ⟨(false, s), by simp [DrawSequence, hp], ⟨h1, h2⟩, rfl⟩
  · cases hact : prog._active_sequence
    · exact ⟨(false, s),
        by simp [DrawSequence, hp, hact, CPrimitiveOpenGL_2_00.ActiveSequence], ⟨h1, h2⟩, rfl⟩
    · have ht := h2 prog hp hact
      obtain ⟨s1, e, q, t, g, m⟩ := DrawSequence_active s x y z prog hp hact ht h1
      refine ⟨(true, s1), e, ⟨?_, ?_⟩, m⟩
      · rcases DrawSequence_length s s1 x y z true e with ⟨hb, _⟩ | ⟨_, hl⟩
        · exact absurd hb (by decide)
        · show s1._sequence_size ≤ s1._elem_cache.length
          rw [hl, q]
          exact reserve_enough s _ h1
      · intro prog1 _ _
        show s1._tuple_size = 2 ∨ s1._tuple_size = 3 ∨ s1._tuple_size = 4
        rw [t]
        exact ht

theorem DrawSequence_bulk_preserves (s : CPolygonOpenGL_2_00) (n : Nat) (coords : List GLfloat)
    (hn : n ≤ coords.length) (hinv : CacheInv s) :
    ∃ r, DrawSequence_bulk s n coords = Except.ok r ∧ CacheInv r.2 ∧
      r.2._min_cache_elems = s._min_cache_elems := by
  obtain ⟨h1, h2⟩ := hinv
  rcases hp : s._primitive_prog with _ | prog
  · exact ⟨(false, s), by simp [DrawSequence_bulk, hp], ⟨h1, h2⟩, rfl⟩
  · cases hact : prog._active_sequence
    · exact ⟨(false, s),
        by simp [DrawSequence_bulk, hp, hact, CPrimitiveOpenGL_2_00.ActiveSequence],
        ⟨h1, h2⟩, rfl⟩
    · have ht := h2 prog hp hact
      obtain ⟨s1, e, q, t, g, m⟩ := DrawSequence_bulk_active s n coords prog hp hact hn h1
      refine ⟨(true, s1), e, ⟨?_, ?_⟩, m⟩
      · rcases DrawSequence_bulk_length s s1 n coords true e with ⟨hb, _⟩ | ⟨_, hl⟩
        · exact absurd hb (by decide)
        · show s1._sequence_size ≤ s1._elem_cache.length
          rw [hl, q]
          exact reserve_enough s _ h1
      · intro prog1 _ _
        show s1._tuple_size = 2 ∨ s1._tuple_size = 3 ∨ s1._tuple_size = 4
        rw [t]
        exact ht

theorem apply_preserves (narrow : GLdouble → GLfloat) (s : CPolygonOpenGL_2_00) (call : TCall)
    (hwf : call.wellFormed) (hinv : CacheInv s) :
    ∃ r, call.apply narrow s = Except.ok r ∧ CacheInv r.2 ∧
      r.2._min_cache_elems = s._min_cache_elems := by
  cases call with
  | DrawSequence x y z => exact DrawSequence_preserves s x y z hinv
  | DrawSequence_double x y z =>
    exact DrawSequence_preserves s (narrow x) (narrow y) (narrow z) hinv
  | DrawSequence_bulk n coords => exact DrawSequence_bulk_preserves s n coords hwf hinv
  | DrawSequence_bulk_double n coords =>
    show ∃ r, DrawSequence_bulk_double narrow s n coords = Except.ok r ∧ _
    rw [DrawSequence_bulk_double_eq]
    exact DrawSequence_bulk_preserves s n (coords.map narrow)
      (by rw [List.length_map]; exact hwf) hinv
  | Draw k t n coords =>
    obtain ⟨h1, h2⟩ := hinv
    have hu := udiv_ok n t hwf.1
    rcases hp : s._primitive_prog with _ | prog
    · simp [TCall.apply, hp, CacheInv, h1, Draw]
    · have h3 := h2 prog hp
      cases hact : prog._active_sequence <;>
        simp [TCall.apply, hp, hact, CacheInv, h1, Draw, hu,
          CPrimitiveOpenGL_2_00.ActiveSequence, CPrimitiveOpenGL_2_00.receive]
      simpa [hact] using h3
  | Draw_double k t n coords =>
    obtain ⟨h1, h2⟩ := hinv
    have hu := udiv_ok n t hwf.1
    rcases hp : s._primitive_prog with _ | prog
    · simp [TCall.apply, hp, CacheInv, h1, Draw_double]
    · have h3 := h2 prog hp
      cases hact : prog._active_sequence <;>
        simp [TCall.apply, hp, hact, CacheInv, h1, Draw_double, hu,
          CPrimitiveOpenGL_2_00.ActiveSequence, CPrimitiveOpenGL_2_00.receive]
      simpa [hact] using h3
  | StartSequence k t =>
    obtain ⟨h1, h2⟩ := hinv
    have ht : t = 2 ∨ t = 3 ∨ t = 4 := hwf
    rcases hp : s._primitive_prog with _ | prog
    · simp [TCall.apply, hp, CacheInv, h1, StartSequence]
    · have h3 := h2 prog hp
      cases hact : prog._active_sequence <;>
        simp [TCall.apply, hp, hact, CacheInv, h1, StartSequence, ht,
          CPrimitiveOpenGL_2_00.ActiveSequence, CPrimitiveOpenGL_2_00.receive,
          CPrimitiveOpenGL_2_00.StartSequence]
      simpa [hact] using h3
  | EndSequence =>
    obtain ⟨h1, h2⟩ := hinv
    rcases hp : s._primitive_prog with _ | prog
    · simp [TCall.apply, hp, CacheInv, h1, EndSequence]
    · have h3 := h2 prog hp
      cases hact : prog._active_sequence
      · simp [TCall.apply, hp, hact, CacheInv, h1, EndSequence,
          CPrimitiveOpenGL_2_00.ActiveSequence, CPrimitiveOpenGL_2_00.receive,
          CPrimitiveOpenGL_2_00.EndSequence]
      · have hu := udiv_ok s._sequence_size s._tuple_size (h3 hact)
        simp [TCall.apply, hp, hact, CacheInv, EndSequence, hu,
          CPrimitiveOpenGL_2_00.ActiveSequence, CPrimitiveOpenGL_2_00.receive,
          CPrimitiveOpenGL_2_00.EndSequence]
  | _ =>
    obtain ⟨h1, h2⟩ := hinv
    rcases hp : s._primitive_prog with _ | prog
    · simp [TCall.apply, hp, CacheInv, h1, CPolygonOpenGL_2_00.Init,
        StartSuccessivePolygonDrawings, FinishSuccessivePolygonDrawings, SetColor, SetStyle,
        Draw_xy, Draw_xy_double, CPrimitiveOpenGL_2_00.make]
    · have h3 := h2 prog hp
      cases hact : prog._active_sequence <;>
        simp [TCall.apply, hp, hact, CacheInv, h1, CPolygonOpenGL_2_00.Init,
          StartSuccessivePolygonDrawings, FinishSuccessivePolygonDrawings, SetColor, SetStyle,
          Draw_xy, Draw_xy_double,
          CPrimitiveOpenGL_2_00.ActiveSequence, CPrimitiveOpenGL_2_00.receive]
      all_goals simpa [hact] using h3

theorem apply_cache_length (narrow : GLdouble → GLfloat) (s : CPolygonOpenGL_2_00)
    (call : TCall) (r : Bool × CPolygonOpenGL_2_00) (h : call.apply narrow s = Except.ok r) :
    s._elem_cache.length ≤ r.2._elem_cache.length := by
  have hseq : ∀ (x y z : GLfloat), DrawSequence s x y z = Except.ok r →
      s._elem_cache.length ≤ r.2._elem_cache.length := by
    intro x y z h
    rcases DrawSequence_length s r.2 x y z r.1 h with ⟨_, hs⟩ | ⟨_, hl⟩
    · rw [hs]
    · rw [hl]; exact reserve_length_le s _
  have hbulk : ∀ (n : Nat) (coords : List GLfloat), DrawSequence_bulk s n coords = Except.ok r →
      s._elem_cache.length ≤ r.2._elem_cache.length := by
    intro n coords h
    rcases DrawSequence_bulk_length s r.2 n coords r.1 h with ⟨_, hs⟩ | ⟨_, hl⟩
    · rw [hs]
    · rw [hl]; exact reserve_length_le s _
  cases call with
  | DrawSequence x y z => exact hseq x y z h
  | DrawSequence_double x y z => exact hseq _ _ _ h
  | DrawSequence_bulk n coords => exact hbulk n coords h
  | DrawSequence_bulk_double n coords =>
    have h2 : DrawSequence_bulk_double narrow s n coords = Except.ok r := h
    rw [DrawSequence_bulk_double_eq] at h2
    exact hbulk _ _ h2
  | _ =>
    simp only [TCall.apply, CPolygonOpenGL_2_00.Init, StartSuccessivePolygonDrawings,
      FinishSuccessivePolygonDrawings, SetColor, SetStyle, Draw, Draw_double, Draw_xy,
      Draw_xy_double, StartSequence, EndSequence] at h
    repeat' split at h
    all_goals first
      | (simp only [Except.ok.injEq] at h
         subst h
         exact le_refl _)
      | simp at h

/-! ## Series of calls on the renderer -/

theorem run_preserves (narrow : GLdouble → GLfloat) (calls : List TCall)
    (s : CPolygonOpenGL_2_00) (hwf : ∀ call ∈ calls, call.wellFormed) (hinv : CacheInv s) :
    ∃ s1, run narrow s calls = Except.ok s1 ∧ CacheInv s1 ∧
      s1._min_cache_elems = s._min_cache_elems ∧
      s._elem_cache.length ≤ s1._elem_cache.length := by
  induction calls generalizing s with
  | nil => exact ⟨s, rfl, hinv, rfl, le_refl _⟩
  | cons call calls ih =>
    obtain ⟨r, hr, hi, hm⟩ :=
      apply_preserves narrow s call (hwf call (List.mem_cons_self _ _)) hinv
    obtain ⟨s1, h1, h2, h3, h4⟩ :=
      ih r.2 (fun c hc => hwf c (List.mem_cons_of_mem _ hc)) hi
    refine ⟨s1, ?_, h2, by rw [h3, hm], ?_⟩
    · unfold run
      rw [hr]
      exact h1
    · exact le_trans (apply_cache_length narrow s call r hr) h4

theorem CacheInv_ctor (min_cache_elems : Nat) (style : TStyle) (kind : TPrimitive) :
    CacheInv (CPolygonOpenGL_2_00.ctor min_cache_elems style kind) := by
  refine ⟨Nat.zero_le _, ?_⟩
  intro prog h
  exact absurd h (by simp [CPolygonOpenGL_2_00.ctor])

theorem DrawSequence_true (s s1 : CPolygonOpenGL_2_00) (x y z : GLfloat)
    (h : DrawSequence s x y z = Except.ok (true, s1)) :
    ∃ prog, s._primitive_prog = some prog ∧ prog._active_sequence = true := by
  unfold DrawSequence at h
  split at h
  · simp at h
  · rename_i prog hp
    split at h
    · simp at h
    · rename_i hact
      exact ⟨prog, hp, by simpa [CPrimitiveOpenGL_2_00.ActiveSequence] using hact⟩

theorem DrawSequence_bulk_true (s s1 : CPolygonOpenGL_2_00) (n : Nat) (coords : List GLfloat)
    (h : DrawSequence_bulk s n coords = Except.ok (true, s1)) :
    (∃ prog, s._primitive_prog = some prog ∧ prog._active_sequence = true) ∧
      n ≤ coords.length := by
  unfold DrawSequence_bulk at h
  split at h
  · simp at h
  · rename_i prog hp
    split at h
    · simp at h
    · rename_i hact
      refine ⟨⟨prog, hp, by simpa [CPrimitiveOpenGL_2_00.ActiveSequence] using hact⟩, ?_⟩
      by_contra hn
      simp [read_array, hn] at h

theorem DrawSequence_growth (s s1 : CPolygonOpenGL_2_00) (x y z : GLfloat) (hinv : CacheInv s)
    (h : DrawSequence s x y z = Except.ok (true, s1)) : GrowthRule s s1 s._tuple_size := by
  obtain ⟨prog, hp, hact⟩ := DrawSequence_true s s1 x y z h
  obtain ⟨s2, e, q, _, _, _⟩ := DrawSequence_active s x y z prog hp hact (hinv.2 prog hp hact) hinv.1
  rw [h] at e
  simp only [Except.ok.injEq, Prod.mk.injEq, true_and] at e
  subst e
  rcases DrawSequence_length s s1 x y z true h with ⟨hb, _⟩ | ⟨_, hl⟩
  · exact absurd hb (by decide)
  · obtain ⟨l1, l2⟩ := reserve_length s s._tuple_size
    refine ⟨q, fun hle => by rw [hl, l1 hle], fun hlt => ⟨by rw [hl, l2 hlt], ?_⟩⟩
    rw [hl]
    exact reserve_enough s _ hinv.1

theorem DrawSequence_bulk_growth (s s1 : CPolygonOpenGL_2_00) (n : Nat) (coords : List GLfloat)
    (hinv : CacheInv s) (h : DrawSequence_bulk s n coords = Except.ok (true, s1)) :
    GrowthRule s s1 n := by
  obtain ⟨⟨prog, hp, hact⟩, hn⟩ := DrawSequence_bulk_true s s1 n coords h
  obtain ⟨s2, e, q, _, _, _⟩ := DrawSequence_bulk_active s n coords prog hp hact hn hinv.1
  rw [h] at e
  simp only [Except.ok.injEq, Prod.mk.injEq, true_and] at e
  subst e
  rcases DrawSequence_bulk_length s s1 n coords true h with ⟨hb, _⟩ | ⟨_, hl⟩
  · exact absurd hb (by decide)
  · obtain ⟨l1, l2⟩ := reserve_length s n
    refine ⟨q, fun hle => by rw [hl, l1 hle], fun hlt => ⟨by rw [hl, l2 hlt], ?_⟩⟩
    rw [hl]
    exact reserve_enough s _ hinv.1

theorem example_calls_wellFormed : ∀ call ∈ example_calls, call.wellFormed := by
  decide

/-! ## The claims about the cache -/

/-- C9. Cache bounds: for every `min_cache_elems` and every series of calls on a renderer
(with `Init`, `StartSequence` with a tuple size of 2, 3 or 4, the per-vertex and the bulk
`DrawSequence` overloads and `EndSequence` among them), after each call of the series
`_sequence_size <= _elem_cache.size()`, and no call runs into an undefined access: every
index that a `DrawSequence` call writes is below `_elem_cache.size()` at the time of the
write, since `put` and `store` return a fault otherwise. -/
theorem cache_bounds (narrow : GLdouble → GLfloat) (min_cache_elems : Nat) (style : TStyle)
    (kind : TPrimitive) (calls : List TCall) (hwf : ∀ call ∈ calls, call.wellFormed)
    (n : Nat) :
    ∃ s, run narrow (CPolygonOpenGL_2_00.ctor min_cache_elems style kind) (calls.take n) =
        Except.ok s ∧
      s._sequence_size ≤ s._elem_cache.length := by
  obtain ⟨s, h1, h2, _, _⟩ := run_preserves narrow (calls.take n)
    (CPolygonOpenGL_2_00.ctor min_cache_elems style kind)
    (fun c hc => hwf c (List.mem_of_mem_take hc)) (CacheInv_ctor _ _ _)
  exact ⟨s, h1, h2.1⟩

/-- Witness of C9: the example series of calls on a renderer constructed with room for two
elements; after the three calls up to the first vertex the used count is within the cache. -/
theorem cache_bounds_witness :
    (∀ call ∈ example_calls, call.wellFormed) ∧
    ∃ s, run example_narrow (CPolygonOpenGL_2_00.ctor 2 example_style TPrimitive.triangles)
        (example_calls.take 3) = Except.ok s ∧
      s._sequence_size ≤ s._elem_cache.length :=
  ⟨example_calls_wellFormed,
    cache_bounds example_narrow 2 example_style TPrimitive.triangles example_calls
      example_calls_wellFormed 3⟩

/-- C10. Growth rule: the capacity starts at `min_cache_elems`; in every state reached by a
series of calls, a `DrawSequence` call that appends `k` scalars (`k` is `_tuple_size` for
the per-vertex overloads and `coords_size` for the bulk overloads) with used count `n` and
capacity `c` leaves the capacity at `c` when `c >= n + k` and otherwise makes it
`c + max(k, min_cache_elems)`, which is at least `n + k`; and no call of any member function
reduces the capacity. -/
theorem cache_growth (narrow : GLdouble → GLfloat) (min_cache_elems : Nat) (style : TStyle)
    (kind : TPrimitive) (calls : List TCall) (hwf : ∀ call ∈ calls, call.wellFormed)
    (s : CPolygonOpenGL_2_00)
    (hs : run narrow (CPolygonOpenGL_2_00.ctor min_cache_elems style kind) calls =
      Except.ok s) :
    (CPolygonOpenGL_2_00.ctor min_cache_elems style kind)._elem_cache.length =
      min_cache_elems ∧
    s._min_cache_elems = min_cache_elems ∧
    min_cache_elems ≤ s._elem_cache.length ∧
    (∀ x y z s1, DrawSequence s x y z = Except.ok (true, s1) →
      GrowthRule s s1 s._tuple_size) ∧
    (∀ x y z s1, DrawSequence_double narrow s x y z = Except.ok (true, s1) →
      GrowthRule s s1 s._tuple_size) ∧
    (∀ coords_size coords s1, DrawSequence_bulk s coords_size coords = Except.ok (true, s1) →
      GrowthRule s s1 coords_size) ∧
    (∀ coords_size coords s1,
      DrawSequence_bulk_double narrow s coords_size coords = Except.ok (true, s1) →
      GrowthRule s s1 coords_size) ∧
    (∀ (call : TCall) (r : Bool × CPolygonOpenGL_2_00), call.apply narrow s = Except.ok r →
      s._elem_cache.length ≤ r.2._elem_cache.length) := by
  obtain ⟨s0, h1, hinv, hm, hl⟩ := run_preserves narrow calls
    (CPolygonOpenGL_2_00.ctor min_cache_elems style kind) hwf (CacheInv_ctor _ _ _)
  rw [hs] at h1
  simp only [Except.ok.injEq] at h1
  subst h1
  have hlen : (CPolygonOpenGL_2_00.ctor min_cache_elems style kind)._elem_cache.length =
      min_cache_elems := by
    simp [CPolygonOpenGL_2_00.ctor]
  refine ⟨hlen, hm, by rw [hlen] at hl; exact hl, ?_, ?_, ?_, ?_, ?_⟩
  · intro x y z s1 h
    exact DrawSequence_growth s s1 x y z hinv h
  · intro x y z s1 h
    exact DrawSequence_growth s s1 _ _ _ hinv h
  · intro n coords s1 h
    exact DrawSequence_bulk_growth s s1 n coords hinv h
  · intro n coords s1 h
    rw [DrawSequence_bulk_double_eq] at h
    exact DrawSequence_bulk_growth s s1 n _ hinv h
  · intro call r h
    exact apply_cache_length narrow s call r h

/-- Witness of C10: the example series of calls on a renderer constructed with room for two
elements returns with the two vertices in a cache of 8 elements, and a third vertex finds
the capacity 8 too small for 9 scalars and makes it 11. -/
theorem cache_growth_witness :
    (∀ call ∈ example_calls, call.wellFormed) ∧
    ∃ s s1, run example_narrow (CPolygonOpenGL_2_00.ctor 2 example_style TPrimitive.triangles)
        example_calls = Except.ok s ∧
      DrawSequence s 0 0 1 = Except.ok (true, s1) ∧
      s._elem_cache.length = 8 ∧ s1._elem_cache.length = 11 ∧
      GrowthRule s s1 s._tuple_size :=
  ⟨example_calls_wellFormed, _, _, rfl, rfl, rfl, rfl,
    (cache_growth example_narrow 2 example_style TPrimitive.triangles example_calls
      example_calls_wellFormed _ rfl).2.2.2.1 0 0 1 _ rfl⟩

/-! ## The sequence protocol -/

/-- C11. Nested start is rejected: in every renderer state in which a sequence is active,
`StartSequence(kind, tuple_size)` returns false and leaves the renderer as it is: the
sequence kind, `_tuple_size`, `_sequence_size`, the cache and the collaborator with its
active flag are unchanged. -/
theorem StartSequence_nested (s : CPolygonOpenGL_2_00) (prog : CPrimitiveOpenGL_2_00)
    (hp : s._primitive_prog = some prog) (hact : prog.ActiveSequence = true)
    (primitive_type : TPrimitive) (tuple_size : Nat) :
    StartSequence s primitive_type tuple_size = (false, s) := by
  unfold StartSequence
  rw [hp]
  simp only [hact, if_true]

/-- Witness of C11: a second `StartSequence` on the example renderer with an active
sequence. -/
theorem StartSequence_nested_witness :
    activeSequence example_active = true ∧
    StartSequence example_active TPrimitive.triangle_fan 2 = (false, example_active) :=
  ⟨rfl, StartSequence_nested example_active _ rfl rfl TPrimitive.triangle_fan 2⟩

/-- C12. End without start: on every initialised renderer with no active sequence,
`EndSequence()` returns false, gives no command to the graphics backend and leaves
`_elem_cache`, `_sequence_size` and `_tuple_size` unchanged; no sequence is active
afterwards. -/
theorem EndSequence_idle (s : CPolygonOpenGL_2_00) (prog : CPrimitiveOpenGL_2_00)
    (hp : s._primitive_prog = some prog) (hidle : prog.ActiveSequence = false) :
    ∃ s1, EndSequence s = Except.ok (false, s1) ∧ s1._gl = s._gl ∧
      s1._elem_cache = s._elem_cache ∧ s1._sequence_size = s._sequence_size ∧
      s1._tuple_size = s._tuple_size ∧ activeSequence s1 = false := by
  have h : prog._active_sequence = false := hidle
  refine ⟨{ s with _primitive_prog := some (prog.receive TProgramCall.EndSequence) },
    ?_, rfl, rfl, rfl, rfl, ?_⟩
  · unfold EndSequence
    rw [hp]
    simp [CPrimitiveOpenGL_2_00.EndSequence, h]
  · simp [activeSequence, CPrimitiveOpenGL_2_00.ActiveSequence,
      CPrimitiveOpenGL_2_00.receive, h]

/-- Witness of C12: `EndSequence()` on the example renderer, which has no active
sequence. -/
theorem EndSequence_idle_witness :
    activeSequence example_renderer = false ∧
    ∃ s1, EndSequence example_renderer = Except.ok (false, s1) ∧
      s1._gl = example_renderer._gl ∧ s1._elem_cache = example_renderer._elem_cache ∧
      s1._sequence_size = example_renderer._sequence_size ∧
      s1._tuple_size = example_renderer._tuple_size ∧ activeSequence s1 = false :=
  ⟨rfl, EndSequence_idle example_renderer _ rfl rfl⟩

/-- C19. An uninitialised renderer fails gracefully: while `_primitive_prog` is null,
`StartSuccessivePolygonDrawings`, `FinishSuccessivePolygonDrawings`, every `Draw` overload,
`StartSequence`, `EndSequence` and every `DrawSequence` overload return false without a
fault and leave the whole renderer, the cache, `_sequence_size` and `_tuple_size` included,
as it is. -/
theorem uninitialised_fails (narrow : GLdouble → GLfloat) (s : CPolygonOpenGL_2_00)
    (hnull : s._primitive_prog = none) :
    StartSuccessivePolygonDrawings s = (false, s) ∧
    FinishSuccessivePolygonDrawings s = (false, s) ∧
    (∀ k t n coords, Draw s k t n coords = Except.ok (false, s)) ∧
    (∀ k t n coords, Draw_double s k t n coords = Except.ok (false, s)) ∧
    (∀ k n xs ys, Draw_xy s k n xs ys = (false, s)) ∧
    (∀ k n xs ys, Draw_xy_double s k n xs ys = (false, s)) ∧
    (∀ k t, StartSequence s k t = (false, s)) ∧
    EndSequence s = Except.ok (false, s) ∧
    (∀ x y z, DrawSequence s x y z = Except.ok (false, s)) ∧
    (∀ x y z, DrawSequence_double narrow s x y z = Except.ok (false, s)) ∧
    (∀ n coords, DrawSequence_bulk s n coords = Except.ok (false, s)) ∧
    (∀ n coords, DrawSequence_bulk_double narrow s n coords = Except.ok (false, s)) := by
  refine ⟨?_, ?_, ?_, ?_, ?_, ?_, ?_, ?_, ?_, ?_, ?_, ?_⟩
  · simp [StartSuccessivePolygonDrawings, hnull]
  · simp [FinishSuccessivePolygonDrawings, hnull]
  · intro k t n coords; simp [Draw, hnull]
  · intro k t n coords; simp [Draw_double, hnull]
  · intro k n xs ys; simp [Draw_xy, hnull]
  · intro k n xs ys; simp [Draw_xy_double, hnull]
  · intro k t; simp [StartSequence, hnull]
  · simp [EndSequence, hnull]
  · intro x y z; simp [DrawSequence, hnull]
  · intro x y z; simp [DrawSequence_double, hnull]
  · intro n coords; simp [DrawSequence_bulk, hnull]
  · intro n coords; simp [DrawSequence_bulk_double, hnull]

/-- Witness of C19: a renderer fresh from its constructor, on which `Init` was not
called. -/
theorem uninitialised_fails_witness :
    (CPolygonOpenGL_2_00.ctor 2 example_style TPrimitive.triangles)._primitive_prog = none ∧
    EndSequence (CPolygonOpenGL_2_00.ctor 2 example_style TPrimitive.triangles) =
      Except.ok (false, CPolygonOpenGL_2_00.ctor 2 example_style TPrimitive.triangles) :=
  ⟨rfl, (uninitialised_fails example_narrow
    (CPolygonOpenGL_2_00.ctor 2 example_style TPrimitive.triangles) rfl).2.2.2.2.2.2.2.1⟩

/-! ## What a `DrawSequence` call changes -/

theorem SameButCache_refl (s : CPolygonOpenGL_2_00) : SameButCache s s :=
  ⟨rfl, rfl, rfl, rfl, rfl, rfl⟩

theorem SameButCache_trans {s s1 s2 : CPolygonOpenGL_2_00} (h1 : SameButCache s s1)
    (h2 : SameButCache s1 s2) : SameButCache s s2 := by
  unfold SameButCache at *
  refine ⟨?_, ?_, ?_, ?_, ?_, ?_⟩
  · rw [h2.1, h1.1]
  · rw [h2.2.1, h1.2.1]
  · rw [h2.2.2.1, h1.2.2.1]
  · rw [h2.2.2.2.1, h1.2.2.2.1]
  · rw [h2.2.2.2.2.1, h1.2.2.2.2.1]
  · rw [h2.2.2.2.2.2, h1.2.2.2.2.2]

theorem reserve_frame (s : CPolygonOpenGL_2_00) (k : Nat) : SameButCache s (reserve s k) := by
  unfold reserve
  split
  · exact ⟨rfl, rfl, rfl, rfl, rfl, rfl⟩
  · exact SameButCache_refl s

theorem put_frame (s s1 : CPolygonOpenGL_2_00) (v : GLfloat) (h : put s v = Except.ok s1) :
    SameButCache s s1 := by
  unfold put at h
  split at h
  · simp only [Except.ok.injEq] at h
    subst h
    exact ⟨rfl, rfl, rfl, rfl, rfl, rfl⟩
  · exact absurd h (by simp)

theorem DrawSequence_frame (s s1 : CPolygonOpenGL_2_00) (x y z : GLfloat) (b : Bool)
    (h : DrawSequence s x y z = Except.ok (b, s1)) : SameButCache s s1 := by
  unfold DrawSequence at h
  split at h
  · simp only [Except.ok.injEq, Prod.mk.injEq] at h
    rw [← h.2]; exact SameButCache_refl s
  · split at h
    · simp only [Except.ok.injEq, Prod.mk.injEq] at h
      rw [← h.2]; exact SameButCache_refl s
    · dsimp only at h
      split at h
      · exact absurd h (by simp)
      · rename_i s2 h2
        split at h
        · exact absurd h (by simp)
        · rename_i s3 h3
          split at h
          · exact absurd h (by simp)
          · rename_i s4 h4
            split at h
            · exact absurd h (by simp)
            · rename_i s5 h5
              simp only [Except.ok.injEq, Prod.mk.injEq] at h
              obtain ⟨_, hs⟩ := h
              subst hs
              have e1 := reserve_frame s s._tuple_size
              have e2 := put_frame _ _ _ h2
              have e3 := put_frame _ _ _ h3
              have e4 : SameButCache s3 s4 := by
                split at h4
                · exact put_frame _ _ _ h4
                · simp only [Except.ok.injEq] at h4
                  rw [h4]; exact SameButCache_refl _
              have e5 : SameButCache s4 s5 := by
                split at h5
                · exact put_frame _ _ _ h5
                · simp only [Except.ok.injEq] at h5
                  rw [h5]; exact SameButCache_refl _
              exact SameButCache_trans e1 (SameButCache_trans e2
                (SameButCache_trans e3 (SameButCache_trans e4 e5)))

theorem DrawSequence_bulk_frame (s s1 : CPolygonOpenGL_2_00) (n : Nat)
    (coords : List GLfloat) (b : Bool)
    (h : DrawSequence_bulk s n coords = Except.ok (b, s1)) : SameButCache s s1 := by
  unfold DrawSequence_bulk at h
  split at h
  · simp only [Except.ok.injEq, Prod.mk.injEq] at h
    rw [← h.2]; exact SameButCache_refl s
  · split at h
    · simp only [Except.ok.injEq, Prod.mk.injEq] at h
      rw [← h.2]; exact SameButCache_refl s
    · dsimp only at h
      split at h
      · exact absurd h (by simp)
      · split at h
        · exact absurd h (by simp)
        · simp only [Except.ok.injEq, Prod.mk.injEq] at h
          obtain ⟨_, hs⟩ := h
          subst hs
          obtain ⟨a1, a2, a3, a4, a5, a6⟩ := reserve_frame s n
          exact ⟨a1, a2, a3, a4, a5, a6⟩

/-- C18. The style is frozen during a sequence: while a sequence is active, `SetStyle(s)`
leaves the renderer as it is, `_polygon_style` and the collaborator with the calls it has
received included; and whatever member function is called while a sequence is active,
`_polygon_style` is the same afterwards, so that it changes only in a call made while no
sequence is active. -/
theorem SetStyle_frozen (narrow : GLdouble → GLfloat) (s : CPolygonOpenGL_2_00)
    (hact : activeSequence s = true) :
    (∀ style, SetStyle s style = s) ∧
    (∀ (call : TCall) (r : Bool × CPolygonOpenGL_2_00), call.apply narrow s = Except.ok r →
      r.2._polygon_style = s._polygon_style) := by
  unfold activeSequence at hact
  split at hact
  · rename_i prog hp
    constructor
    · intro style
      unfold SetStyle
      rw [hp]
      simp only [hact, if_true]
    · intro call r h
      cases call with
      | DrawSequence x y z => exact (DrawSequence_frame s r.2 x y z r.1 h).2.2.1
      | DrawSequence_double x y z => exact (DrawSequence_frame s r.2 _ _ _ r.1 h).2.2.1
      | DrawSequence_bulk n coords => exact (DrawSequence_bulk_frame s r.2 n coords r.1 h).2.2.1
      | DrawSequence_bulk_double n coords =>
        have h2 : DrawSequence_bulk_double narrow s n coords = Except.ok r := h
        rw [DrawSequence_bulk_double_eq] at h2
        exact (DrawSequence_bulk_frame s r.2 n _ r.1 h2).2.2.1
      | _ =>
        simp only [TCall.apply, CPolygonOpenGL_2_00.Init, StartSuccessivePolygonDrawings,
          FinishSuccessivePolygonDrawings, SetColor, SetStyle, Draw, Draw_double, Draw_xy,
          Draw_xy_double, StartSequence, EndSequence, hp, hact, if_true] at h
        repeat' split at h
        all_goals first
          | (simp only [Except.ok.injEq] at h
             subst h
             rfl)
          | simp at h
  · exact absurd hact (by decide)

/-- Witness of C18: `SetStyle` on the example renderer with an active sequence. -/
theorem SetStyle_frozen_witness :
    activeSequence example_active = true ∧
    SetStyle example_active { _depth_attenuation := 1 } = example_active :=
  ⟨rfl, (SetStyle_frozen example_narrow example_active rfl).1 _⟩

/-! ## The used count while no sequence is active -/

theorem toGLsizei_of_lt (m : Nat) (h : m < 2 ^ 31) : toGLsizei m = (m : Int) := by
  unfold toGLsizei
  omega

theorem activeSequence_of_frame {s s1 : CPolygonOpenGL_2_00} (h : SameButCache s s1) :
    activeSequence s1 = activeSequence s := by
  unfold activeSequence
  rw [h.2.1]

theorem DrawSequence_idle (s : CPolygonOpenGL_2_00) (x y z : GLfloat)
    (h : activeSequence s = false) : DrawSequence s x y z = Except.ok (false, s) := by
  unfold activeSequence at h
  unfold DrawSequence
  split at h
  · rename_i prog hp
    rw [hp]
    simp [h]
  · rename_i hp
    rw [hp]

theorem DrawSequence_bulk_idle (s : CPolygonOpenGL_2_00) (n : Nat) (coords : List GLfloat)
    (h : activeSequence s = false) : DrawSequence_bulk s n coords = Except.ok (false, s) := by
  unfold activeSequence at h
  unfold DrawSequence_bulk
  split at h
  · rename_i prog hp
    rw [hp]
    simp [h]
  · rename_i hp
    rw [hp]

theorem apply_idle (narrow : GLdouble → GLfloat) (s : CPolygonOpenGL_2_00) (call : TCall)
    (hidle : IdleInv s) (r : Bool × CPolygonOpenGL_2_00)
    (h : call.apply narrow s = Except.ok r) : IdleInv r.2 := by
  have hseq : ∀ (x y z : GLfloat), DrawSequence s x y z = Except.ok r → IdleInv r.2 := by
    intro x y z h hr
    have hf := DrawSequence_frame s r.2 x y z r.1 h
    rw [activeSequence_of_frame hf] at hr
    rw [DrawSequence_idle s x y z hr] at h
    simp only [Except.ok.injEq] at h
    rw [← h]
    exact hidle hr
  have hbulk : ∀ (n : Nat) (coords : List GLfloat),
      DrawSequence_bulk s n coords = Except.ok r → IdleInv r.2 := by
    intro n coords h hr
    have hf := DrawSequence_bulk_frame s r.2 n coords r.1 h
    rw [activeSequence_of_frame hf] at hr
    rw [DrawSequence_bulk_idle s n coords hr] at h
    simp only [Except.ok.injEq] at h
    rw [← h]
    exact hidle hr
  cases call with
  | DrawSequence x y z => exact hseq x y z h
  | DrawSequence_double x y z => exact hseq _ _ _ h
  | DrawSequence_bulk n coords => exact hbulk n coords h
  | DrawSequence_bulk_double n coords =>
    have h2 : DrawSequence_bulk_double narrow s n coords = Except.ok r := h
    rw [DrawSequence_bulk_double_eq] at h2
    exact hbulk _ _ h2
  | _ =>
    unfold IdleInv activeSequence at hidle
    rcases hp : s._primitive_prog with _ | prog
    · rw [hp] at hidle
      simp only [TCall.apply, CPolygonOpenGL_2_00.Init, StartSuccessivePolygonDrawings,
        FinishSuccessivePolygonDrawings, SetColor, SetStyle, Draw, Draw_double, Draw_xy,
        Draw_xy_double, StartSequence, EndSequence, hp] at h
      simp only [Except.ok.injEq] at h
      subst h
      simp [IdleInv, activeSequence, hp, CPrimitiveOpenGL_2_00.make,
        CPrimitiveOpenGL_2_00.ActiveSequence] at hidle ⊢
      all_goals exact hidle
    · rw [hp] at hidle
      cases hact : prog._active_sequence
      · have h0 := hidle (by simp [CPrimitiveOpenGL_2_00.ActiveSequence, hact])
        simp only [TCall.apply, CPolygonOpenGL_2_00.Init, StartSuccessivePolygonDrawings,
          FinishSuccessivePolygonDrawings, SetColor, SetStyle, Draw, Draw_double, Draw_xy,
          Draw_xy_double, StartSequence, EndSequence, hp, hact,
          CPrimitiveOpenGL_2_00.ActiveSequence, CPrimitiveOpenGL_2_00.EndSequence,
          CPrimitiveOpenGL_2_00.StartSequence] at h
        repeat' split at h
        all_goals first
          | contradiction
          | (simp only [Except.ok.injEq] at h
             subst h
             intro _
             exact h0)
      · simp only [TCall.apply, CPolygonOpenGL_2_00.Init, StartSuccessivePolygonDrawings,
          FinishSuccessivePolygonDrawings, SetColor, SetStyle, Draw, Draw_double, Draw_xy,
          Draw_xy_double, StartSequence, EndSequence, hp, hact,
          CPrimitiveOpenGL_2_00.ActiveSequence, CPrimitiveOpenGL_2_00.EndSequence,
          CPrimitiveOpenGL_2_00.StartSequence] at h
        repeat' split at h
        all_goals first
          | contradiction
          | (simp only [Except.ok.injEq] at h
             subst h
             intro hr
             first
               | rfl
               | (simp [activeSequence, hp, hact, CPrimitiveOpenGL_2_00.ActiveSequence,
                    CPrimitiveOpenGL_2_00.receive] at hr))

theorem run_idle (narrow : GLdouble → GLfloat) (calls : List TCall) (s s1 : CPolygonOpenGL_2_00)
    (hidle : IdleInv s) (h : run narrow s calls = Except.ok s1) : IdleInv s1 := by
  induction calls generalizing s with
  | nil =>
    simp only [run, Except.ok.injEq] at h
    rw [← h]; exact hidle
  | cons call calls ih =>
    unfold run at h
    split at h
    · exact absurd h (by simp)
    · rename_i r hr
      exact ih r.2 (apply_idle narrow s call hidle r hr) h

theorem IdleInv_ctor (min_cache_elems : Nat) (style : TStyle) (kind : TPrimitive) :
    IdleInv (CPolygonOpenGL_2_00.ctor min_cache_elems style kind) := fun _ => rfl

theorem run_cons (narrow : GLdouble → GLfloat) (call : TCall) (calls : List TCall)
    (s : CPolygonOpenGL_2_00) (r : Bool × CPolygonOpenGL_2_00)
    (h : call.apply narrow s = Except.ok r) :
    run narrow s (call :: calls) = run narrow r.2 calls := by
  simp only [run, h]

theorem run_append (narrow : GLdouble → GLfloat) (a b : List TCall)
    (s s1 : CPolygonOpenGL_2_00) (h : run narrow s a = Except.ok s1) :
    run narrow s (a ++ b) = run narrow s1 b := by
  induction a generalizing s with
  | nil =>
    simp only [run, Except.ok.injEq] at h
    subst h
    rfl
  | cons call a ih =>
    unfold run at h
    split at h
    · exact absurd h (by simp)
    · rename_i r hr
      rw [List.cons_append, run_cons narrow call _ s r hr]
      exact ih r.2 h

/-! ## The contents of the cache -/

theorem set_take_succ {α : Type} (l : List α) (n : Nat) (v : α) (h : n < l.length) :
    (l.set n v).take (n + 1) = l.take n ++ [v] := by
  induction l generalizing n with
  | nil => exact absurd h (by simp)
  | cons a l ih =>
    cases n with
    | zero => simp
    | succ n =>
      have h2 : n < l.length := by simpa using h
      simp [ih n h2]

theorem resize_take (cache : List GLfloat) (n m : Nat) (hn : n ≤ cache.length)
    (hm : cache.length ≤ m) : (resize cache m).take n = cache.take n := by
  unfold resize
  rw [List.take_take, min_eq_left (le_trans hn hm), List.take_append_of_le_length hn]

theorem reserve_take (s : CPolygonOpenGL_2_00) (k : Nat)
    (h : s._sequence_size ≤ s._elem_cache.length) :
    (reserve s k)._elem_cache.take s._sequence_size = s._elem_cache.take s._sequence_size := by
  unfold reserve
  split
  · exact resize_take _ _ _ h (Nat.le_add_right _ _)
  · rfl

theorem put_appends (s : CPolygonOpenGL_2_00) (v : GLfloat)
    (h : s._sequence_size < s._elem_cache.length) :
    ∃ s1, put s v = Except.ok s1 ∧ s1._sequence_size = s._sequence_size + 1 ∧
      s1._elem_cache.length = s._elem_cache.length ∧ s1._tuple_size = s._tuple_size ∧
      s1._elem_cache.take (s._sequence_size + 1) =
        s._elem_cache.take s._sequence_size ++ [v] := by
  refine ⟨_, if_pos h, rfl, ?_, rfl, ?_⟩
  · simp
  · exact set_take_succ _ _ _ h

theorem DrawSequence_appends (s : CPolygonOpenGL_2_00) (x y z : GLfloat)
    (prog : CPrimitiveOpenGL_2_00) (hp : s._primitive_prog = some prog)
    (hact : prog._active_sequence = true)
    (ht : s._tuple_size = 2 ∨ s._tuple_size = 3 ∨ s._tuple_size = 4)
    (hinv : s._sequence_size ≤ s._elem_cache.length) :
    ∃ s1, DrawSequence s x y z = Except.ok (true, s1) ∧ SameButCache s s1 ∧
      s1._sequence_size = s._sequence_size + s._tuple_size ∧
      s1._sequence_size ≤ s1._elem_cache.length ∧
      s1._elem_cache.take s1._sequence_size =
        s._elem_cache.take s._sequence_size ++ vertex_scalars s._tuple_size (x, y, z) := by
  obtain ⟨r1, r2, _, _⟩ := reserve_fields s s._tuple_size
  have hlen := reserve_enough s s._tuple_size hinv
  have rt := reserve_take s s._tuple_size hinv
  obtain ⟨s2, p2, q2, l2, t2, c2⟩ := put_appends (reserve s s._tuple_size) x (by omega)
  obtain ⟨s3, p3, q3, l3, t3, c3⟩ := put_appends s2 y (by omega)
  rw [r1] at c2 q2
  rw [q2] at c3 q3
  have hres : ∀ s1, DrawSequence s x y z = Except.ok (true, s1) →
      s1._sequence_size = s._sequence_size + s._tuple_size →
      s1._elem_cache.length = (reserve s s._tuple_size)._elem_cache.length →
      s1._elem_cache.take s1._sequence_size =
        s._elem_cache.take s._sequence_size ++ vertex_scalars s._tuple_size (x, y, z) →
      ∃ s1, DrawSequence s x y z = Except.ok (true, s1) ∧ SameButCache s s1 ∧
        s1._sequence_size = s._sequence_size + s._tuple_size ∧
        s1._sequence_size ≤ s1._elem_cache.length ∧
        s1._elem_cache.take s1._sequence_size =
          s._elem_cache.take s._sequence_size ++ vertex_scalars s._tuple_size (x, y, z) :=
    fun s1 e q l c =>
      ⟨s1, e, DrawSequence_frame s s1 x y z true e, q, by rw [q, l]; exact hlen, c⟩
  have hdraw : ∀ s1,
      (match (if s3._tuple_size ≥ 3 then put s3 z else Except.ok s3) with
        | Except.error e => Except.error e
        | Except.ok s =>
          match (if s._tuple_size = 4 then put s 1 else Except.ok s) with
          | Except.error e => Except.error e
          | Except.ok s => Except.ok (true, s)) = Except.ok (true, s1) →
      DrawSequence s x y z = Except.ok (true, s1) := by
    intro s1 h
    unfold DrawSequence
    rw [hp]
    simp only [CPrimitiveOpenGL_2_00.ActiveSequence, hact, p2, p3]
    exact h
  rcases ht with ht | ht | ht
  · have c1 : ¬ s3._tuple_size ≥ 3 := by omega
    have c4 : ¬ s3._tuple_size = 4 := by omega
    refine hres s3 (hdraw s3 (by simp only [c1, c4, if_false])) (by omega) (by omega) ?_
    rw [q3, c3, c2, rt, ht]
    simp [vertex_scalars]
  · obtain ⟨s4, p4, q4, l4, t4, c4⟩ := put_appends s3 z (by omega)
    rw [q3] at c4 q4
    have c1 : s3._tuple_size ≥ 3 := by omega
    have c5 : ¬ s4._tuple_size = 4 := by omega
    refine hres s4 (hdraw s4 (by simp only [c1, c5, if_true, if_false, p4])) (by omega)
      (by omega) ?_
    rw [q4, c4, c3, c2, rt, ht]
    simp [vertex_scalars]
  · obtain ⟨s4, p4, q4, l4, t4, c4⟩ := put_appends s3 z (by omega)
    rw [q3] at c4 q4
    obtain ⟨s5, p5, q5, l5, t5, c5⟩ := put_appends s4 1 (by omega)
    rw [q4] at c5 q5
    have c1 : s3._tuple_size ≥ 3 := by omega
    have c6 : s4._tuple_size = 4 := by omega
    refine hres s5 (hdraw s5 (by simp only [c1, c6, if_true, p4, p5])) (by omega)
      (by omega) ?_
    rw [q5, c5, c4, c3, c2, rt, ht]
    simp [vertex_scalars]

theorem run_vertices (narrow : GLdouble → GLfloat)
    (vertices : List (GLfloat × GLfloat × GLfloat)) (s : CPolygonOpenGL_2_00)
    (prog : CPrimitiveOpenGL_2_00) (hp : s._primitive_prog = some prog)
    (hact : prog._active_sequence = true)
    (ht : s._tuple_size = 2 ∨ s._tuple_size = 3 ∨ s._tuple_size = 4)
    (hinv : s._sequence_size ≤ s._elem_cache.length) :
    ∃ s1, run narrow s (vertices.map TCall.vertex) = Except.ok s1 ∧ SameButCache s s1 ∧
      s1._sequence_size = s._sequence_size + vertices.length * s._tuple_size ∧
      s1._sequence_size ≤ s1._elem_cache.length ∧
      s1._elem_cache.take s1._sequence_size =
        s._elem_cache.take s._sequence_size ++
          vertices.flatMap (vertex_scalars s._tuple_size) := by
  induction vertices generalizing s with
  | nil => exact ⟨s, rfl, SameButCache_refl s, by simp, hinv, by simp⟩
  | cons v vertices ih =>
    obtain ⟨s1, e, f, q, l, c⟩ := DrawSequence_appends s v.1 v.2.1 v.2.2 prog hp hact ht hinv
    obtain ⟨s2, e2, f2, q2, l2, c2⟩ := ih s1 (by rw [f.2.1]; exact hp) (by rw [f.2.2.2.2.1]; exact ht) l
    refine ⟨s2, ?_, SameButCache_trans f f2, ?_, l2, ?_⟩
    · rw [List.map_cons, run_cons narrow (TCall.vertex v) _ s (true, s1) e]
      exact e2
    · rw [q2, q, f.2.2.2.2.1, List.length_cons]
      ring
    · rw [c2, c, f.2.2.2.2.1, List.flatMap_cons, List.append_assoc]

/-! ## Start, stream, end -/

theorem StartSequence_idle (s : CPolygonOpenGL_2_00) (prog : CPrimitiveOpenGL_2_00)
    (hp : s._primitive_prog = some prog) (hidle : prog.ActiveSequence = false)
    (kind : TPrimitive) (t : Nat) :
    ∃ s1 prog1, StartSequence s kind t = (true, s1) ∧ s1._primitive_prog = some prog1 ∧
      prog1._active_sequence = true ∧ prog1._attrib_xyzw_inx = prog._attrib_xyzw_inx ∧
      s1._squence_type = kind ∧ s1._tuple_size = t ∧
      s1._sequence_size = s._sequence_size ∧ s1._elem_cache = s._elem_cache ∧
      s1._gl = s._gl ∧ s1._min_cache_elems = s._min_cache_elems ∧
      s1._polygon_style = s._polygon_style := by
  have h : prog._active_sequence = false := hidle
  refine ⟨{ s with _primitive_prog := some prog.StartSequence.2, _squence_type := kind,
                   _tuple_size := t }, prog.StartSequence.2, ?_, rfl, ?_, ?_,
    rfl, rfl, rfl, rfl, rfl, rfl, rfl⟩
  · unfold StartSequence
    rw [hp]
    simp only [hidle, Bool.false_eq_true, if_false]
  · simp [CPrimitiveOpenGL_2_00.StartSequence, h]
  · simp [CPrimitiveOpenGL_2_00.StartSequence, h, CPrimitiveOpenGL_2_00.receive]

theorem EndSequence_active (s : CPolygonOpenGL_2_00) (prog : CPrimitiveOpenGL_2_00)
    (hp : s._primitive_prog = some prog) (hact : prog._active_sequence = true)
    (ht : s._tuple_size ≠ 0) :
    ∃ s1, EndSequence s = Except.ok (true, s1) ∧
      s1._gl = s._gl ++ [TGLCall.glVertexAttribPointer prog._attrib_xyzw_inx s._tuple_size
          TGLType.GL_FLOAT (TGLBuffer.floats s._elem_cache),
        TGLCall.glDrawArrays s._squence_type 0
          (toGLsizei (s._sequence_size / s._tuple_size))] ∧
      s1._sequence_size = 0 ∧ s1._tuple_size = 0 ∧ activeSequence s1 = false ∧
      s1._elem_cache = s._elem_cache ∧
      ∃ prog1, s1._primitive_prog = some prog1 ∧ prog1.ActiveSequence = false := by
  refine ⟨{ s with
      _primitive_prog := some ((prog.EndSequence.2.receive
        (TProgramCall.ActivateProgram false)).receive TProgramCall.DeactivateProgram)
      _gl := s._gl ++ [TGLCall.glVertexAttribPointer prog._attrib_xyzw_inx s._tuple_size
          TGLType.GL_FLOAT (TGLBuffer.floats s._elem_cache),
        TGLCall.glDrawArrays s._squence_type 0
          (toGLsizei (s._sequence_size / s._tuple_size))]
      _tuple_size := 0
      _sequence_size := 0 }, ?_, rfl, rfl, rfl, ?_, rfl, _, rfl, ?_⟩
  · unfold EndSequence
    rw [hp]
    simp [CPrimitiveOpenGL_2_00.EndSequence, hact, udiv, ht, CPrimitiveOpenGL_2_00.receive]
  · simp [activeSequence, CPrimitiveOpenGL_2_00.ActiveSequence,
      CPrimitiveOpenGL_2_00.EndSequence, hact, CPrimitiveOpenGL_2_00.receive]
  · simp [CPrimitiveOpenGL_2_00.ActiveSequence,
      CPrimitiveOpenGL_2_00.EndSequence, hact, CPrimitiveOpenGL_2_00.receive]

theorem streamed_draw (narrow : GLdouble → GLfloat) (s0 : CPolygonOpenGL_2_00)
    (prog0 : CPrimitiveOpenGL_2_00) (hp : s0._primitive_prog = some prog0)
    (hidle : prog0.ActiveSequence = false) (hseq : s0._sequence_size = 0)
    (kind : TPrimitive) (t : Nat) (ht : t = 2 ∨ t = 3 ∨ t = 4)
    (vertices : List (GLfloat × GLfloat × GLfloat)) :
    ∃ s buf, run narrow s0 (TCall.StartSequence kind t :: vertices.map TCall.vertex ++
        [TCall.EndSequence]) = Except.ok s ∧
      s._gl = s0._gl ++
        [TGLCall.glVertexAttribPointer prog0._attrib_xyzw_inx t TGLType.GL_FLOAT
          (TGLBuffer.floats buf),
         TGLCall.glDrawArrays kind 0 (toGLsizei vertices.length)] ∧
      buf.take (vertices.length * t) = vertices.flatMap (vertex_scalars t) ∧
      s._sequence_size = 0 ∧ s._tuple_size = 0 ∧ activeSequence s = false := by
  obtain ⟨sA, prog1, e1, p1, a1, x1, k1, t1, q1, c1, g1, _, _⟩ :=
    StartSequence_idle s0 prog0 hp hidle kind t
  obtain ⟨sB, eB, fB, qB, lB, cB⟩ := run_vertices narrow vertices sA prog1 p1 a1
    (by rw [t1]; exact ht) (by rw [q1, hseq]; exact Nat.zero_le _)
  obtain ⟨m1, m2, m3, m4, m5, m6⟩ := fB
  have qB2 : sB._sequence_size = vertices.length * t := by
    rw [qB, q1, hseq, Nat.zero_add, t1]
  have cB2 : sB._elem_cache.take (vertices.length * t) =
      vertices.flatMap (vertex_scalars t) := by
    rw [← qB2, cB, q1, hseq, t1]; simp
  have htB : sB._tuple_size = t := by rw [m5, t1]
  have ht0 : sB._tuple_size ≠ 0 := by omega
  obtain ⟨sC, eC, gC, qC, tC, aC, _, _⟩ := EndSequence_active sB prog1 (by rw [m2, p1]) a1 ht0
  refine ⟨sC, sB._elem_cache, ?_, ?_, cB2, qC, tC, aC⟩
  · rw [List.cons_append,
      run_cons narrow (TCall.StartSequence kind t) _ s0 (true, sA)
        (by rw [TCall.apply, e1]),
      run_append narrow _ [TCall.EndSequence] _ sB eB,
      run_cons narrow TCall.EndSequence [] sB (true, sC) (by rw [TCall.apply]; exact eC)]
    rfl
  · have hdiv : vertices.length * t / t = vertices.length :=
      Nat.mul_div_cancel _ (by omega)
    rw [gC, m6, g1, htB, qB2, hdiv, x1, m4, k1]

theorem reachable_idle (narrow : GLdouble → GLfloat) (min_cache_elems : Nat) (style : TStyle)
    (kind : TPrimitive) (calls : List TCall) (s : CPolygonOpenGL_2_00)
    (hs : run narrow (CPolygonOpenGL_2_00.ctor min_cache_elems style kind) calls =
      Except.ok s)
    (prog : CPrimitiveOpenGL_2_00) (hp : s._primitive_prog = some prog)
    (hidle : prog.ActiveSequence = false) : s._sequence_size = 0 := by
  apply run_idle narrow calls _ s (IdleInv_ctor _ _ _) hs
  unfold activeSequence
  rw [hp]
  exact hidle

/-! ## The claims about streamed vertices -/

/-- C13. Streamed vertices are drawn as given, the vertex count being a `GLsizei`: on an
initialised renderer with no active sequence, reached by any series of calls, for every
tuple size `t` in `{2, 3, 4}`, every primitive kind and every list of `n` vertices, the
series `StartSequence(kind, t)`, `DrawSequence(x_i, y_i, z_i)` for each vertex,
`EndSequence()` returns and gives the graphics backend exactly one draw command, of that
kind, on a buffer of tuples of size `t` whose first `n * t` scalars are the scalars of the
vertices in order: `(x_i, y_i)` for 2, `(x_i, y_i, z_i)` for 3, `(x_i, y_i, z_i, 1.0)` for 4.
The vertex count of the command is `(GLsizei)n`, which is `n` when `n < 2 ^ 31`. Afterwards
the used count and the tuple size are zero and no sequence is active. -/
theorem streamed_vertices_drawn (narrow : GLdouble → GLfloat) (min_cache_elems : Nat)
    (style : TStyle) (kind0 : TPrimitive) (calls : List TCall) (s0 : CPolygonOpenGL_2_00)
    (hs0 : run narrow (CPolygonOpenGL_2_00.ctor min_cache_elems style kind0) calls =
      Except.ok s0)
    (prog0 : CPrimitiveOpenGL_2_00) (hp : s0._primitive_prog = some prog0)
    (hidle : prog0.ActiveSequence = false)
    (kind : TPrimitive) (t : Nat) (ht : t = 2 ∨ t = 3 ∨ t = 4)
    (vertices : List (GLfloat × GLfloat × GLfloat)) :
    ∃ s buf count, run narrow s0 (TCall.StartSequence kind t :: vertices.map TCall.vertex ++
        [TCall.EndSequence]) = Except.ok s ∧
      s._gl = s0._gl ++
        [TGLCall.glVertexAttribPointer prog0._attrib_xyzw_inx t TGLType.GL_FLOAT
          (TGLBuffer.floats buf),
         TGLCall.glDrawArrays kind 0 count] ∧
      buf.take (vertices.length * t) = vertices.flatMap (vertex_scalars t) ∧
      count = toGLsizei vertices.length ∧
      (vertices.length < 2 ^ 31 → count = (vertices.length : Int)) ∧
      s._sequence_size = 0 ∧ s._tuple_size = 0 ∧ activeSequence s = false := by
  have hseq := reachable_idle narrow min_cache_elems style kind0 calls s0 hs0 prog0 hp hidle
  obtain ⟨s, buf, h1, h2, h3, h4⟩ :=
    streamed_draw narrow s0 prog0 hp hidle hseq kind t ht vertices
  exact ⟨s, buf, _, h1, h2, h3, rfl, toGLsizei_of_lt _, h4⟩

/-- Witness of C13: on the example renderer the triangle `(1,0,0)`, `(0,1,0)`, `(0,0,1)` with
three scalars a vertex is drawn by one command with vertex count 3 on a buffer that starts
with `[1,0,0,0,1,0,0,0,1]`. -/
theorem streamed_vertices_drawn_witness :
    ∃ s buf, run example_narrow example_renderer
        [TCall.StartSequence TPrimitive.triangles 3, TCall.DrawSequence 1 0 0,
          TCall.DrawSequence 0 1 0, TCall.DrawSequence 0 0 1, TCall.EndSequence] =
        Except.ok s ∧
      s._gl = [TGLCall.glVertexAttribPointer 0 3 TGLType.GL_FLOAT (TGLBuffer.floats buf),
        TGLCall.glDrawArrays TPrimitive.triangles 0 3] ∧
      buf.take 9 = [1, 0, 0, 0, 1, 0, 0, 0, 1] := by
  obtain ⟨s, buf, count, h1, h2, h3, _, h5, _⟩ :=
    streamed_vertices_drawn example_narrow 2 example_style TPrimitive.triangles
      [TCall.Init 0 1] example_renderer rfl _ rfl rfl TPrimitive.triangles 3
      (Or.inr (Or.inl rfl)) [(1, 0, 0), (0, 1, 0), (0, 0, 1)]
  have hc : count = 3 := h5 (by decide)
  subst hc
  exact ⟨s, buf, h1, h2, h3⟩

/-- Counterexample to C13 as stated: `2 ^ 31` vertices streamed with two scalars a vertex are
drawn by a command whose vertex count is `-2147483648`, the value of `(GLsizei)2147483648`,
and not `2147483648`. -/
theorem streamed_count_wraps :
    ∃ s buf, run example_narrow example_renderer
        (TCall.StartSequence TPrimitive.triangles 2 ::
          (List.replicate (2 ^ 31) ((0 : GLfloat), (0 : GLfloat), (0 : GLfloat))).map
            TCall.vertex ++ [TCall.EndSequence]) = Except.ok s ∧
      s._gl = [TGLCall.glVertexAttribPointer 0 2 TGLType.GL_FLOAT (TGLBuffer.floats buf),
        TGLCall.glDrawArrays TPrimitive.triangles 0 (-2147483648)] ∧
      (List.replicate (2 ^ 31) ((0 : GLfloat), (0 : GLfloat), (0 : GLfloat))).length =
        2147483648 := by
  obtain ⟨s, buf, h1, h2, _⟩ := streamed_draw example_narrow example_renderer
    (CPrimitiveOpenGL_2_00.make 0 1) rfl rfl rfl TPrimitive.triangles 2 (Or.inl rfl)
    (List.replicate (2 ^ 31) ((0 : GLfloat), (0 : GLfloat), (0 : GLfloat)))
  have hw : toGLsizei (2 ^ 31) = -2147483648 := by
    unfold toGLsizei
    norm_num
  rw [List.length_replicate, hw] at h2
  exact ⟨s, buf, h1, h2, by rw [List.length_replicate]; norm_num⟩

/-- C14. `EndSequence` resets but retains: in every renderer state with an active sequence, an
`EndSequence()` that returns true sets `_sequence_size` and `_tuple_size` to zero, makes the
sequence inactive and leaves `_elem_cache`, its size included, as it is, so that a
`StartSequence(kind, t)` and `DrawSequence(x, y, z)` that follow write the vertex from index
0 on. `EndSequence()` does return true there when `_tuple_size` is not zero. -/
theorem EndSequence_resets (narrow : GLdouble → GLfloat) (s : CPolygonOpenGL_2_00)
    (prog : CPrimitiveOpenGL_2_00) (hp : s._primitive_prog = some prog)
    (hact : prog.ActiveSequence = true) :
    (∀ s1, EndSequence s = Except.ok (true, s1) →
      s1._sequence_size = 0 ∧ s1._tuple_size = 0 ∧ activeSequence s1 = false ∧
      s1._elem_cache = s._elem_cache ∧ s1._elem_cache.length = s._elem_cache.length ∧
      ∀ (kind : TPrimitive) (t : Nat) (x y z : GLfloat), t = 2 ∨ t = 3 ∨ t = 4 →
        ∃ s2, run narrow s1 [TCall.StartSequence kind t, TCall.DrawSequence x y z] =
            Except.ok s2 ∧
          s2._sequence_size = t ∧ s2._elem_cache.take t = vertex_scalars t (x, y, z)) ∧
    (s._tuple_size ≠ 0 → ∃ s1, EndSequence s = Except.ok (true, s1)) := by
  have hact2 : prog._active_sequence = true := hact
  constructor
  · intro s1 h
    have ht : s._tuple_size ≠ 0 := by
      intro h0
      simp [EndSequence, hp, CPrimitiveOpenGL_2_00.EndSequence, hact2, udiv, h0] at h
    obtain ⟨s1b, e, _, q, t0, a, c, prog1, p1, i1⟩ := EndSequence_active s prog hp hact2 ht
    rw [h] at e
    simp only [Except.ok.injEq, Prod.mk.injEq, true_and] at e
    subst e
    refine ⟨q, t0, a, c, by rw [c], ?_⟩
    intro kind t x y z htt
    obtain ⟨sA, progA, e1, pA, aA, _, _, tA, qA, _, _, _, _⟩ :=
      StartSequence_idle s1 prog1 p1 i1 kind t
    obtain ⟨s2, e2, _, q2, _, c2⟩ := DrawSequence_appends sA x y z progA pA aA
      (by rw [tA]; exact htt) (by rw [qA, q]; exact Nat.zero_le _)
    refine ⟨s2, ?_, by rw [q2, qA, q, tA, Nat.zero_add], ?_⟩
    · rw [run_cons narrow (TCall.StartSequence kind t) _ s1 (true, sA)
          (by rw [TCall.apply, e1]),
        run_cons narrow (TCall.DrawSequence x y z) [] sA (true, s2)
          (by rw [TCall.apply]; exact e2)]
      rfl
    · rw [q2, qA, q, tA, Nat.zero_add] at c2
      rw [c2]
      simp
  · intro ht
    obtain ⟨s1, e, _⟩ := EndSequence_active s prog hp hact2 ht
    exact ⟨s1, e⟩

/-- Witness of C14: `EndSequence()` on the example renderer with an active sequence returns
true and resets the used count. -/
theorem EndSequence_resets_witness :
    ∃ s1, EndSequence example_active = Except.ok (true, s1) ∧ s1._sequence_size = 0 ∧
      s1._tuple_size = 0 ∧ activeSequence s1 = false :=
  ⟨_, rfl,
    ((EndSequence_resets example_narrow example_active _ rfl rfl).1 _ rfl).1,
    rfl, rfl⟩

/-! ## Whole tuples -/

theorem apply_streams (narrow : GLdouble → GLfloat) (s : CPolygonOpenGL_2_00)
    (prog : CPrimitiveOpenGL_2_00) (hp : s._primitive_prog = some prog)
    (hact : prog._active_sequence = true)
    (ht : s._tuple_size = 2 ∨ s._tuple_size = 3 ∨ s._tuple_size = 4)
    (hinv : s._sequence_size ≤ s._elem_cache.length)
    (hdvd : s._tuple_size ∣ s._sequence_size) (call : TCall)
    (hst : call.streamsTuples s._tuple_size) :
    ∃ r, call.apply narrow s = Except.ok r ∧ r.2._primitive_prog = s._primitive_prog ∧
      r.2._tuple_size = s._tuple_size ∧ r.2._sequence_size ≤ r.2._elem_cache.length ∧
      s._tuple_size ∣ r.2._sequence_size := by
  have hseq : ∀ x y z, ∃ r, DrawSequence s x y z = Except.ok r ∧
      r.2._primitive_prog = s._primitive_prog ∧
      r.2._tuple_size = s._tuple_size ∧ r.2._sequence_size ≤ r.2._elem_cache.length ∧
      s._tuple_size ∣ r.2._sequence_size := by
    intro x y z
    obtain ⟨s1, e, f, q, l, _⟩ := DrawSequence_appends s x y z prog hp hact ht hinv
    exact ⟨(true, s1), e, f.2.1, f.2.2.2.2.1, l, by
      show s._tuple_size ∣ s1._sequence_size
      rw [q]; exact Dvd.dvd.add hdvd (dvd_refl _)⟩
  have hbulk : ∀ n (coords : List GLfloat), s._tuple_size ∣ n → n ≤ coords.length →
      ∃ r, DrawSequence_bulk s n coords = Except.ok r ∧
      r.2._primitive_prog = s._primitive_prog ∧
      r.2._tuple_size = s._tuple_size ∧ r.2._sequence_size ≤ r.2._elem_cache.length ∧
      s._tuple_size ∣ r.2._sequence_size := by
    intro n coords hd hn
    obtain ⟨s1, e, q, t1, g, _⟩ := DrawSequence_bulk_active s n coords prog hp hact hn hinv
    refine ⟨(true, s1), e, g, t1, ?_, ?_⟩
    · rcases DrawSequence_bulk_length s s1 n coords true e with ⟨hb, _⟩ | ⟨_, hl⟩
      · exact absurd hb (by decide)
      · show s1._sequence_size ≤ s1._elem_cache.length
        rw [hl, q]
        exact reserve_enough s _ hinv
    · show s._tuple_size ∣ s1._sequence_size
      rw [q]; exact Dvd.dvd.add hdvd hd
  cases call with
  | DrawSequence x y z => exact hseq x y z
  | DrawSequence_double x y z => exact hseq _ _ _
  | DrawSequence_bulk n coords => exact hbulk n coords hst.1 hst.2
  | DrawSequence_bulk_double n coords =>
    show ∃ r, DrawSequence_bulk_double narrow s n coords = Except.ok r ∧ _
    rw [DrawSequence_bulk_double_eq]
    exact hbulk n _ hst.1 (by rw [List.length_map]; exact hst.2)
  | _ => exact absurd hst (by simp [TCall.streamsTuples])

theorem run_streams (narrow : GLdouble → GLfloat) (draws : List TCall)
    (s : CPolygonOpenGL_2_00) (prog : CPrimitiveOpenGL_2_00)
    (hp : s._primitive_prog = some prog) (hact : prog._active_sequence = true)
    (ht : s._tuple_size = 2 ∨ s._tuple_size = 3 ∨ s._tuple_size = 4)
    (hinv : s._sequence_size ≤ s._elem_cache.length)
    (hdvd : s._tuple_size ∣ s._sequence_size)
    (hst : ∀ d ∈ draws, d.streamsTuples s._tuple_size) :
    ∃ s1, run narrow s draws = Except.ok s1 ∧ s1._tuple_size = s._tuple_size ∧
      s._tuple_size ∣ s1._sequence_size ∧ activeSequence s1 = true := by
  induction draws generalizing s with
  | nil =>
    refine ⟨s, rfl, rfl, hdvd, ?_⟩
    simp [activeSequence, hp, CPrimitiveOpenGL_2_00.ActiveSequence, hact]
  | cons d draws ih =>
    obtain ⟨r, e, g, t1, l, dv⟩ := apply_streams narrow s prog hp hact ht hinv hdvd d
      (hst d (List.mem_cons_self _ _))
    obtain ⟨s1, e1, t2, d2, a2⟩ := ih r.2 (by rw [g]; exact hp) (by rw [t1]; exact ht) l
      (by rw [t1]; exact dv)
      (by rw [t1]; exact fun c hc => hst c (List.mem_cons_of_mem _ hc))
    refine ⟨s1, ?_, by rw [t2, t1], by rw [t1] at d2; exact d2, a2⟩
    rw [run_cons narrow d draws s r e]
    exact e1

/-- C15. Whole tuples, for bulk calls of whole tuples: on an initialised renderer with no
active sequence, reached by any series of calls, `StartSequence(kind, t)` with `t` in
`{2, 3, 4}` returns true, and after each call of every series of `DrawSequence` calls that
follows (per-vertex, or bulk with a `coords_size` that is a multiple of `t`),
`_sequence_size` is a multiple of `_tuple_size`, `_tuple_size` is still `t` and the sequence
is still active. -/
theorem whole_tuples (narrow : GLdouble → GLfloat) (min_cache_elems : Nat)
    (style : TStyle) (kind0 : TPrimitive) (calls : List TCall) (s0 : CPolygonOpenGL_2_00)
    (hs0 : run narrow (CPolygonOpenGL_2_00.ctor min_cache_elems style kind0) calls =
      Except.ok s0)
    (prog0 : CPrimitiveOpenGL_2_00) (hp : s0._primitive_prog = some prog0)
    (hidle : prog0.ActiveSequence = false)
    (kind : TPrimitive) (t : Nat) (ht : t = 2 ∨ t = 3 ∨ t = 4)
    (draws : List TCall) (hdraws : ∀ d ∈ draws, d.streamsTuples t) (n : Nat) :
    (StartSequence s0 kind t).1 = true ∧
    ∃ s, run narrow (StartSequence s0 kind t).2 (draws.take n) = Except.ok s ∧
      s._tuple_size = t ∧ s._tuple_size ∣ s._sequence_size ∧ activeSequence s = true := by
  have hseq := reachable_idle narrow min_cache_elems style kind0 calls s0 hs0 prog0 hp hidle
  obtain ⟨sA, prog1, e1, p1, a1, _, _, t1, q1, _, _, _, _⟩ :=
    StartSequence_idle s0 prog0 hp hidle kind t
  rw [e1]
  refine ⟨rfl, ?_⟩
  obtain ⟨s, e, t2, d2, a2⟩ := run_streams narrow (draws.take n) sA prog1 p1 a1
    (by rw [t1]; exact ht) (by rw [q1, hseq]; exact Nat.zero_le _)
    (by rw [q1, hseq]; exact dvd_zero _)
    (by rw [t1]; exact fun d hd => hdraws d (List.mem_of_mem_take hd))
  exact ⟨s, e, by rw [t2, t1], by rw [t2]; exact d2, a2⟩

/-- Witness of C15: on the example renderer a sequence with two scalars a vertex, one vertex
and a bulk call of four scalars. -/
theorem whole_tuples_witness :
    (∀ d ∈ [TCall.DrawSequence 1 0 0, TCall.DrawSequence_bulk 4 [0, 1, 1, 0]],
      d.streamsTuples 2) ∧
    ∃ s, run example_narrow (StartSequence example_renderer TPrimitive.triangles 2).2
        ([TCall.DrawSequence 1 0 0, TCall.DrawSequence_bulk 4 [0, 1, 1, 0]].take 2) =
        Except.ok s ∧
      s._tuple_size = 2 ∧ s._tuple_size ∣ s._sequence_size ∧ activeSequence s = true :=
  ⟨by decide,
    (whole_tuples example_narrow 2 example_style TPrimitive.triangles [TCall.Init 0 1]
      example_renderer rfl _ rfl rfl TPrimitive.triangles 2 (Or.inl rfl)
      [TCall.DrawSequence 1 0 0, TCall.DrawSequence_bulk 4 [0, 1, 1, 0]] (by decide) 2).2⟩

/-- Counterexample to C15 as stated: in a sequence with two scalars a vertex, a bulk
`DrawSequence` with `coords_size` 1 leaves `_sequence_size` at 1, which is no multiple of
`_tuple_size`. -/
theorem whole_tuples_fail :
    ∃ s, run example_narrow example_renderer
        [TCall.StartSequence TPrimitive.triangles 2, TCall.DrawSequence_bulk 1 [0]] =
        Except.ok s ∧
      s._tuple_size = 2 ∧ s._sequence_size = 1 ∧ ¬ s._tuple_size ∣ s._sequence_size :=
  ⟨_, rfl, rfl, rfl, by decide⟩

/-! ## The one-shot `Draw` -/

theorem Draw_outcome (s : CPolygonOpenGL_2_00) (k : TPrimitive) (t n : Nat)
    (coords : List GLfloat) (ht : t ≠ 0) :
    ∃ b s1, Draw s k t n coords = Except.ok (b, s1) ∧
      (b = true ↔ (s._primitive_prog ≠ none ∧ activeSequence s = false)) ∧
      s1._elem_cache = s._elem_cache ∧ s1._sequence_size = s._sequence_size ∧
      s1._tuple_size = s._tuple_size ∧ activeSequence s1 = activeSequence s ∧
      (b = true → ∃ index, s1._gl = s._gl ++
        [TGLCall.glVertexAttribPointer index t TGLType.GL_FLOAT (TGLBuffer.floats coords),
         TGLCall.glDrawArrays k 0 (toGLsizei (n / t))]) ∧
      (b = false → s1 = s) := by
  rcases hp : s._primitive_prog with _ | prog
  · exact ⟨false, s, by simp [Draw, hp], by simp [hp], rfl, rfl, rfl, rfl, by simp, by simp⟩
  · cases hact : prog._active_sequence
    · refine ⟨true, { s with
          _primitive_prog := some ((prog.receive (TProgramCall.ActivateProgram false)).receive
            TProgramCall.DeactivateProgram)
          _gl := s._gl ++ [TGLCall.glVertexAttribPointer prog._attrib_xyzw_inx t
              TGLType.GL_FLOAT (TGLBuffer.floats coords),
            TGLCall.glDrawArrays k 0 (toGLsizei (n / t))] }, ?_, ?_, rfl, rfl, rfl, ?_, ?_, ?_⟩
      · simp [Draw, hp, hact, CPrimitiveOpenGL_2_00.ActiveSequence, udiv, ht,
          CPrimitiveOpenGL_2_00.receive]
      · simp [activeSequence, hp, hact, CPrimitiveOpenGL_2_00.ActiveSequence]
      · simp [activeSequence, hp, hact, CPrimitiveOpenGL_2_00.ActiveSequence,
          CPrimitiveOpenGL_2_00.receive]
      · intro _
        exact ⟨_, rfl⟩
      · intro h
        exact absurd h (by decide)
    · exact ⟨false, s, by simp [Draw, hp, hact, CPrimitiveOpenGL_2_00.ActiveSequence],
        by simp [activeSequence, hp, hact, CPrimitiveOpenGL_2_00.ActiveSequence],
        rfl, rfl, rfl, rfl, by simp, by simp⟩

theorem Draw_double_outcome (s : CPolygonOpenGL_2_00) (k : TPrimitive) (t n : Nat)
    (coords : List GLdouble) (ht : t ≠ 0) :
    ∃ b s1, Draw_double s k t n coords = Except.ok (b, s1) ∧
      (b = true ↔ (s._primitive_prog ≠ none ∧ activeSequence s = false)) ∧
      s1._elem_cache = s._elem_cache ∧ s1._sequence_size = s._sequence_size ∧
      s1._tuple_size = s._tuple_size ∧ activeSequence s1 = activeSequence s ∧
      (b = true → ∃ index, s1._gl = s._gl ++
        [TGLCall.glVertexAttribPointer index t TGLType.GL_DOUBLE (TGLBuffer.doubles coords),
         TGLCall.glDrawArrays k 0 (toGLsizei (n / t))]) ∧
      (b = false → s1 = s) := by
  rcases hp : s._primitive_prog with _ | prog
  · exact ⟨false, s, by simp [Draw_double, hp], by simp [hp], rfl, rfl, rfl, rfl, by simp,
      by simp⟩
  · cases hact : prog._active_sequence
    · refine ⟨true, { s with
          _primitive_prog := some ((prog.receive (TProgramCall.ActivateProgram false)).receive
            TProgramCall.DeactivateProgram)
          _gl := s._gl ++ [TGLCall.glVertexAttribPointer prog._attrib_xyzw_inx t
              TGLType.GL_DOUBLE (TGLBuffer.doubles coords),
            TGLCall.glDrawArrays k 0 (toGLsizei (n / t))] }, ?_, ?_, rfl, rfl, rfl, ?_, ?_, ?_⟩
      · simp [Draw_double, hp, hact, CPrimitiveOpenGL_2_00.ActiveSequence, udiv, ht,
          CPrimitiveOpenGL_2_00.receive]
      · simp [activeSequence, hp, hact, CPrimitiveOpenGL_2_00.ActiveSequence]
      · simp [activeSequence, hp, hact, CPrimitiveOpenGL_2_00.ActiveSequence,
          CPrimitiveOpenGL_2_00.receive]
      · intro _
        exact ⟨_, rfl⟩
      · intro h
        exact absurd h (by decide)
    · exact ⟨false, s, by simp [Draw_double, hp, hact, CPrimitiveOpenGL_2_00.ActiveSequence],
        by simp [activeSequence, hp, hact, CPrimitiveOpenGL_2_00.ActiveSequence],
        rfl, rfl, rfl, rfl, by simp, by simp⟩

/-- C16. An invalid tuple size is not signalled by the return value: on every initialised
renderer with no active sequence and for every `tuple_size`, those outside `{2, 3, 4}`
included, `StartSequence(kind, tuple_size)` returns true, starts a sequence and stores that
tuple size; the one-shot `Draw(kind, tuple_size, coords_size, coords)`, for `float` and for
`double` coordinates, with a `tuple_size` that is not zero returns true after its draw
command and starts no sequence. -/
theorem invalid_tuple_size_accepted (s : CPolygonOpenGL_2_00) (prog : CPrimitiveOpenGL_2_00)
    (hp : s._primitive_prog = some prog) (hidle : prog.ActiveSequence = false)
    (kind : TPrimitive) (t : Nat) :
    (∃ s1, StartSequence s kind t = (true, s1) ∧ activeSequence s1 = true ∧
      s1._tuple_size = t) ∧
    (t ≠ 0 → ∀ n coords, ∃ s1, Draw s kind t n coords = Except.ok (true, s1) ∧
      activeSequence s1 = false) ∧
    (t ≠ 0 → ∀ n coords, ∃ s1, Draw_double s kind t n coords = Except.ok (true, s1) ∧
      activeSequence s1 = false) := by
  have hidle2 : activeSequence s = false := by
    unfold activeSequence; rw [hp]; exact hidle
  have hinit : s._primitive_prog ≠ none := by rw [hp]; simp
  refine ⟨?_, ?_, ?_⟩
  · obtain ⟨s1, prog1, e, p1, a1, _, _, t1, _⟩ := StartSequence_idle s prog hp hidle kind t
    refine ⟨s1, e, ?_, t1⟩
    unfold activeSequence
    rw [p1]
    exact a1
  · intro h0 n coords
    obtain ⟨b, s1, e, hb, _, _, _, a, _, _⟩ := Draw_outcome s kind t n coords h0
    have : b = true := hb.mpr ⟨hinit, hidle2⟩
    subst this
    exact ⟨s1, e, by rw [a, hidle2]⟩
  · intro h0 n coords
    obtain ⟨b, s1, e, hb, _, _, _, a, _, _⟩ := Draw_double_outcome s kind t n coords h0
    have : b = true := hb.mpr ⟨hinit, hidle2⟩
    subst this
    exact ⟨s1, e, by rw [a, hidle2]⟩

/-- Witness of C16: on the example renderer `StartSequence` with tuple size 5 returns true
and starts a sequence. -/
theorem invalid_tuple_size_accepted_witness :
    ¬ ((5 : Nat) = 2 ∨ (5 : Nat) = 3 ∨ (5 : Nat) = 4) ∧
    ∃ s1, StartSequence example_renderer TPrimitive.triangles 5 = (true, s1) ∧
      activeSequence s1 = true ∧ s1._tuple_size = 5 :=
  ⟨by decide,
    (invalid_tuple_size_accepted example_renderer _ rfl rfl TPrimitive.triangles 5).1⟩

/-- Counterexample to C16 as stated: on the example renderer, which is initialised and has no
active sequence, `StartSequence` with tuple size 5 returns true and a sequence is active
afterwards, and `Draw` with tuple size 5 returns true. -/
theorem invalid_tuple_size_not_rejected :
    (StartSequence example_renderer TPrimitive.triangles 5).1 = true ∧
    activeSequence (StartSequence example_renderer TPrimitive.triangles 5).2 = true ∧
    ∃ s1, Draw example_renderer TPrimitive.triangles 5 10 (List.replicate 10 0) =
      Except.ok (true, s1) :=
  ⟨rfl, rfl, _, rfl⟩

/-- C17. The one-shot `Draw` is idle-only and cache-neutral, the vertex count being a
`GLsizei`: in every renderer state, `Draw(kind, tuple_size, coords_size, coords)` with
`tuple_size` in `{2, 3, 4}`, for `float` and for `double` coordinates, returns true exactly
when the renderer is initialised and no sequence is active; when it returns true it gives
the graphics backend one draw command on the array `coords` with the vertex count
`(GLsizei)(coords_size / tuple_size)`, which is `coords_size / tuple_size` (integer
division) when that is below `2 ^ 31`; when it returns false the renderer is as before; in
both outcomes `_elem_cache`, `_sequence_size`, `_tuple_size` and the active-sequence flag
are unchanged. -/
theorem Draw_idle_only (s : CPolygonOpenGL_2_00) (k : TPrimitive) (t n : Nat)
    (ht : t = 2 ∨ t = 3 ∨ t = 4) :
    (∀ coords : List GLfloat, ∃ b s1, Draw s k t n coords = Except.ok (b, s1) ∧
      (b = true ↔ (s._primitive_prog ≠ none ∧ activeSequence s = false)) ∧
      s1._elem_cache = s._elem_cache ∧ s1._sequence_size = s._sequence_size ∧
      s1._tuple_size = s._tuple_size ∧ activeSequence s1 = activeSequence s ∧
      (b = true → ∃ index, s1._gl = s._gl ++
        [TGLCall.glVertexAttribPointer index t TGLType.GL_FLOAT (TGLBuffer.floats coords),
         TGLCall.glDrawArrays k 0 (toGLsizei (n / t))]) ∧
      (b = false → s1 = s)) ∧
    (∀ coords : List GLdouble, ∃ b s1, Draw_double s k t n coords = Except.ok (b, s1) ∧
      (b = true ↔ (s._primitive_prog ≠ none ∧ activeSequence s = false)) ∧
      s1._elem_cache = s._elem_cache ∧ s1._sequence_size = s._sequence_size ∧
      s1._tuple_size = s._tuple_size ∧ activeSequence s1 = activeSequence s ∧
      (b = true → ∃ index, s1._gl = s._gl ++
        [TGLCall.glVertexAttribPointer index t TGLType.GL_DOUBLE (TGLBuffer.doubles coords),
         TGLCall.glDrawArrays k 0 (toGLsizei (n / t))]) ∧
      (b = false → s1 = s)) ∧
    (n / t < 2 ^ 31 → toGLsizei (n / t) = ((n / t : Nat) : Int)) := by
  have h0 : t ≠ 0 := by omega
  exact ⟨fun coords => Draw_outcome s k t n coords h0,
    fun coords => Draw_double_outcome s k t n coords h0, toGLsizei_of_lt _⟩

/-- Witness of C17: a one-shot `Draw` of two triangles with three scalars a vertex on the
example renderer returns true with a draw command of vertex count 6. -/
theorem Draw_idle_only_witness :
    ((3 : Nat) = 2 ∨ (3 : Nat) = 3 ∨ (3 : Nat) = 4) ∧
    (∃ b s1, Draw example_renderer TPrimitive.triangles 3 18 (List.replicate 18 0) =
        Except.ok (b, s1) ∧
      (b = true ↔ (example_renderer._primitive_prog ≠ none ∧
        activeSequence example_renderer = false)) ∧
      s1._elem_cache = example_renderer._elem_cache) ∧
    toGLsizei (18 / 3) = 6 :=
  ⟨by decide,
    match (Draw_idle_only example_renderer TPrimitive.triangles 3 18 (by decide)).1
      (List.replicate 18 0) with
    | ⟨b, s1, h1, h2, h3, _⟩ => ⟨b, s1, h1, h2, h3⟩,
    (Draw_idle_only example_renderer TPrimitive.triangles 3 18 (by decide)).2.2 (by decide)⟩

/-- Counterexample to C17 as stated: a one-shot `Draw` with two scalars a vertex and
`coords_size` `2 ^ 32` on the example renderer returns true with a draw command whose vertex
count is `-2147483648`, the value of `(GLsizei)2147483648`, and not
`coords_size / tuple_size = 2147483648`. -/
theorem Draw_count_wraps :
    ∃ s1 index, Draw example_renderer TPrimitive.triangles 2 (2 ^ 32)
        (List.replicate (2 ^ 32) 0) = Except.ok (true, s1) ∧
      s1._gl = [TGLCall.glVertexAttribPointer index 2 TGLType.GL_FLOAT
          (TGLBuffer.floats (List.replicate (2 ^ 32) 0)),
        TGLCall.glDrawArrays TPrimitive.triangles 0 (-2147483648)] ∧
      2 ^ 32 / 2 = 2147483648 := by
  obtain ⟨b, s1, e, hb, _, _, _, _, hgl, _⟩ := Draw_outcome example_renderer
    TPrimitive.triangles 2 (2 ^ 32) (List.replicate (2 ^ 32) 0) (by decide)
  have hbt : b = true := hb.mpr ⟨by simp [example_renderer, CPolygonOpenGL_2_00.Init,
    CPolygonOpenGL_2_00.ctor], rfl⟩
  subst hbt
  obtain ⟨index, hg⟩ := hgl rfl
  have hw : toGLsizei (2 ^ 32 / 2) = -2147483648 := by
    unfold toGLsizei
    norm_num
  rw [hw] at hg
  exact ⟨s1, index, e, hg, by norm_num⟩

/-! ## The style and the shader program -/

/-- C24, evaluated on the code. On an initialised renderer without an active sequence,
`SetStyle(style)` stores `style` in `_polygon_style`, but the one call it makes of the
collaborator is `SetDeptAttenuation` with the depth attenuation of the style stored before
the call: the argument is read from `_polygon_style` before `_polygon_style = style`. The
factor passed last is that of the old style, not `style._depth_attenuation`. -/
theorem SetStyle_passes_old_attenuation (s : CPolygonOpenGL_2_00) (prog : CPrimitiveOpenGL_2_00)
    (hp : s._primitive_prog = some prog) (hidle : prog.ActiveSequence = false) (style : TStyle) :
    (s.SetStyle style)._polygon_style = style ∧
    ∃ prog1, (s.SetStyle style)._primitive_prog = some prog1 ∧
      prog1._calls =
        prog._calls ++ [TProgramCall.SetDeptAttenuation s._polygon_style._depth_attenuation] ∧
      prog1.lastDeptAttenuation = some s._polygon_style._depth_attenuation := by
  have e : s.SetStyle style =
      { s with
        _primitive_prog := some (prog.receive
          (TProgramCall.SetDeptAttenuation s._polygon_style._depth_attenuation))
        _polygon_style := style } := by
    unfold SetStyle
    rw [hp]
    simp [hidle]
  rw [e]
  refine ⟨rfl, _, rfl, rfl, ?_⟩
  simp [CPrimitiveOpenGL_2_00.lastDeptAttenuation, CPrimitiveOpenGL_2_00.receive]

/-- Witness of C24: the example renderer holds a style with the depth attenuation `0.0`;
after `SetStyle` with a style of depth attenuation `1.0` the stored style has `1.0` and the
factor passed last to `SetDeptAttenuation` is `0.0`. -/
theorem SetStyle_passes_old_attenuation_witness :
    (example_renderer.SetStyle example_attenuated)._polygon_style._depth_attenuation = 1 ∧
    (∃ prog1, (example_renderer.SetStyle example_attenuated)._primitive_prog = some prog1 ∧
      prog1.lastDeptAttenuation = some 0) ∧
    (0 : GLfloat) ≠ example_attenuated._depth_attenuation := by
  obtain ⟨h1, prog1, h2, _, h4⟩ := SetStyle_passes_old_attenuation example_renderer
    (CPrimitiveOpenGL_2_00.make 0 1) rfl rfl example_attenuated
  exact ⟨by rw [h1]; rfl, ⟨prog1, h2, h4⟩, by decide⟩

/-! ## Bulk and per-vertex streaming -/

theorem store_take (vals : List GLfloat) (cache cache1 : List GLfloat) (i : Nat)
    (h : store cache i vals = Except.ok cache1) :
    cache1.take (i + vals.length) = cache.take i ++ vals := by
  induction vals generalizing cache i with
  | nil =>
    unfold store at h
    split at h
    · simp only [Except.ok.injEq] at h
      subst h
      simp
    · exact absurd h (by simp)
  | cons v vals ih =>
    unfold store at h
    split at h
    · rename_i hlt
      have e := ih _ _ h
      rw [set_take_succ _ _ _ hlt] at e
      rw [List.length_cons, ← Nat.add_assoc, Nat.add_right_comm, e]
      simp
    · exact absurd h (by simp)

theorem DrawSequence_bulk_appends (s : CPolygonOpenGL_2_00) (n : Nat) (coords : List GLfloat)
    (prog : CPrimitiveOpenGL_2_00) (hp : s._primitive_prog = some prog)
    (hact : prog._active_sequence = true) (hn : n ≤ coords.length)
    (hinv : s._sequence_size ≤ s._elem_cache.length) :
    ∃ s1, DrawSequence_bulk s n coords = Except.ok (true, s1) ∧ SameButCache s s1 ∧
      s1._sequence_size = s._sequence_size + n ∧
      s1._sequence_size ≤ s1._elem_cache.length ∧
      s1._elem_cache.take s1._sequence_size = s._elem_cache.take s._sequence_size ++ coords.take n := by
  obtain ⟨r1, _, _, _⟩ := reserve_fields s n
  have hlen := reserve_enough s n hinv
  have rt := reserve_take s n hinv
  have hl : (coords.take n).length = n := by simp [hn]
  obtain ⟨cache1, hs, hc⟩ := store_ok (coords.take n) (reserve s n)._elem_cache s._sequence_size
    (by rw [hl]; exact hlen)
  have ht := store_take _ _ _ _ hs
  rw [hl, rt] at ht
  have e : DrawSequence_bulk s n coords = Except.ok (true,
      { reserve s n with _elem_cache := cache1, _sequence_size := s._sequence_size + n }) := by
    unfold DrawSequence_bulk
    rw [hp]
    simp only [CPrimitiveOpenGL_2_00.ActiveSequence, hact, read_array, if_pos hn, r1, hs]
    rfl
  refine ⟨_, e, DrawSequence_bulk_frame _ _ _ _ _ e, rfl, ?_, ht⟩
  show s._sequence_size + n ≤ cache1.length
  rw [hc]
  exact hlen

theorem flatMap_vertex_scalars_length (vertices : List (GLfloat × GLfloat × GLfloat)) :
    (vertices.flatMap (vertex_scalars 3)).length = 3 * vertices.length := by
  induction vertices with
  | nil => rfl
  | cons v vertices ih =>
    rw [List.flatMap_cons, List.length_append, ih, List.length_cons]
    simp [vertex_scalars]
    omega

/-- C26. Bulk and per-vertex streaming agree. On a renderer with an active sequence of tuple
size 3 whose used count does not exceed the size of the cache (as in every reachable state),
for every list of `n` vertices the `n` calls `DrawSequence(x_i, y_i, z_i)` and the one bulk
call `DrawSequence(3n, [x_1, y_1, z_1, ..., x_n, y_n, z_n])` both succeed, and they leave the
same `_sequence_size`, namely the one before plus `3n`, and the same cache contents on
`[0, _sequence_size)`: the scalars written before, unchanged, followed by the `3n` new
scalars. Both leave every other member of the renderer as it was. -/
theorem bulk_agrees_with_per_vertex (narrow : GLdouble → GLfloat) (s : CPolygonOpenGL_2_00)
    (prog : CPrimitiveOpenGL_2_00) (hp : s._primitive_prog = some prog)
    (hact : prog.ActiveSequence = true) (ht : s._tuple_size = 3)
    (hinv : s._sequence_size ≤ s._elem_cache.length)
    (vertices : List (GLfloat × GLfloat × GLfloat)) :
    ∃ s1 s2, run narrow s (vertices.map TCall.vertex) = Except.ok s1 ∧
      s.DrawSequence_bulk (3 * vertices.length) (vertices.flatMap (vertex_scalars 3)) =
        Except.ok (true, s2) ∧
      s1._sequence_size = s._sequence_size + 3 * vertices.length ∧
      s2._sequence_size = s1._sequence_size ∧
      s2._elem_cache.take s2._sequence_size = s1._elem_cache.take s1._sequence_size ∧
      s1._elem_cache.take s1._sequence_size =
        s._elem_cache.take s._sequence_size ++ vertices.flatMap (vertex_scalars 3) ∧
      s1._elem_cache.take s._sequence_size = s._elem_cache.take s._sequence_size ∧
      s2._elem_cache.take s._sequence_size = s._elem_cache.take s._sequence_size ∧
      SameButCache s s1 ∧ SameButCache s s2 := by
  obtain ⟨s1, e1, f1, q1, l1, c1⟩ := run_vertices narrow vertices s prog hp hact
    (Or.inr (Or.inl ht)) hinv
  have hl := flatMap_vertex_scalars_length vertices
  obtain ⟨s2, e2, f2, q2, l2, c2⟩ := DrawSequence_bulk_appends s (3 * vertices.length)
    (vertices.flatMap (vertex_scalars 3)) prog hp hact (by rw [hl]) hinv
  rw [ht] at q1 c1
  have tk : (vertices.flatMap (vertex_scalars 3)).take (3 * vertices.length) =
      vertices.flatMap (vertex_scalars 3) := List.take_of_length_le (by rw [hl])
  rw [tk] at c2
  have q1b : s1._sequence_size = s._sequence_size + 3 * vertices.length := by
    rw [q1]; ring
  have pre : ∀ cache : List GLfloat, ∀ m : Nat,
      cache.take m = s._elem_cache.take s._sequence_size ++ vertices.flatMap (vertex_scalars 3) →
      cache.take s._sequence_size = s._elem_cache.take s._sequence_size := by
    intro cache m hc
    have h1 : (cache.take m).take s._sequence_size = s._elem_cache.take s._sequence_size := by
      rw [hc, List.take_append_of_le_length (by simp [hinv]), List.take_take]
      simp
    have hm : s._sequence_size ≤ m := by
      have := congrArg List.length hc
      simp [hinv] at this
      omega
    rw [List.take_take, min_eq_left hm] at h1
    exact h1
  exact ⟨s1, s2, e1, e2, q1b, by rw [q2, q1b], by rw [c2, c1], c1, pre _ _ c1, pre _ _ c2,
    f1, f2⟩

/-- Witness of C26: on the example renderer with an active sequence of tuple size 3, the
three per-vertex calls for the example vertices and the bulk call with their nine scalars
leave the used count 9 and the same nine scalars in the cache. -/
theorem bulk_agrees_with_per_vertex_witness :
    ∃ s1 s2, run example_narrow example_active (example_vertices.map TCall.vertex) =
        Except.ok s1 ∧
      example_active.DrawSequence_bulk 9 [1, 0, 0, 0, 1, 0, 0, 0, 1] = Except.ok (true, s2) ∧
      s1._sequence_size = 9 ∧ s2._sequence_size = 9 ∧
      s2._elem_cache.take 9 = s1._elem_cache.take 9 ∧
      s1._elem_cache.take 9 = [1, 0, 0, 0, 1, 0, 0, 0, 1] := by
  obtain ⟨s1, s2, e1, e2, q1, q2, c2, c1, _⟩ := bulk_agrees_with_per_vertex example_narrow
    example_active (CPrimitiveOpenGL_2_00.make 0 1).StartSequence.2 rfl rfl rfl (by decide)
    example_vertices
  have h1 : s1._sequence_size = 9 := q1
  have h2 : s2._sequence_size = 9 := q2.trans h1
  rw [h1] at c1 c2
  rw [h2] at c2
  exact ⟨s1, s2, e1, e2, h1, h2, c2, c1⟩

end OpenGL.Polygon
